import Mathlib

/-!
# Review server of the programmers simulator

A shallow embedding of `src/10_balls/server/server.cpp` (class `ProgrammersServer`)
together with the records of `src/10_balls/common/protocol.h`.

Modelling conventions.

* `int`, `time_t` and the three enums travel over the wire as raw integers, so they are
  `Int` here; the enumerators are the named constants below.  Counters are incremented
  without wrap-around: signed overflow is undefined in C++ and lies outside the model.
* `char data[256]` and `std::string` are lists of byte values (`Bytes`).
* `std::map<int, T>` is a key/value list kept in ascending key order by `Map.insert`;
  `std::queue<T>` is a list whose head is the front.
* Every handler receives the values the C library hands out while it runs
  (`time(nullptr)` and the text of `ctime`) in a `Clock`.
* `NetworkUtils::sendMessage` appends to the list of datagrams handed to the socket;
  console logging and `usleep` have no counterpart, except that the `operator[]`
  look-ups made while logging keep their inserting behaviour.
* `std::map::at` on a missing key throws and nothing catches it, so a handler yields
  `none` when that happens.
-/

namespace ProgrammersServer

/-! ## Bytes and C strings -/

abbrev Bytes := List Nat

/-- UTF-8 encoding of one code point. -/
def utf8EncodeChar (c : Nat) : Bytes :=
  if c < 128 then [c]
  else if c < 2048 then [192 + c / 64, 128 + c % 64]
  else if c < 65536 then [224 + c / 4096, 128 + (c / 64) % 64, 128 + c % 64]
  else [240 + c / 262144, 128 + (c / 4096) % 64, 128 + (c / 64) % 64, 128 + c % 64]

/-- Bytes of a string literal of the source file (which is UTF-8 encoded). -/
def lit (s : String) : Bytes :=
  s.toList.flatMap (fun c => utf8EncodeChar c.toNat)

/-- Decimal digits of `n`, most significant first, pushed in front of `acc`. -/
def digitsAux : Nat → Nat → Bytes → Bytes
  | 0, _, acc => acc
  | fuel + 1, n, acc =>
      if n < 10 then (48 + n) :: acc
      else digitsAux fuel (n / 10) ((48 + n % 10) :: acc)

/-- Text of `std::to_string(int)`. -/
def to_string : Int → Bytes
  | Int.ofNat n => digitsAux (n + 1) n []
  | Int.negSucc n => 45 :: digitsAux (n + 2) (n + 1) []

/-- Text of `std::string(const char*)`: the bytes in front of the first NUL. -/
def cstr (buf : Bytes) : Bytes :=
  buf.takeWhile (fun b => b != 0)

/-- The buffer after `memset(data, 0, sizeof(data))`. -/
def zeroData : Bytes := List.replicate 256 0

/-- The buffer after `strcpy(dst, s)`: the text, its terminating NUL, and the bytes of
`dst` behind them. -/
def strcpy (dst s : Bytes) : Bytes :=
  s ++ 0 :: dst.drop (s.length + 1)

/-! ## protocol.h -/

def REGISTER_PROGRAMMER : Int := 1
def REGISTER_OBSERVER : Int := 2
def SUBMIT_PROGRAM : Int := 3
def REQUEST_REVIEW : Int := 4
def REVIEW_RESULT : Int := 5
def STATUS_UPDATE : Int := 6
def DISCONNECT : Int := 7
def SHUTDOWN : Int := 8
def HEARTBEAT : Int := 9
def ASSIGNMENT_NOTIFICATION : Int := 10

def WRITING : Int := 1
def WAITING_REVIEW : Int := 2
def REVIEWING : Int := 3
def FIXING : Int := 4
def SLEEPING : Int := 5

def CORRECT : Int := 1
def INCORRECT : Int := 2

def CLIENT_TIMEOUT : Int := 15

/-- What the C library returns while one handler runs. -/
structure Clock where
  /-- Value of `time(nullptr)`. -/
  now : Int
  /-- The C string `ctime(&now)` points to. -/
  ctime : Bytes
  deriving DecidableEq, Repr

structure Message where
  type : Int
  client_id : Int
  target_id : Int
  program_id : Int
  reviewer_id : Int
  result : Int
  state : Int
  data : Bytes
  timestamp : Int
  deriving DecidableEq, Repr

/-- Result of the constructor `Message()`. -/
def Message.new (clk : Clock) : Message :=
  { type := HEARTBEAT, client_id := 0, target_id := 0, program_id := 0, reviewer_id := 0,
    result := CORRECT, state := WRITING, data := zeroData, timestamp := clk.now }

structure ProgramReview where
  program_id : Int
  author_id : Int
  reviewer_id : Int
  program_name : Bytes
  submitted_time : Int
  deriving DecidableEq, Repr

/-- Result of `ProgramReview(pid, aid, rid, name)`. -/
def ProgramReview.new (clk : Clock) (pid aid rid : Int) (name : Bytes) : ProgramReview :=
  { program_id := pid, author_id := aid, reviewer_id := rid, program_name := name,
    submitted_time := clk.now }

structure ProgrammerInfo where
  id : Int
  name : Bytes
  state : Int
  programs_written : Int
  programs_reviewed : Int
  current_program_id : Int
  current_activity : Bytes
  last_activity : Int
  is_connected : Bool
  deriving DecidableEq, Repr

/-- Result of the default constructor `ProgrammerInfo()`. -/
def ProgrammerInfo.default (clk : Clock) : ProgrammerInfo :=
  { id := 0, name := [], state := WRITING, programs_written := 0, programs_reviewed := 0,
    current_program_id := 0, current_activity := [], last_activity := clk.now,
    is_connected := false }

/-- Result of `ProgrammerInfo(pid, pname)`. -/
def ProgrammerInfo.new (clk : Clock) (pid : Int) (pname : Bytes) : ProgrammerInfo :=
  { id := pid, name := pname, state := WRITING, programs_written := 0,
    programs_reviewed := 0, current_program_id := 0,
    current_activity := lit "Starting work", last_activity := clk.now,
    is_connected := true }

/-! ## std::map -/

abbrev Map (α : Type) := List (Int × α)

namespace Map

variable {α : Type}

/-- Value stored under `k`, the counterpart of `m.find(k)`. -/
def find : Map α → Int → Option α
  | [], _ => none
  | (k1, v) :: rest, k => if k = k1 then some v else find rest k

/-- Test `m.find(k) != m.end()`. -/
def contains (m : Map α) (k : Int) : Bool :=
  (m.find k).isSome

/-- Insert or overwrite the entry of `k`, keeping ascending key order. -/
def insert : Map α → Int → α → Map α
  | [], k, v => [(k, v)]
  | (k1, v1) :: rest, k, v =>
      if k = k1 then (k, v) :: rest
      else if k < k1 then (k, v) :: (k1, v1) :: rest
      else (k1, v1) :: insert rest k v

/-- The map after evaluating `m[k]`: a value-initialised entry appears when `k` is absent. -/
def touch (m : Map α) (k : Int) (dflt : α) : Map α :=
  if m.contains k then m else m.insert k dflt

/-- The element `m[k]` refers to. -/
def get (m : Map α) (k : Int) (dflt : α) : α :=
  (m.find k).getD dflt

/-- The map after `m[k] = f(m[k])`, for instance after assigning a field of `m[k]`. -/
def modify (m : Map α) (k : Int) (dflt : α) (f : α → α) : Map α :=
  m.insert k (f (m.get k dflt))

/-- The map after `m.erase(k)`. -/
def erase (m : Map α) (k : Int) : Map α :=
  m.filter (fun e => e.1 != k)

/-- Keys in iteration order. -/
def keys (m : Map α) : List Int :=
  m.map Prod.fst

end Map

/-! ## Server state -/

abbrev Address := String × Int

/-- One call of `NetworkUtils::sendMessage(sockfd, msg, ip, port)`. -/
structure Sent where
  msg : Message
  ip : String
  port : Int
  deriving DecidableEq, Repr

/-- Data members of `ProgrammersServer` that the message loop reads or writes. -/
structure ServerState where
  running : Bool
  programmers : Map ProgrammerInfo
  programmer_addresses : Map Address
  observer_addresses : Map Address
  review_queues : Map (List ProgramReview)
  next_programmer_id : Int
  next_observer_id : Int
  next_program_id : Int
  deriving DecidableEq, Repr

/-- State built by the constructor and entered by `start()` (which sets `running`). -/
def initial : ServerState :=
  { running := true, programmers := [], programmer_addresses := [], observer_addresses := [],
    review_queues := [], next_programmer_id := 1, next_observer_id := 1000,
    next_program_id := 1 }

/-! ## Snapshot -/

/-- Text of `NetworkUtils::getCurrentTime()`: the C string of `ctime` read into a
`std::string`, without its trailing newline. -/
def getCurrentTime (clk : Clock) : Bytes :=
  let result := cstr clk.ctime
  if result.getLast? = some 10 then result.dropLast else result

/-- The `switch (info.state)` of the snapshot; it has no default branch. -/
def stateText (st : Int) : Bytes :=
  if st = WRITING then lit "Пишет программу"
  else if st = WAITING_REVIEW then lit "Ожидает проверки"
  else if st = REVIEWING then lit "Проверяет программу"
  else if st = FIXING then lit "Исправляет программу"
  else if st = SLEEPING then lit "Спит"
  else []

/-- Lines the snapshot holds for one programmer; `review_queues.at(info.id)` throws when
the key is missing. -/
def programmerText (queues : Map (List ProgramReview)) (info : ProgrammerInfo) :
    Option Bytes :=
  match queues.find info.id with
  | none => none
  | some q =>
      some (lit "Программист: " ++ info.name ++ lit " (ID: " ++ to_string info.id ++ lit ")\n"
        ++ lit "  Состояние: " ++ stateText info.state
        ++ lit "\n  Подключен: " ++ (if info.is_connected then lit "Да" else lit "Нет")
        ++ lit "\n"
        ++ lit "  Текущая активность: " ++ info.current_activity ++ lit "\n"
        ++ lit "  Написано программ: " ++ to_string info.programs_written ++ lit "\n"
        ++ lit "  Проверено программ: " ++ to_string info.programs_reviewed ++ lit "\n"
        ++ lit "  Программ в очереди на проверку: " ++ to_string (Int.ofNat q.length)
        ++ lit "\n\n")

/-- The loop `for (const auto& pair : programmers)` appending to `status`. -/
def programmersText (queues : Map (List ProgramReview)) :
    List (Int × ProgrammerInfo) → Bytes → Option Bytes
  | [], status => some status
  | (_, info) :: rest, status =>
      match programmerText queues info with
      | none => none
      | some t => programmersText queues rest (status ++ t)

/-- The string `status` of `sendFullStatusToObserver`. -/
def statusText (s : ServerState) (clk : Clock) : Option Bytes :=
  programmersText s.review_queues s.programmers
    (lit "=== СОСТОЯНИЕ СИСТЕМЫ ===\n" ++ (lit "Время: " ++ getCurrentTime clk ++ lit "\n\n"))

/-- The loop `while (pos < status.length())`; `rest` is the text from `pos` on and
`fuel` bounds the number of rounds. -/
def sendParts (status_msg : Message) (addr : Address) : Nat → Bytes → Int → List Sent
  | 0, _, _ => []
  | fuel + 1, rest, part =>
      if rest.length = 0 then []
      else
        let chunk_size := min 255 rest.length
        let m := { status_msg with
                   data := rest.take chunk_size ++ zeroData.drop chunk_size,
                   program_id := part }
        ⟨m, addr.1, addr.2⟩ :: sendParts status_msg addr fuel (rest.drop chunk_size) (part + 1)

def sendFullStatusToObserver (s : ServerState) (clk : Clock) (observer_id : Int) :
    Option (List Sent) :=
  if !s.observer_addresses.contains observer_id then some []
  else
    match statusText s clk with
    | none => none
    | some status =>
        let status_msg := { Message.new clk with type := STATUS_UPDATE, client_id := observer_id }
        let addr := s.observer_addresses.get observer_id ("", 0)
        let parts := sendParts status_msg addr status.length status 1
        let last := { status_msg with data := strcpy zeroData (lit "END_OF_STATUS"),
                                      program_id := 0 }
        some (parts ++ [⟨last, addr.1, addr.2⟩])

/-- The loop of `broadcastStatusUpdate` over the observer ids. -/
def broadcastLoop (s : ServerState) (clk : Clock) : List Int → Option (List Sent)
  | [] => some []
  | o :: rest =>
      match sendFullStatusToObserver s clk o with
      | none => none
      | some out =>
          match broadcastLoop s clk rest with
          | none => none
          | some outs => some (out ++ outs)

def broadcastStatusUpdate (s : ServerState) (clk : Clock) : Option (List Sent) :=
  broadcastLoop s clk s.observer_addresses.keys

/-! ## Message handlers

Each handler returns the state it leaves and the datagrams it sent, oldest first.  The
names read only for console output belong to keys the handler has checked or written
just before, except `programmers[review.author_id]` in `handleRequestReview`, which is
kept as a `touch`. -/

abbrev Outcome := Option (ServerState × List Sent)

def handleRegisterProgrammer (s : ServerState) (clk : Clock) (msg : Message)
    (ip : String) (port : Int) : Outcome :=
  let id := s.next_programmer_id
  let name := if cstr msg.data = [] then lit "Программист" ++ to_string id else cstr msg.data
  let s1 := { s with
    next_programmer_id := s.next_programmer_id + 1,
    programmers := s.programmers.insert id (ProgrammerInfo.new clk id name),
    programmer_addresses := s.programmer_addresses.insert id (ip, port),
    review_queues := s.review_queues.insert id [] }
  let response := { Message.new clk with
    type := REGISTER_PROGRAMMER, client_id := id, data := strcpy zeroData name }
  match broadcastStatusUpdate s1 clk with
  | none => none
  | some outs => some (s1, ⟨response, ip, port⟩ :: outs)

def handleRegisterObserver (s : ServerState) (clk : Clock) (_msg : Message)
    (ip : String) (port : Int) : Outcome :=
  let id := s.next_observer_id
  let s1 := { s with
    next_observer_id := s.next_observer_id + 1,
    observer_addresses := s.observer_addresses.insert id (ip, port) }
  let response := { Message.new clk with
    type := REGISTER_OBSERVER, client_id := id,
    data := strcpy zeroData (lit "Observer registered") }
  match sendFullStatusToObserver s1 clk id with
  | none => none
  | some outs => some (s1, ⟨response, ip, port⟩ :: outs)

def handleSubmitProgram (s : ServerState) (clk : Clock) (msg : Message)
    (_ip : String) (_port : Int) : Outcome :=
  let author_id := msg.client_id
  let target_id := msg.target_id
  if !s.programmers.contains author_id || !s.programmers.contains target_id then
    some (s, [])
  else
    let program_id := s.next_program_id
    let program_name :=
      if cstr msg.data = [] then lit "Программа" ++ to_string program_id else cstr msg.data
    let review := ProgramReview.new clk program_id author_id target_id program_name
    let s1 := { s with
      next_program_id := s.next_program_id + 1,
      review_queues := s.review_queues.modify target_id [] (fun q => q ++ [review]),
      programmers := s.programmers.modify author_id (ProgrammerInfo.default clk)
        (fun p => { p with
          state := WAITING_REVIEW,
          current_program_id := program_id,
          current_activity := lit "Ожидает проверки программы " ++ program_name,
          last_activity := clk.now }) }
    let notification := { Message.new clk with
      type := ASSIGNMENT_NOTIFICATION, client_id := target_id, program_id := program_id,
      target_id := author_id, data := strcpy zeroData program_name }
    let addr := s.programmer_addresses.get target_id ("", 0)
    let sent : List Sent :=
      if s.programmer_addresses.contains target_id then [⟨notification, addr.1, addr.2⟩]
      else []
    match broadcastStatusUpdate s1 clk with
    | none => none
    | some outs => some (s1, sent ++ outs)

def handleRequestReview (s : ServerState) (clk : Clock) (msg : Message)
    (ip : String) (port : Int) : Outcome :=
  let reviewer_id := msg.client_id
  if !s.programmers.contains reviewer_id then some (s, [])
  else
    let queues := s.review_queues.touch reviewer_id []
    match queues.get reviewer_id [] with
    | [] =>
        let response := { Message.new clk with
          type := REQUEST_REVIEW, client_id := reviewer_id, program_id := 0,
          data := strcpy zeroData (lit "No programs to review") }
        some ({ s with review_queues := queues }, [⟨response, ip, port⟩])
    | review :: _ =>
        let response := { Message.new clk with
          type := REQUEST_REVIEW, client_id := reviewer_id,
          program_id := review.program_id, target_id := review.author_id,
          data := strcpy zeroData review.program_name }
        let programmers := s.programmers.modify reviewer_id (ProgrammerInfo.default clk)
          (fun p => { p with
            state := REVIEWING,
            current_activity := lit "Проверяет программу \x27" ++ review.program_name
              ++ lit "\x27",
            last_activity := clk.now })
        let s1 := { s with
          review_queues := queues.modify reviewer_id [] List.tail,
          programmers := programmers.touch review.author_id (ProgrammerInfo.default clk) }
        match broadcastStatusUpdate s1 clk with
        | none => none
        | some outs => some (s1, ⟨response, ip, port⟩ :: outs)

def handleReviewResult (s : ServerState) (clk : Clock) (msg : Message)
    (_ip : String) (_port : Int) : Outcome :=
  let reviewer_id := msg.client_id
  let author_id := msg.target_id
  let program_id := msg.program_id
  let result := msg.result
  if !s.programmers.contains reviewer_id || !s.programmers.contains author_id then
    some (s, [])
  else
    let programmers1 := s.programmers.modify reviewer_id (ProgrammerInfo.default clk)
      (fun p => { p with
        programs_reviewed := p.programs_reviewed + 1,
        state := WRITING,
        current_activity := lit "Пишет новую программу",
        last_activity := clk.now })
    let addr := s.programmer_addresses.get author_id ("", 0)
    let sent : List Sent :=
      if s.programmer_addresses.contains author_id then [⟨msg, addr.1, addr.2⟩] else []
    let programmers2 := programmers1.modify author_id (ProgrammerInfo.default clk)
      (fun p =>
        if result = CORRECT then
          { p with
            programs_written := p.programs_written + 1,
            state := WRITING,
            current_activity := lit "Пишет новую программу",
            last_activity := clk.now }
        else
          { p with
            state := FIXING,
            current_activity := lit "Исправляет программу (ID: " ++ to_string program_id
              ++ lit ")",
            last_activity := clk.now })
    let s1 := { s with programmers := programmers2 }
    match broadcastStatusUpdate s1 clk with
    | none => none
    | some outs => some (s1, sent ++ outs)

def handleDisconnect (s : ServerState) (clk : Clock) (msg : Message)
    (_ip : String) (_port : Int) : Outcome :=
  let client_id := msg.client_id
  let s1 :=
    if s.programmers.contains client_id then
      { s with
        programmers := s.programmers.modify client_id (ProgrammerInfo.default clk)
          (fun p => { p with is_connected := false }) }
    else if s.observer_addresses.contains client_id then
      { s with observer_addresses := s.observer_addresses.erase client_id }
    else s
  match broadcastStatusUpdate s1 clk with
  | none => none
  | some outs => some (s1, outs)

def handleHeartbeat (s : ServerState) (clk : Clock) (msg : Message)
    (_ip : String) (_port : Int) : Outcome :=
  let client_id := msg.client_id
  if s.programmers.contains client_id then
    some ({ s with
            programmers := s.programmers.modify client_id (ProgrammerInfo.default clk)
              (fun p => { p with last_activity := clk.now, is_connected := true }) }, [])
  else some (s, [])

/-- The loop of `checkHeartbeats` over the keys of `programmers`. -/
def checkHeartbeatsLoop (clk : Clock) : List Int → ServerState → Outcome
  | [], s => some (s, [])
  | k :: ks, s =>
      let info := s.programmers.get k (ProgrammerInfo.default clk)
      if info.is_connected && decide (clk.now - info.last_activity > CLIENT_TIMEOUT) then
        let s1 := { s with
          programmers := s.programmers.modify k (ProgrammerInfo.default clk)
            (fun p => { p with is_connected := false }) }
        match broadcastStatusUpdate s1 clk with
        | none => none
        | some outs =>
            match checkHeartbeatsLoop clk ks s1 with
            | none => none
            | some (s2, outs2) => some (s2, outs ++ outs2)
      else checkHeartbeatsLoop clk ks s

def checkHeartbeats (s : ServerState) (clk : Clock) : Outcome :=
  checkHeartbeatsLoop clk s.programmers.keys s

/-- The `switch (msg.type)` of `processMessages` for one received datagram. -/
def processMessage (s : ServerState) (clk : Clock) (msg : Message) (ip : String)
    (port : Int) : Outcome :=
  if msg.type = REGISTER_PROGRAMMER then handleRegisterProgrammer s clk msg ip port
  else if msg.type = REGISTER_OBSERVER then handleRegisterObserver s clk msg ip port
  else if msg.type = SUBMIT_PROGRAM then handleSubmitProgram s clk msg ip port
  else if msg.type = REQUEST_REVIEW then handleRequestReview s clk msg ip port
  else if msg.type = REVIEW_RESULT then handleReviewResult s clk msg ip port
  else if msg.type = DISCONNECT then handleDisconnect s clk msg ip port
  else if msg.type = HEARTBEAT then handleHeartbeat s clk msg ip port
  else some (s, [])

/-! ## Runs of the main loop -/

/-- One thing `mainLoop` does to the state: it handles a received datagram or it runs the
liveness check. -/
inductive Step where
  | recv (clk : Clock) (msg : Message) (ip : String) (port : Int)
  | sweep (clk : Clock)
  deriving DecidableEq, Repr

def step (s : ServerState) : Step → Outcome
  | Step.recv clk msg ip port => processMessage s clk msg ip port
  | Step.sweep clk => checkHeartbeats s clk

/-- State and datagrams after the steps in turn; `none` once a step has thrown. -/
def run : ServerState → List Step → Outcome
  | s, [] => some (s, [])
  | s, e :: es =>
      match step s e with
      | none => none
      | some (s1, outs1) =>
          match run s1 es with
          | none => none
          | some (s2, outs2) => some (s2, outs1 ++ outs2)

/-- States the server can be in: those a run from the initial state ends in. -/
def Reachable (s : ServerState) : Prop :=
  ∃ steps outs, run initial steps = some (s, outs)

/-! ## What a run shows to the outside -/

/-- Item ids carried by the review replies to `r` that hand out an item, oldest first. -/
def served (r : Int) (outs : List Sent) : List Int :=
  (outs.filter (fun o => o.msg.type == REQUEST_REVIEW && o.msg.client_id == r &&
    o.msg.program_id != 0)).map (fun o => o.msg.program_id)

/-- Item id created when the step is a submission to `r` that the server accepts in `s`. -/
def submittedBy (r : Int) (s : ServerState) : Step → List Int
  | Step.recv _ msg _ _ =>
      if msg.type = SUBMIT_PROGRAM ∧ msg.target_id = r ∧
          s.programmers.contains msg.client_id = true ∧
          s.programmers.contains msg.target_id = true then [s.next_program_id]
      else []
  | Step.sweep _ => []

/-- Item ids created by the accepted submissions to `r` during a run from `s`, in order. -/
def submitted (r : Int) : ServerState → List Step → List Int
  | _, [] => []
  | s, e :: es =>
      submittedBy r s e ++
        (match step s e with
         | none => []
         | some (s1, _) => submitted r s1 es)

/-- Ids of the items waiting in the queue of `r`, front first. -/
def queueIds (r : Int) (s : ServerState) : List Int :=
  (s.review_queues.get r []).map (fun it => it.program_id)

def isRegisterProgrammer : Step → Bool
  | Step.recv _ msg _ _ => msg.type == REGISTER_PROGRAMMER
  | Step.sweep _ => false

def isRegisterObserver : Step → Bool
  | Step.recv _ msg _ _ => msg.type == REGISTER_OBSERVER
  | Step.sweep _ => false

/-- Number of programmer registrations among the steps. -/
def registrations (steps : List Step) : Nat :=
  (steps.filter isRegisterProgrammer).length

/-- Number of observer registrations among the steps. -/
def observerRegistrations (steps : List Step) : Nat :=
  (steps.filter isRegisterObserver).length

/-- Ids issued to programmers: those of the registration acknowledgements, in order. -/
def authorAcks (outs : List Sent) : List Int :=
  (outs.filter (fun o => o.msg.type == REGISTER_PROGRAMMER)).map (fun o => o.msg.client_id)

/-- Ids issued to observers: those of the registration acknowledgements, in order. -/
def observerAcks (outs : List Sent) : List Int :=
  (outs.filter (fun o => o.msg.type == REGISTER_OBSERVER)).map (fun o => o.msg.client_id)

/-! ## The registry invariant and the summaries of steps and runs -/

/-- A pending item of the queue of `k` is in order: its author is registered, its id has
been handed out, its name has no NUL byte and it is addressed to `k`. -/
def ItemOK (s : ServerState) (k : Int) (it : ProgramReview) : Prop :=
  s.programmers.contains it.author_id = true ∧ 1 ≤ it.program_id ∧
  it.program_id < s.next_program_id ∧ 0 ∉ it.program_name ∧ it.reviewer_id = k

/-- What every reachable state satisfies: the three tables of programmers share their
keys, every record sits under its own id, pending items name a registered author and
carry an id already handed out, and the ids lie in the ranges of their counters. -/
structure Inv (s : ServerState) : Prop where
  ids : ∀ e ∈ s.programmers, e.2.id = e.1
  queues : ∀ k, s.programmers.contains k = true ↔ s.review_queues.contains k = true
  addrs : ∀ k, s.programmers.contains k = true ↔ s.programmer_addresses.contains k = true
  items : ∀ k q, s.review_queues.find k = some q → ∀ it ∈ q, ItemOK s k it
  progKeys : ∀ k, s.programmers.contains k = true → 1 ≤ k ∧ k < s.next_programmer_id
  obsKeys : ∀ k, s.observer_addresses.contains k = true → 1000 ≤ k ∧ k < s.next_observer_id
  nextProgrammer : 1 ≤ s.next_programmer_id
  nextObserver : 1000 ≤ s.next_observer_id
  nextProgram : 1 ≤ s.next_program_id

/-- Everything but the registry of programmers is the same in `s` and `s1`: this is what
a liveness check and a heartbeat leave alone. -/
def SameButFlags (s s1 : ServerState) : Prop :=
  s1.running = s.running ∧ s1.programmer_addresses = s.programmer_addresses ∧
  s1.observer_addresses = s.observer_addresses ∧ s1.review_queues = s.review_queues ∧
  s1.next_programmer_id = s.next_programmer_id ∧ s1.next_observer_id = s.next_observer_id ∧
  s1.next_program_id = s.next_program_id

/-- The consecutive ids `first, first + 1, ...`, `n` of them. -/
def idsFrom (first : Int) (n : Nat) : List Int :=
  (List.range n).map (fun (i : Nat) => first + (i : Int))

/-- What one step does to the counters, the key sets and the observations. -/
structure StepFacts (s : ServerState) (e : Step) (s1 : ServerState) (outs : List Sent) :
    Prop where
  inv : Inv s1
  fifo : ∀ r, served r outs ++ queueIds r s1 = queueIds r s ++ submittedBy r s e
  progCounter : s1.next_programmer_id =
    s.next_programmer_id + (if isRegisterProgrammer e then 1 else 0)
  obsCounter : s1.next_observer_id =
    s.next_observer_id + (if isRegisterObserver e then 1 else 0)
  progAcks : authorAcks outs = if isRegisterProgrammer e then [s.next_programmer_id] else []
  obsAcks : observerAcks outs = if isRegisterObserver e then [s.next_observer_id] else []
  progKeys : ∀ k, s1.programmers.contains k = true ↔
    (s.programmers.contains k = true ∨
      (isRegisterProgrammer e = true ∧ k = s.next_programmer_id))
  obsNew : isRegisterObserver e = true →
    s1.observer_addresses.contains s.next_observer_id = true

/-- What a run does to the counters, the key sets and the observations. -/
structure RunFacts (s : ServerState) (steps : List Step) (s1 : ServerState)
    (outs : List Sent) : Prop where
  inv : Inv s1
  fifo : ∀ r, served r outs ++ queueIds r s1 = queueIds r s ++ submitted r s steps
  progCounter : s1.next_programmer_id = s.next_programmer_id + registrations steps
  obsCounter : s1.next_observer_id = s.next_observer_id + observerRegistrations steps
  progAcks : authorAcks outs = idsFrom s.next_programmer_id (registrations steps)
  obsAcks : observerAcks outs = idsFrom s.next_observer_id (observerRegistrations steps)
  progKeys : ∀ k, s1.programmers.contains k = true ↔
    (s.programmers.contains k = true ∨
      (s.next_programmer_id ≤ k ∧ k < s.next_programmer_id + registrations steps))

/-- The message is one of the four kinds that name a programmer, and an id it names is
not in the registry. -/
def UnknownReference (s : ServerState) (msg : Message) : Prop :=
  (msg.type = SUBMIT_PROGRAM ∧
    (s.programmers.contains msg.client_id = false ∨
      s.programmers.contains msg.target_id = false)) ∨
  (msg.type = REQUEST_REVIEW ∧ s.programmers.contains msg.client_id = false) ∨
  (msg.type = REVIEW_RESULT ∧
    (s.programmers.contains msg.client_id = false ∨
      s.programmers.contains msg.target_id = false)) ∨
  (msg.type = HEARTBEAT ∧ s.programmers.contains msg.client_id = false)

/-! ## Sample traffic

Concrete datagrams and runs on which the statements below are exercised. -/

def sampleClock : Clock :=
  { now := 1000, ctime := lit "Sat Oct 31 12:00:00 2026\n" }

/-- A datagram as a client builds it: `Message()`, then the fields it assigns. -/
def sampleMessage (type client_id target_id : Int) (result : Int) (text : Bytes) : Message :=
  { Message.new sampleClock with
    type := type, client_id := client_id, target_id := target_id, result := result,
    data := strcpy zeroData text }

def sampleRegister (name : String) (port : Int) : Step :=
  Step.recv sampleClock (sampleMessage REGISTER_PROGRAMMER 0 0 CORRECT (lit name))
    "127.0.0.1" port

def sampleRegisterObserver (port : Int) : Step :=
  Step.recv sampleClock (sampleMessage REGISTER_OBSERVER 0 0 CORRECT []) "127.0.0.1" port

def sampleSubmit (author target : Int) (name : String) : Step :=
  Step.recv sampleClock (sampleMessage SUBMIT_PROGRAM author target CORRECT (lit name))
    "127.0.0.1" (9000 + author)

/-- State a run from the initial state ends in. -/
def stateAfter (steps : List Step) : ServerState :=
  match run initial steps with
  | some (s, _) => s
  | none => initial

/-- Datagrams a run from the initial state sends. -/
def sentAfter (steps : List Step) : List Sent :=
  match run initial steps with
  | some (_, outs) => outs
  | none => []

/-- A thousand programmer registrations followed by one observer registration. -/
def thousandAndOne : List Step :=
  List.replicate 1000 (sampleRegister "A" 9001) ++ [sampleRegisterObserver 9100]

/-- Two programmers `A` (id 1) and `B` (id 2) have registered. -/
def twoProgrammers : ServerState :=
  stateAfter [sampleRegister "A" 9001, sampleRegister "B" 9002]

/-- Programmers `A` and `B` have registered and `A` has submitted `X` and `Y` to `B`. -/
def twoPending : ServerState :=
  stateAfter [sampleRegister "A" 9001, sampleRegister "B" 9002, sampleSubmit 1 2 "X",
    sampleSubmit 1 2 "Y"]

/-! ## The sending loop of the snapshot, and the observer client -/

/-- Datagrams that the second half of `sendFullStatusToObserver` (from `Message status_msg;`
on) sends for the text `status`: the numbered parts and the end marker. -/
def sendStatus (clk : Clock) (observer_id : Int) (addr : Address) (status : Bytes) :
    List Sent :=
  let status_msg := { Message.new clk with type := STATUS_UPDATE, client_id := observer_id }
  let parts := sendParts status_msg addr status.length status 1
  let last := { status_msg with data := strcpy zeroData (lit "END_OF_STATUS"),
                                program_id := 0 }
  parts ++ [⟨last, addr.1, addr.2⟩]

/-- Data members of `ObserverClient` (observer.cpp) that its message handling uses. -/
structure ObserverClient where
  client_id : Int
  running : Bool
  registered : Bool
  accumulated_status : Bytes
  deriving DecidableEq, Repr

namespace ObserverClient

/-- The client after `handleStatusUpdate(msg)`, and the snapshot texts it has printed. -/
def handleStatusUpdate (o : ObserverClient) (msg : Message) : ObserverClient × List Bytes :=
  if msg.client_id ≠ o.client_id then (o, [])
  else if cstr msg.data = lit "END_OF_STATUS" then
    ({ o with accumulated_status := [] }, [o.accumulated_status])
  else ({ o with accumulated_status := o.accumulated_status ++ cstr msg.data }, [])

/-- The `switch (msg.type)` of the observer for one received datagram. -/
def processMessage (o : ObserverClient) (msg : Message) : ObserverClient × List Bytes :=
  if msg.type = STATUS_UPDATE then o.handleStatusUpdate msg
  else if msg.type = SHUTDOWN then ({ o with running := false }, [])
  else (o, [])

/-- The client after the datagrams in turn, and the snapshot texts printed on the way. -/
def processMessages (o : ObserverClient) : List Message → ObserverClient × List Bytes
  | [] => (o, [])
  | msg :: rest =>
      let r := o.processMessage msg
      let r2 := processMessages r.1 rest
      (r2.1, r.2 ++ r2.2)

/-- Datagrams `requestStatusUpdate()` sends to the server (keys `r` and Enter). -/
def requestStatusUpdate (o : ObserverClient) (clk : Clock) : List Message :=
  if !o.registered then []
  else [{ Message.new clk with
          type := STATUS_UPDATE, client_id := o.client_id,
          data := strcpy zeroData (lit "Request status update") }]

end ObserverClient

/-- The record after a liveness check at time `now`. -/
def swept (now : Int) (v : ProgrammerInfo) : ProgrammerInfo :=
  { v with is_connected := v.is_connected && decide (now - v.last_activity ≤ CLIENT_TIMEOUT) }

/-- The kinds `processMessages` of the server has a case for. -/
def HandledKind (type : Int) : Prop :=
  type = REGISTER_PROGRAMMER ∨ type = REGISTER_OBSERVER ∨ type = SUBMIT_PROGRAM ∨
  type = REQUEST_REVIEW ∨ type = REVIEW_RESULT ∨ type = DISCONNECT ∨ type = HEARTBEAT

instance (type : Int) : Decidable (HandledKind type) := by
  unfold HandledKind
  infer_instance

/-- The step takes the connection of programmer `a`, last heard of at `last_activity`: it
is a disconnect datagram naming `a`, or a liveness check later than the timeout allows. -/
def Disconnects (a : Int) (last_activity : Int) : Step → Prop
  | Step.recv _ msg _ _ => msg.type = DISCONNECT ∧ msg.client_id = a
  | Step.sweep clk => clk.now - last_activity > CLIENT_TIMEOUT

/-- The datagrams `outs` contain, side by side and in order, the complete snapshot of
`text` for observer `o` at `addr`: its numbered parts and the end marker. -/
def SnapshotIn (clk : Clock) (o : Int) (addr : Address) (text : Bytes) (outs : List Sent) :
    Prop :=
  ∃ pre post, outs = pre ++ sendStatus clk o addr text ++ post

/-- Programmers `A` and `B` and one observer (id 1000) have registered. -/
def withObserver : ServerState :=
  stateAfter [sampleRegister "A" 9001, sampleRegister "B" 9002, sampleRegisterObserver 9100]

/-- The observer client of `withObserver`, registered under id 1000. -/
def sampleObserver : ObserverClient :=
  { client_id := 1000, running := true, registered := true, accumulated_status := [] }

/-- A clock reading `now`. -/
def clockAt (now : Int) : Clock :=
  { now := now, ctime := lit "Sat Oct 31 12:00:16 2026\n" }

/-- The same heartbeat datagram, received once at each of the given times. -/
def heartbeats (msg : Message) (ip : String) (port : Int) (clocks : List Clock) : List Step :=
  clocks.map (fun c => Step.recv c msg ip port)

def sampleDisconnect (id : Int) (port : Int) : Step :=
  Step.recv sampleClock (sampleMessage DISCONNECT id 0 CORRECT []) "127.0.0.1" port

/-- Programmers `A` and `B` have registered and `A` has disconnected. -/
def oneGone : ServerState :=
  stateAfter [sampleRegister "A" 9001, sampleRegister "B" 9002, sampleDisconnect 1 9001]

/-- The clock a step runs under. -/
def stepClock : Step → Clock
  | Step.recv clk _ _ _ => clk
  | Step.sweep clk => clk

/-- Steps after which the server calls `broadcastStatusUpdate`: a programmer
registration, an accepted submission, a review request that hands out an item, an
accepted review result, a disconnect datagram, and a liveness check that finds a
connected programmer silent for longer than the timeout. -/
def Broadcasting (s : ServerState) : Step → Prop
  | Step.recv _ msg _ _ =>
      msg.type = REGISTER_PROGRAMMER ∨
      (msg.type = SUBMIT_PROGRAM ∧ s.programmers.contains msg.client_id = true ∧
        s.programmers.contains msg.target_id = true) ∨
      (msg.type = REQUEST_REVIEW ∧ s.programmers.contains msg.client_id = true ∧
        ∃ item rest, s.review_queues.find msg.client_id = some (item :: rest)) ∨
      (msg.type = REVIEW_RESULT ∧ s.programmers.contains msg.client_id = true ∧
        s.programmers.contains msg.target_id = true) ∨
      msg.type = DISCONNECT
  | Step.sweep clk =>
      ∃ a v, s.programmers.find a = some v ∧ v.is_connected = true ∧
        clk.now - v.last_activity > CLIENT_TIMEOUT

/-- The datagrams `outs` hold, side by side and in order, a complete snapshot of `text`
for observer `o` at `addr`: at least one data part and then one final datagram, all of
them STATUS_UPDATE datagrams tagged with `o` and sent to `addr`; the data parts are
numbered 1, 2, ..., n, each carries between 1 and 255 bytes, and their texts put together
in order are `text`; the final datagram has part number 0 and reads "END_OF_STATUS". -/
def CompleteSnapshot (o : Int) (addr : Address) (text : Bytes) (outs : List Sent) : Prop :=
  ∃ pre parts final post, outs = pre ++ (parts ++ [final]) ++ post ∧ parts ≠ [] ∧
    (∀ x ∈ parts ++ [final], x.msg.type = STATUS_UPDATE ∧ x.msg.client_id = o ∧
      x.ip = addr.1 ∧ x.port = addr.2) ∧
    parts.map (fun x => x.msg.program_id) = idsFrom 1 parts.length ∧
    (∀ x ∈ parts, 1 ≤ (cstr x.msg.data).length ∧ (cstr x.msg.data).length ≤ 255) ∧
    parts.flatMap (fun x => cstr x.msg.data) = text ∧
    final.msg.program_id = 0 ∧ cstr final.msg.data = lit "END_OF_STATUS"

/-! ## Pending items, accepted submissions and the tidiness of the tables -/

/-- Ids of all items waiting for a review, queue after queue in the order of the table. -/
def pendingIds (s : ServerState) : List Int :=
  s.review_queues.flatMap (fun e => e.2.map (fun it => it.program_id))

/-- The step is a submission that `handleSubmitProgram` accepts in `s`: both ids it names
are registered. -/
def isAccepted (s : ServerState) : Step → Bool
  | Step.recv _ msg _ _ =>
      msg.type == SUBMIT_PROGRAM && s.programmers.contains msg.client_id &&
        s.programmers.contains msg.target_id
  | Step.sweep _ => false

/-- Number of submissions accepted during a run from `s`. -/
def accepted : ServerState → List Step → Nat
  | _, [] => 0
  | s, e :: es =>
      (if isAccepted s e then 1 else 0) +
        (match step s e with
         | none => 0
         | some (s1, _) => accepted s1 es)

/-- No item id waits twice, neither in one queue nor in two, and the table of queues is
in ascending key order (so each key occurs once). -/
structure QueuesTidy (m : Map (List ProgramReview)) : Prop where
  nodup : ∀ k q, m.find k = some q → (q.map (fun it => it.program_id)).Nodup
  apart : ∀ k1 k2 q1 q2, k1 ≠ k2 → m.find k1 = some q1 → m.find k2 = some q2 →
    ∀ it1 ∈ q1, ∀ it2 ∈ q2, it1.program_id ≠ it2.program_id
  sorted : m.keys.Pairwise (fun a b => a < b)

/-- The name and the activity text of every record are free of NUL bytes. -/
def TextsTidy (m : Map ProgrammerInfo) : Prop :=
  ∀ e ∈ m, 0 ∉ e.2.name ∧ 0 ∉ e.2.current_activity

/-- What every reachable state satisfies besides `Inv`. -/
structure Tidy (s : ServerState) : Prop where
  queues : QueuesTidy s.review_queues
  texts : TextsTidy s.programmers

/-- Programmers `A` and `B` register; `A` submits `X` to `B` and `B` submits `Y` to `A`. -/
def crossPending : List Step :=
  [sampleRegister "A" 9001, sampleRegister "B" 9002, sampleSubmit 1 2 "X",
    sampleSubmit 2 1 "Y"]

/-! ## Facts about maps -/

namespace Map

variable {α : Type}

theorem find_insert_self (m : Map α) (k : Int) (v : α) : (m.insert k v).find k = some v := by
  induction m with
  | nil => simp [insert, find]
  | cons e rest ih =>
      obtain ⟨k1, v1⟩ := e
      by_cases h1 : k = k1
      · simp [insert, find, h1]
      · by_cases h2 : k < k1
        · simp [insert, find, h1, h2]
        · simp [insert, find, h1, h2, ih]

theorem find_insert_ne (m : Map α) (k j : Int) (v : α) (h : j ≠ k) :
    (m.insert k v).find j = m.find j := by
  induction m with
  | nil => simp [insert, find, h]
  | cons e rest ih =>
      obtain ⟨k1, v1⟩ := e
      by_cases h1 : k = k1
      · subst h1
        simp [insert, find, h]
      · by_cases h2 : k < k1
        · simp [insert, find, h1, h2, h]
        · simp [insert, find, h1, h2, ih]

theorem contains_insert (m : Map α) (k j : Int) (v : α) :
    (m.insert k v).contains j = (decide (j = k) || m.contains j) := by
  by_cases h : j = k
  · subst h
    simp [contains, find_insert_self]
  · simp [contains, find_insert_ne m k j v h, h]

theorem contains_insert_self (m : Map α) (k : Int) (v : α) :
    (m.insert k v).contains k = true := by
  simp [contains_insert]

theorem contains_insert_of_contains (m : Map α) (k j : Int) (v : α)
    (h : m.contains j = true) : (m.insert k v).contains j = true := by
  simp [contains_insert, h]

theorem mem_insert (m : Map α) (k : Int) (v : α) (e : Int × α)
    (h : e ∈ m.insert k v) : e = (k, v) ∨ e ∈ m := by
  induction m with
  | nil => simpa [insert] using h
  | cons e1 rest ih =>
      obtain ⟨k1, v1⟩ := e1
      by_cases h1 : k = k1
      · simp only [insert, h1, if_true, List.mem_cons] at h
        rcases h with h | h
        · exact Or.inl (by rw [h, h1])
        · exact Or.inr (List.mem_cons_of_mem _ h)
      · by_cases h2 : k < k1
        · simp only [insert, h1, h2, if_true, if_false, List.mem_cons] at h
          rcases h with h | h | h
          · exact Or.inl h
          · exact Or.inr (by rw [h]; exact List.mem_cons_self _ _)
          · exact Or.inr (List.mem_cons_of_mem _ h)
        · simp only [insert, h1, h2, if_false, List.mem_cons] at h
          rcases h with h | h
          · exact Or.inr (by rw [h]; exact List.mem_cons_self _ _)
          · rcases ih h with h3 | h3
            · exact Or.inl h3
            · exact Or.inr (List.mem_cons_of_mem _ h3)

theorem mem_of_find (m : Map α) (k : Int) (v : α) (h : m.find k = some v) : (k, v) ∈ m := by
  induction m with
  | nil => simp [find] at h
  | cons e rest ih =>
      obtain ⟨k1, v1⟩ := e
      by_cases h1 : k = k1
      · simp only [find, h1, if_true, Option.some.injEq] at h
        rw [h1, ← h]
        exact List.mem_cons_self _ _
      · simp only [find, h1, if_false] at h
        exact List.mem_cons_of_mem _ (ih h)

theorem contains_of_mem (m : Map α) (e : Int × α) (h : e ∈ m) : m.contains e.1 = true := by
  induction m with
  | nil => simp at h
  | cons e1 rest ih =>
      obtain ⟨k1, v1⟩ := e1
      by_cases h1 : e.1 = k1
      · simp [contains, find, h1]
      · have h2 : e ∈ rest := by
          rcases List.mem_cons.mp h with h3 | h3
          · exact absurd (by rw [h3]) h1
          · exact h3
        have h3 := ih h2
        simp only [contains, find, h1, if_false] at h3 ⊢
        exact h3

theorem contains_iff_mem_keys (m : Map α) (k : Int) : m.contains k = true ↔ k ∈ m.keys := by
  induction m with
  | nil => simp [contains, find, keys]
  | cons e rest ih =>
      obtain ⟨k1, v1⟩ := e
      by_cases h1 : k = k1
      · simp [contains, find, keys, h1]
      · have h2 : (find rest k).isSome = true ↔ k ∈ List.map Prod.fst rest := ih
        simp [contains, find, keys, h1, h2]

theorem find_isSome_of_contains (m : Map α) (k : Int) (h : m.contains k = true) :
    ∃ v, m.find k = some v :=
  Option.isSome_iff_exists.mp h

theorem get_of_find (m : Map α) (k : Int) (d v : α) (h : m.find k = some v) :
    m.get k d = v := by
  simp [get, h]

theorem touch_of_contains (m : Map α) (k : Int) (d : α) (h : m.contains k = true) :
    m.touch k d = m := by
  simp [touch, h]

theorem find_modify_self (m : Map α) (k : Int) (d : α) (f : α → α) :
    (m.modify k d f).find k = some (f (m.get k d)) :=
  find_insert_self _ _ _

theorem find_modify_ne (m : Map α) (k j : Int) (d : α) (f : α → α) (h : j ≠ k) :
    (m.modify k d f).find j = m.find j :=
  find_insert_ne _ _ _ _ h

theorem contains_modify (m : Map α) (k j : Int) (d : α) (f : α → α) :
    (m.modify k d f).contains j = (decide (j = k) || m.contains j) :=
  contains_insert _ _ _ _

theorem contains_erase (m : Map α) (k j : Int) (h : (m.erase k).contains j = true) :
    m.contains j = true := by
  rw [contains_iff_mem_keys] at h ⊢
  simp only [keys, erase, List.mem_map] at h ⊢
  obtain ⟨e, he, hj⟩ := h
  exact ⟨e, (List.mem_filter.mp he).1, hj⟩

end Map

/-! ## Facts about texts -/

theorem zero_not_mem_cstr (buf : Bytes) : 0 ∉ cstr buf := by
  intro h
  have h1 := List.mem_takeWhile_imp h
  simp at h1

theorem cstr_append_zero (s rest : Bytes) (h : 0 ∉ s) : cstr (s ++ 0 :: rest) = s := by
  induction s with
  | nil => simp [cstr, List.takeWhile]
  | cons b bs ih =>
      have hb : b ≠ 0 := fun hb => h (by rw [hb]; exact List.mem_cons_self _ _)
      have hbs : 0 ∉ bs := fun hbs => h (List.mem_cons_of_mem _ hbs)
      have ih1 := ih hbs
      simp only [cstr] at ih1
      have hb1 : (b != 0) = true := by simp [hb]
      show List.takeWhile (fun b => b != 0) (b :: (bs ++ 0 :: rest)) = b :: bs
      rw [List.takeWhile_cons, ih1]
      simp [hb]

theorem cstr_strcpy (dst s : Bytes) (h : 0 ∉ s) : cstr (strcpy dst s) = s :=
  cstr_append_zero s _ h

theorem zero_not_mem_digitsAux (fuel n : Nat) (acc : Bytes) (h : 0 ∉ acc) :
    0 ∉ digitsAux fuel n acc := by
  induction fuel generalizing n acc with
  | zero => simpa [digitsAux] using h
  | succ fuel ih =>
      unfold digitsAux
      split
      · intro hm
        rcases List.mem_cons.mp hm with h1 | h1
        · omega
        · exact h h1
      · apply ih
        intro hm
        rcases List.mem_cons.mp hm with h1 | h1
        · omega
        · exact h h1

theorem zero_not_mem_to_string (i : Int) : 0 ∉ to_string i := by
  cases i with
  | ofNat n => exact zero_not_mem_digitsAux _ _ _ (by simp)
  | negSucc n =>
      intro hm
      rcases List.mem_cons.mp hm with h1 | h1
      · omega
      · exact zero_not_mem_digitsAux _ _ _ (by simp) h1

/-! ## Facts about the registry invariant -/

theorem inv_initial : Inv initial := by
  constructor <;> simp [initial, Map.contains, Map.find]

theorem Inv.modifyProgrammer {s : ServerState} (h : Inv s) (k : Int) (d : ProgrammerInfo)
    (f : ProgrammerInfo → ProgrammerInfo) (hk : s.programmers.contains k = true)
    (hf : ∀ p, (f p).id = p.id) :
    Inv { s with programmers := s.programmers.modify k d f } := by
  have hc : ∀ j, (s.programmers.modify k d f).contains j = s.programmers.contains j := by
    intro j
    rw [Map.contains_modify]
    by_cases hj : j = k
    · subst hj
      simp [hk]
    · simp [hj]
  constructor
  · intro e he
    rcases Map.mem_insert _ _ _ _ he with h1 | h1
    · obtain ⟨v, hv⟩ := Map.find_isSome_of_contains _ _ hk
      rw [h1, Map.get_of_find _ _ _ _ hv]
      simp only [hf]
      exact h.ids _ (Map.mem_of_find _ _ _ hv)
    · exact h.ids e h1
  · intro j
    simp only [hc]
    exact h.queues j
  · intro j
    simp only [hc]
    exact h.addrs j
  · intro j q hq it hit
    obtain ⟨h1, h2⟩ := h.items j q hq it hit
    exact ⟨by simp only [hc]; exact h1, h2⟩
  · intro j hj
    simp only [hc] at hj
    exact h.progKeys j hj
  · exact h.obsKeys
  · exact h.nextProgrammer
  · exact h.nextObserver
  · exact h.nextProgram

theorem Inv.setQueue {s : ServerState} (h : Inv s) (k : Int) (q1 : List ProgramReview)
    (hk : s.programmers.contains k = true) (hq : ∀ it ∈ q1, ItemOK s k it) :
    Inv { s with review_queues := s.review_queues.insert k q1 } := by
  have hc : ∀ j, (s.review_queues.insert k q1).contains j = s.review_queues.contains j := by
    intro j
    rw [Map.contains_insert]
    by_cases hj : j = k
    · subst hj
      simp [(h.queues j).mp hk]
    · simp [hj]
  constructor
  · exact h.ids
  · intro j
    simp only [hc]
    exact h.queues j
  · exact h.addrs
  · intro j q hq1 it hit
    by_cases hj : j = k
    · subst hj
      simp only [Map.find_insert_self, Option.some.injEq] at hq1
      subst hq1
      exact hq it hit
    · simp only [Map.find_insert_ne _ _ _ _ hj] at hq1
      exact h.items j q hq1 it hit
  · exact h.progKeys
  · exact h.obsKeys
  · exact h.nextProgrammer
  · exact h.nextObserver
  · exact h.nextProgram

theorem Inv.nextProgram_succ {s : ServerState} (h : Inv s) :
    Inv { s with next_program_id := s.next_program_id + 1 } := by
  constructor
  · exact h.ids
  · exact h.queues
  · exact h.addrs
  · intro j q hq it hit
    obtain ⟨h1, h2, h3, h4⟩ := h.items j q hq it hit
    exact ⟨h1, h2, by simp only; omega, h4⟩
  · exact h.progKeys
  · exact h.obsKeys
  · exact h.nextProgrammer
  · exact h.nextObserver
  · have := h.nextProgram
    simp only
    omega

theorem Inv.registerProgrammer {s : ServerState} (h : Inv s) (info : ProgrammerInfo)
    (addr : Address) (hid : info.id = s.next_programmer_id) :
    Inv { s with
      next_programmer_id := s.next_programmer_id + 1,
      programmers := s.programmers.insert s.next_programmer_id info,
      programmer_addresses := s.programmer_addresses.insert s.next_programmer_id addr,
      review_queues := s.review_queues.insert s.next_programmer_id [] } := by
  constructor
  · intro e he
    rcases Map.mem_insert _ _ _ _ he with h1 | h1
    · rw [h1]
      exact hid
    · exact h.ids e h1
  · intro j
    simp only [Map.contains_insert, Bool.or_eq_true, decide_eq_true_eq]
    rw [h.queues j]
  · intro j
    simp only [Map.contains_insert, Bool.or_eq_true, decide_eq_true_eq]
    rw [h.addrs j]
  · intro j q hq it hit
    by_cases hj : j = s.next_programmer_id
    · subst hj
      simp only [Map.find_insert_self, Option.some.injEq] at hq
      subst hq
      simp at hit
    · simp only [Map.find_insert_ne _ _ _ _ hj] at hq
      obtain ⟨h1, h2⟩ := h.items j q hq it hit
      exact ⟨Map.contains_insert_of_contains _ _ _ _ h1, h2⟩
  · intro j hj
    have hn := h.nextProgrammer
    simp only [Map.contains_insert, Bool.or_eq_true, decide_eq_true_eq] at hj
    rcases hj with h1 | h1
    · simp only
      omega
    · have := h.progKeys j h1
      simp only
      omega
  · exact h.obsKeys
  · have := h.nextProgrammer
    simp only
    omega
  · exact h.nextObserver
  · exact h.nextProgram

theorem Inv.registerObserver {s : ServerState} (h : Inv s) (addr : Address) :
    Inv { s with
      next_observer_id := s.next_observer_id + 1,
      observer_addresses := s.observer_addresses.insert s.next_observer_id addr } := by
  constructor
  · exact h.ids
  · exact h.queues
  · exact h.addrs
  · exact h.items
  · exact h.progKeys
  · intro j hj
    have hn := h.nextObserver
    simp only [Map.contains_insert, Bool.or_eq_true, decide_eq_true_eq] at hj
    rcases hj with h1 | h1
    · simp only
      omega
    · have := h.obsKeys j h1
      simp only
      omega
  · exact h.nextProgrammer
  · have := h.nextObserver
    simp only
    omega
  · exact h.nextProgram

theorem Inv.eraseObserver {s : ServerState} (h : Inv s) (k : Int) :
    Inv { s with observer_addresses := s.observer_addresses.erase k } := by
  constructor
  · exact h.ids
  · exact h.queues
  · exact h.addrs
  · exact h.items
  · exact h.progKeys
  · intro j hj
    exact h.obsKeys j (Map.contains_erase _ _ _ hj)
  · exact h.nextProgrammer
  · exact h.nextObserver
  · exact h.nextProgram

/-! ## Facts about the snapshot -/

theorem programmersText_isSome (queues : Map (List ProgramReview))
    (l : List (Int × ProgrammerInfo))
    (h : ∀ e ∈ l, queues.contains e.2.id = true) (acc : Bytes) :
    ∃ t, programmersText queues l acc = some t := by
  induction l generalizing acc with
  | nil => exact ⟨acc, rfl⟩
  | cons e rest ih =>
      obtain ⟨k, info⟩ := e
      obtain ⟨q, hq⟩ := Map.find_isSome_of_contains _ _ (h (k, info) (List.mem_cons_self _ _))
      simp only [programmersText, programmerText, hq]
      exact ih (fun e he => h e (List.mem_cons_of_mem _ he)) _

theorem statusText_isSome (s : ServerState) (clk : Clock) (h : Inv s) :
    ∃ t, statusText s clk = some t := by
  apply programmersText_isSome
  intro e he
  rw [h.ids e he]
  exact (h.queues e.1).mp (Map.contains_of_mem _ _ he)

theorem sendParts_type (m : Message) (addr : Address) (fuel : Nat) (rest : Bytes) (part : Int) :
    ∀ o ∈ sendParts m addr fuel rest part, o.msg.type = m.type := by
  induction fuel generalizing rest part with
  | zero => simp [sendParts]
  | succ fuel ih =>
      intro o ho
      unfold sendParts at ho
      split at ho
      · simp at ho
      · rcases List.mem_cons.mp ho with h1 | h1
        · rw [h1]
        · exact ih _ _ o h1

theorem sendFull_type (s : ServerState) (clk : Clock) (o : Int) (outs : List Sent)
    (h : sendFullStatusToObserver s clk o = some outs) :
    ∀ x ∈ outs, x.msg.type = STATUS_UPDATE := by
  unfold sendFullStatusToObserver at h
  split at h
  · simp only [Option.some.injEq] at h
    subst h
    simp
  · split at h
    · simp at h
    · simp only [Option.some.injEq] at h
      subst h
      intro x hx
      rcases List.mem_append.mp hx with h1 | h1
      · exact sendParts_type _ _ _ _ _ x h1
      · simp only [List.mem_singleton] at h1
        rw [h1]

theorem sendFull_isSome (s : ServerState) (clk : Clock) (o : Int) (h : Inv s) :
    ∃ outs, sendFullStatusToObserver s clk o = some outs := by
  obtain ⟨t, ht⟩ := statusText_isSome s clk h
  unfold sendFullStatusToObserver
  split
  · exact ⟨_, rfl⟩
  · simp only [ht]
    exact ⟨_, rfl⟩

theorem broadcastLoop_isSome (s : ServerState) (clk : Clock) (h : Inv s) (l : List Int) :
    ∃ outs, broadcastLoop s clk l = some outs := by
  induction l with
  | nil => exact ⟨[], rfl⟩
  | cons o rest ih =>
      obtain ⟨a, ha⟩ := sendFull_isSome s clk o h
      obtain ⟨b, hb⟩ := ih
      exact ⟨a ++ b, by simp [broadcastLoop, ha, hb]⟩

theorem broadcastLoop_type (s : ServerState) (clk : Clock) (l : List Int) (outs : List Sent)
    (h : broadcastLoop s clk l = some outs) : ∀ x ∈ outs, x.msg.type = STATUS_UPDATE := by
  induction l generalizing outs with
  | nil =>
      simp only [broadcastLoop, Option.some.injEq] at h
      subst h
      simp
  | cons o rest ih =>
      unfold broadcastLoop at h
      split at h
      · simp at h
      · rename_i a ha
        split at h
        · simp at h
        · rename_i b hb
          simp only [Option.some.injEq] at h
          subst h
          intro x hx
          rcases List.mem_append.mp hx with h1 | h1
          · exact sendFull_type s clk o a ha x h1
          · exact ih b hb x h1

theorem broadcast_isSome (s : ServerState) (clk : Clock) (h : Inv s) :
    ∃ outs, broadcastStatusUpdate s clk = some outs :=
  broadcastLoop_isSome s clk h _

theorem broadcast_type (s : ServerState) (clk : Clock) (outs : List Sent)
    (h : broadcastStatusUpdate s clk = some outs) : ∀ x ∈ outs, x.msg.type = STATUS_UPDATE :=
  broadcastLoop_type s clk _ outs h

/-- In a state with the invariant a broadcast goes through, and sends snapshot parts only. -/
theorem broadcast_ok (s : ServerState) (clk : Clock) (h : Inv s) :
    ∃ outs, broadcastStatusUpdate s clk = some outs ∧
      ∀ x ∈ outs, x.msg.type = STATUS_UPDATE := by
  obtain ⟨outs, ho⟩ := broadcast_isSome s clk h
  exact ⟨outs, ho, broadcast_type s clk outs ho⟩

/-! ## The handlers on states with the invariant -/

theorem handleRegisterProgrammer_ok (s : ServerState) (clk : Clock) (msg : Message)
    (ip : String) (port : Int) (h : Inv s) :
    ∃ s1 ack bouts,
      handleRegisterProgrammer s clk msg ip port = some (s1, ⟨ack, ip, port⟩ :: bouts) ∧
      Inv s1 ∧ (∀ x ∈ bouts, x.msg.type = STATUS_UPDATE) ∧
      ack.type = REGISTER_PROGRAMMER ∧ ack.client_id = s.next_programmer_id ∧
      s1.next_programmer_id = s.next_programmer_id + 1 ∧
      s1.next_observer_id = s.next_observer_id ∧
      s1.next_program_id = s.next_program_id ∧
      s1.observer_addresses = s.observer_addresses ∧
      s1.programmers = s.programmers.insert s.next_programmer_id
        (ProgrammerInfo.new clk s.next_programmer_id
          (if cstr msg.data = [] then lit "Программист" ++ to_string s.next_programmer_id
           else cstr msg.data)) ∧
      s1.programmer_addresses = s.programmer_addresses.insert s.next_programmer_id (ip, port) ∧
      s1.review_queues = s.review_queues.insert s.next_programmer_id [] := by
  have hinv := h.registerProgrammer
    (ProgrammerInfo.new clk s.next_programmer_id
      (if cstr msg.data = [] then lit "Программист" ++ to_string s.next_programmer_id
       else cstr msg.data)) (ip, port) rfl
  obtain ⟨bouts, hb, hty⟩ := broadcast_ok _ clk hinv
  simp only [handleRegisterProgrammer, hb]
  exact ⟨_, _, _, rfl, hinv, hty, by simp⟩

theorem handleRegisterObserver_ok (s : ServerState) (clk : Clock) (msg : Message)
    (ip : String) (port : Int) (h : Inv s) :
    ∃ s1 ack bouts,
      handleRegisterObserver s clk msg ip port = some (s1, ⟨ack, ip, port⟩ :: bouts) ∧
      Inv s1 ∧ (∀ x ∈ bouts, x.msg.type = STATUS_UPDATE) ∧
      ack.type = REGISTER_OBSERVER ∧ ack.client_id = s.next_observer_id ∧
      s1.next_programmer_id = s.next_programmer_id ∧
      s1.next_observer_id = s.next_observer_id + 1 ∧
      s1.next_program_id = s.next_program_id ∧
      s1.observer_addresses = s.observer_addresses.insert s.next_observer_id (ip, port) ∧
      s1.programmers = s.programmers ∧
      s1.programmer_addresses = s.programmer_addresses ∧
      s1.review_queues = s.review_queues := by
  have hinv := h.registerObserver (ip, port)
  obtain ⟨bouts, hb⟩ := sendFull_isSome _ clk s.next_observer_id hinv
  simp only [handleRegisterObserver, hb]
  exact ⟨_, _, _, rfl, hinv, sendFull_type _ _ _ _ hb, by simp⟩

theorem zero_not_mem_program_name (id : Int) (data : Bytes) :
    0 ∉ (if cstr data = [] then lit "Программа" ++ to_string id else cstr data) := by
  split
  · intro hm
    rcases List.mem_append.mp hm with h1 | h1
    · revert h1
      decide
    · exact zero_not_mem_to_string _ h1
  · exact zero_not_mem_cstr _

theorem handleSubmitProgram_ok (s : ServerState) (clk : Clock) (msg : Message)
    (ip : String) (port : Int) (h : Inv s)
    (ha : s.programmers.contains msg.client_id = true)
    (ht : s.programmers.contains msg.target_id = true) :
    ∃ s1 note addr bouts,
      handleSubmitProgram s clk msg ip port = some (s1, ⟨note, addr.1, addr.2⟩ :: bouts) ∧
      Inv s1 ∧ (∀ x ∈ bouts, x.msg.type = STATUS_UPDATE) ∧
      s.programmer_addresses.find msg.target_id = some addr ∧
      note = { Message.new clk with
        type := ASSIGNMENT_NOTIFICATION, client_id := msg.target_id,
        program_id := s.next_program_id, target_id := msg.client_id,
        data := strcpy zeroData
          (if cstr msg.data = [] then lit "Программа" ++ to_string s.next_program_id
           else cstr msg.data) } ∧
      s1 = { s with
        next_program_id := s.next_program_id + 1,
        review_queues := s.review_queues.modify msg.target_id []
          (fun q => q ++ [ProgramReview.new clk s.next_program_id msg.client_id msg.target_id
            (if cstr msg.data = [] then lit "Программа" ++ to_string s.next_program_id
             else cstr msg.data)]),
        programmers := s.programmers.modify msg.client_id (ProgrammerInfo.default clk)
          (fun p => { p with
            state := WAITING_REVIEW,
            current_program_id := s.next_program_id,
            current_activity := lit "Ожидает проверки программы " ++
              (if cstr msg.data = [] then lit "Программа" ++ to_string s.next_program_id
               else cstr msg.data),
            last_activity := clk.now }) } := by
  obtain ⟨addr, haddr⟩ := Map.find_isSome_of_contains _ _ ((h.addrs _).mp ht)
  obtain ⟨q, hq⟩ := Map.find_isSome_of_contains _ _ ((h.queues _).mp ht)
  have h1 := h.nextProgram_succ
  have hn := h.nextProgram
  have h2 := h1.setQueue msg.target_id
    (s.review_queues.get msg.target_id [] ++
      [ProgramReview.new clk s.next_program_id msg.client_id msg.target_id
        (if cstr msg.data = [] then lit "Программа" ++ to_string s.next_program_id
         else cstr msg.data)]) ht (by
      intro it hit
      rcases List.mem_append.mp hit with h3 | h3
      · rw [Map.get_of_find _ _ _ _ hq] at h3
        exact h1.items _ _ hq it h3
      · simp only [List.mem_singleton] at h3
        subst h3
        refine ⟨ha, hn, ?_, zero_not_mem_program_name _ _, rfl⟩
        simp only [ProgramReview.new]
        omega)
  have h3 := h2.modifyProgrammer msg.client_id (ProgrammerInfo.default clk)
    (fun p => { p with
      state := WAITING_REVIEW,
      current_program_id := s.next_program_id,
      current_activity := lit "Ожидает проверки программы " ++
        (if cstr msg.data = [] then lit "Программа" ++ to_string s.next_program_id
         else cstr msg.data),
      last_activity := clk.now }) ha (fun _ => rfl)
  obtain ⟨bouts, hb, hty⟩ := broadcast_ok _ clk h3
  have hc : s.programmer_addresses.contains msg.target_id = true := (h.addrs _).mp ht
  refine ⟨_, _, addr, bouts, ?_, h3, hty, haddr, rfl, rfl⟩
  have hb1 := hb
  simp only [Map.modify] at hb1
  simp only [handleSubmitProgram, ha, ht, hc, Map.modify, Map.get_of_find _ _ _ _ haddr]
  simp [hb1]

theorem handleRequestReview_unknown (s : ServerState) (clk : Clock) (msg : Message)
    (ip : String) (port : Int) (hr : s.programmers.contains msg.client_id = false) :
    handleRequestReview s clk msg ip port = some (s, []) := by
  simp [handleRequestReview, hr]

theorem handleRequestReview_empty (s : ServerState) (clk : Clock) (msg : Message)
    (ip : String) (port : Int) (hr : s.programmers.contains msg.client_id = true)
    (hq : s.review_queues.find msg.client_id = some []) :
    handleRequestReview s clk msg ip port =
      some (s, [⟨{ Message.new clk with
        type := REQUEST_REVIEW, client_id := msg.client_id, program_id := 0,
        data := strcpy zeroData (lit "No programs to review") }, ip, port⟩]) := by
  have hc : s.review_queues.contains msg.client_id = true := by simp [Map.contains, hq]
  simp [handleRequestReview, hr, Map.touch, hc, Map.get, hq]

theorem handleRequestReview_ok (s : ServerState) (clk : Clock) (msg : Message)
    (ip : String) (port : Int) (h : Inv s) (review : ProgramReview)
    (rest : List ProgramReview) (hr : s.programmers.contains msg.client_id = true)
    (hq : s.review_queues.find msg.client_id = some (review :: rest)) :
    ∃ s1 reply bouts,
      handleRequestReview s clk msg ip port = some (s1, ⟨reply, ip, port⟩ :: bouts) ∧
      Inv s1 ∧ (∀ x ∈ bouts, x.msg.type = STATUS_UPDATE) ∧
      reply = { Message.new clk with
        type := REQUEST_REVIEW, client_id := msg.client_id,
        program_id := review.program_id, target_id := review.author_id,
        data := strcpy zeroData review.program_name } ∧
      s1 = { s with
        review_queues := s.review_queues.insert msg.client_id rest,
        programmers := s.programmers.modify msg.client_id (ProgrammerInfo.default clk)
          (fun p => { p with
            state := REVIEWING,
            current_activity := lit "Проверяет программу \x27" ++ review.program_name
              ++ lit "\x27",
            last_activity := clk.now }) } := by
  have hc : s.review_queues.contains msg.client_id = true := by simp [Map.contains, hq]
  have hitems := h.items _ _ hq
  have h1 := h.setQueue msg.client_id rest hr
    (fun it hit => hitems it (List.mem_cons_of_mem _ hit))
  have h2 : Inv { s with
      review_queues := s.review_queues.insert msg.client_id rest,
      programmers := s.programmers.modify msg.client_id (ProgrammerInfo.default clk)
        (fun p => { p with
          state := REVIEWING,
          current_activity := lit "Проверяет программу \x27" ++ review.program_name
            ++ lit "\x27",
          last_activity := clk.now }) } :=
    h1.modifyProgrammer msg.client_id (ProgrammerInfo.default clk) _ hr (fun _ => rfl)
  obtain ⟨bouts, hb, hty⟩ := broadcast_ok _ clk h2
  have htouch : s.review_queues.touch msg.client_id [] = s.review_queues :=
    Map.touch_of_contains _ _ _ hc
  have hget : s.review_queues.get msg.client_id [] = review :: rest :=
    Map.get_of_find _ _ _ _ hq
  have hmod : s.review_queues.modify msg.client_id [] List.tail =
      s.review_queues.insert msg.client_id rest := by
    simp [Map.modify, hget]
  have hauth : (s.programmers.modify msg.client_id (ProgrammerInfo.default clk)
      (fun p => { p with
        state := REVIEWING,
        current_activity := lit "Проверяет программу \x27" ++ review.program_name
          ++ lit "\x27",
        last_activity := clk.now })).contains review.author_id = true := by
    rw [Map.contains_modify, (hitems review (List.mem_cons_self _ _)).1]
    simp
  refine ⟨_, _, bouts, ?_, h2, hty, rfl, rfl⟩
  simp only [handleRequestReview, hr, htouch, hget, hmod, Map.touch_of_contains _ _ _ hauth,
    hb, Bool.not_true, Bool.false_eq_true, if_false]

theorem handleReviewResult_ok (s : ServerState) (clk : Clock) (msg : Message)
    (ip : String) (port : Int) (h : Inv s)
    (hr : s.programmers.contains msg.client_id = true)
    (ha : s.programmers.contains msg.target_id = true) :
    ∃ s1 addr bouts,
      handleReviewResult s clk msg ip port = some (s1, ⟨msg, addr.1, addr.2⟩ :: bouts) ∧
      Inv s1 ∧ (∀ x ∈ bouts, x.msg.type = STATUS_UPDATE) ∧
      s.programmer_addresses.find msg.target_id = some addr ∧
      s1 = { s with
        programmers :=
          (s.programmers.modify msg.client_id (ProgrammerInfo.default clk)
            (fun p => { p with
              programs_reviewed := p.programs_reviewed + 1,
              state := WRITING,
              current_activity := lit "Пишет новую программу",
              last_activity := clk.now })).modify msg.target_id (ProgrammerInfo.default clk)
            (fun p =>
              if msg.result = CORRECT then
                { p with
                  programs_written := p.programs_written + 1,
                  state := WRITING,
                  current_activity := lit "Пишет новую программу",
                  last_activity := clk.now }
              else
                { p with
                  state := FIXING,
                  current_activity := lit "Исправляет программу (ID: " ++
                    to_string msg.program_id ++ lit ")",
                  last_activity := clk.now }) } := by
  obtain ⟨addr, haddr⟩ := Map.find_isSome_of_contains _ _ ((h.addrs _).mp ha)
  have hc : s.programmer_addresses.contains msg.target_id = true := (h.addrs _).mp ha
  have h1 := h.modifyProgrammer msg.client_id (ProgrammerInfo.default clk)
    (fun p => { p with
      programs_reviewed := p.programs_reviewed + 1,
      state := WRITING,
      current_activity := lit "Пишет новую программу",
      last_activity := clk.now }) hr (fun _ => rfl)
  have h2 : Inv { s with
      programmers :=
        (s.programmers.modify msg.client_id (ProgrammerInfo.default clk)
          (fun p => { p with
            programs_reviewed := p.programs_reviewed + 1,
            state := WRITING,
            current_activity := lit "Пишет новую программу",
            last_activity := clk.now })).modify msg.target_id (ProgrammerInfo.default clk)
          (fun p =>
            if msg.result = CORRECT then
              { p with
                programs_written := p.programs_written + 1,
                state := WRITING,
                current_activity := lit "Пишет новую программу",
                last_activity := clk.now }
            else
              { p with
                state := FIXING,
                current_activity := lit "Исправляет программу (ID: " ++
                  to_string msg.program_id ++ lit ")",
                last_activity := clk.now }) } :=
    h1.modifyProgrammer msg.target_id (ProgrammerInfo.default clk) _
      (by simp [Map.contains_modify, ha]) (fun p => by split <;> rfl)
  obtain ⟨bouts, hb, hty⟩ := broadcast_ok _ clk h2
  refine ⟨_, addr, bouts, ?_, h2, hty, haddr, rfl⟩
  simp only [handleReviewResult, hr, ha, hc, Map.get_of_find _ _ _ _ haddr, hb,
    Bool.not_true, Bool.false_eq_true, Bool.or_self, if_false, if_true, List.singleton_append]

theorem handleDisconnect_ok (s : ServerState) (clk : Clock) (msg : Message)
    (ip : String) (port : Int) (h : Inv s) :
    ∃ s1 bouts,
      handleDisconnect s clk msg ip port = some (s1, bouts) ∧
      Inv s1 ∧ (∀ x ∈ bouts, x.msg.type = STATUS_UPDATE) ∧
      s1 = (if s.programmers.contains msg.client_id then
          { s with
            programmers := s.programmers.modify msg.client_id (ProgrammerInfo.default clk)
              (fun p => { p with is_connected := false }) }
        else if s.observer_addresses.contains msg.client_id then
          { s with observer_addresses := s.observer_addresses.erase msg.client_id }
        else s) := by
  have h1 : Inv (if s.programmers.contains msg.client_id then
          { s with
            programmers := s.programmers.modify msg.client_id (ProgrammerInfo.default clk)
              (fun p => { p with is_connected := false }) }
        else if s.observer_addresses.contains msg.client_id then
          { s with observer_addresses := s.observer_addresses.erase msg.client_id }
        else s) := by
    split
    · rename_i hc
      exact h.modifyProgrammer _ _ _ hc (fun _ => rfl)
    · split
      · exact h.eraseObserver _
      · exact h
  obtain ⟨bouts, hb, hty⟩ := broadcast_ok _ clk h1
  refine ⟨_, bouts, ?_, h1, hty, rfl⟩
  simp only [handleDisconnect, hb]

theorem handleHeartbeat_ok (s : ServerState) (clk : Clock) (msg : Message)
    (ip : String) (port : Int) (h : Inv s) :
    ∃ s1,
      handleHeartbeat s clk msg ip port = some (s1, []) ∧ Inv s1 ∧
      s1 = (if s.programmers.contains msg.client_id then
          { s with
            programmers := s.programmers.modify msg.client_id (ProgrammerInfo.default clk)
              (fun p => { p with last_activity := clk.now, is_connected := true }) }
        else s) := by
  refine ⟨_, ?_, ?_, rfl⟩
  · by_cases hc : s.programmers.contains msg.client_id = true
    · simp [handleHeartbeat, hc]
    · simp [handleHeartbeat, hc]
  · split
    · rename_i hc
      exact h.modifyProgrammer _ _ _ hc (fun _ => rfl)
    · exact h

theorem checkHeartbeatsLoop_ok (clk : Clock) (ks : List Int) (s : ServerState) (h : Inv s) :
    ∃ s1 outs, checkHeartbeatsLoop clk ks s = some (s1, outs) ∧ Inv s1 ∧
      (∀ x ∈ outs, x.msg.type = STATUS_UPDATE) ∧ SameButFlags s s1 ∧
      ∀ j, s1.programmers.contains j = s.programmers.contains j := by
  induction ks generalizing s with
  | nil => exact ⟨s, [], rfl, h, by simp, by simp [SameButFlags], fun _ => rfl⟩
  | cons k ks ih =>
      unfold checkHeartbeatsLoop
      simp only
      split
      · rename_i hcond
        have hk : s.programmers.contains k = true := by
          by_contra hk
          have hnone : s.programmers.find k = none := by
            simpa [Map.contains] using hk
          simp [Map.get, hnone, ProgrammerInfo.default] at hcond
        have h1 := h.modifyProgrammer k (ProgrammerInfo.default clk)
          (fun p => { p with is_connected := false }) hk (fun _ => rfl)
        obtain ⟨bouts, hb, hty⟩ := broadcast_ok _ clk h1
        obtain ⟨s2, outs2, hl, hinv2, hty2, hsame, hkeys⟩ := ih _ h1
        refine ⟨s2, bouts ++ outs2, ?_, hinv2, ?_, ?_, ?_⟩
        · simp only [hb, hl]
        · intro x hx
          rcases List.mem_append.mp hx with h3 | h3
          · exact hty x h3
          · exact hty2 x h3
        · simpa [SameButFlags] using hsame
        · intro j
          rw [hkeys j, Map.contains_modify]
          by_cases hj : j = k
          · subst hj
            simp [hk]
          · simp [hj]
      · exact ih s h

theorem checkHeartbeats_ok (s : ServerState) (clk : Clock) (h : Inv s) :
    ∃ s1 outs, checkHeartbeats s clk = some (s1, outs) ∧ Inv s1 ∧
      (∀ x ∈ outs, x.msg.type = STATUS_UPDATE) ∧ SameButFlags s s1 ∧
      ∀ j, s1.programmers.contains j = s.programmers.contains j :=
  checkHeartbeatsLoop_ok clk _ s h

theorem handleSubmitProgram_unknown (s : ServerState) (clk : Clock) (msg : Message)
    (ip : String) (port : Int)
    (hu : s.programmers.contains msg.client_id = false ∨
      s.programmers.contains msg.target_id = false) :
    handleSubmitProgram s clk msg ip port = some (s, []) := by
  rcases hu with hu | hu <;> simp [handleSubmitProgram, hu]

theorem handleReviewResult_unknown (s : ServerState) (clk : Clock) (msg : Message)
    (ip : String) (port : Int)
    (hu : s.programmers.contains msg.client_id = false ∨
      s.programmers.contains msg.target_id = false) :
    handleReviewResult s clk msg ip port = some (s, []) := by
  rcases hu with hu | hu <;> simp [handleReviewResult, hu]

theorem handleHeartbeat_unknown (s : ServerState) (clk : Clock) (msg : Message)
    (ip : String) (port : Int) (hu : s.programmers.contains msg.client_id = false) :
    handleHeartbeat s clk msg ip port = some (s, []) := by
  simp [handleHeartbeat, hu]

/-! ## Facts about the observations -/

theorem served_append (r : Int) (a b : List Sent) :
    served r (a ++ b) = served r a ++ served r b := by
  simp [served, List.filter_append]

theorem authorAcks_append (a b : List Sent) :
    authorAcks (a ++ b) = authorAcks a ++ authorAcks b := by
  simp [authorAcks, List.filter_append]

theorem observerAcks_append (a b : List Sent) :
    observerAcks (a ++ b) = observerAcks a ++ observerAcks b := by
  simp [observerAcks, List.filter_append]

theorem served_status (r : Int) (outs : List Sent)
    (h : ∀ x ∈ outs, x.msg.type = STATUS_UPDATE) : served r outs = [] := by
  simp only [served, List.map_eq_nil_iff, List.filter_eq_nil_iff]
  intro x hx
  simp [h x hx, STATUS_UPDATE, REQUEST_REVIEW]

theorem authorAcks_status (outs : List Sent)
    (h : ∀ x ∈ outs, x.msg.type = STATUS_UPDATE) : authorAcks outs = [] := by
  simp only [authorAcks, List.map_eq_nil_iff, List.filter_eq_nil_iff]
  intro x hx
  simp [h x hx, STATUS_UPDATE, REGISTER_PROGRAMMER]

theorem observerAcks_status (outs : List Sent)
    (h : ∀ x ∈ outs, x.msg.type = STATUS_UPDATE) : observerAcks outs = [] := by
  simp only [observerAcks, List.map_eq_nil_iff, List.filter_eq_nil_iff]
  intro x hx
  simp [h x hx, STATUS_UPDATE, REGISTER_OBSERVER]

theorem served_cons (r : Int) (x : Sent) (outs : List Sent) :
    served r (x :: outs) = served r [x] ++ served r outs :=
  served_append r [x] outs

theorem authorAcks_cons (x : Sent) (outs : List Sent) :
    authorAcks (x :: outs) = authorAcks [x] ++ authorAcks outs :=
  authorAcks_append [x] outs

theorem observerAcks_cons (x : Sent) (outs : List Sent) :
    observerAcks (x :: outs) = observerAcks [x] ++ observerAcks outs :=
  observerAcks_append [x] outs

/-- A step that changes nothing and sends nothing, when it is no registration and no
accepted submission. -/
theorem StepFacts.skip (s : ServerState) (e : Step) (h : Inv s)
    (h1 : isRegisterProgrammer e = false) (h2 : isRegisterObserver e = false)
    (h3 : ∀ r, submittedBy r s e = []) : StepFacts s e s [] := by
  constructor
  · exact h
  · intro r
    simp [served, h3]
  · simp [h1]
  · simp [h2]
  · simp [authorAcks, h1]
  · simp [observerAcks, h2]
  · simp [h1]
  · simp [h2]

theorem not_contains_next_programmer (s : ServerState) (h : Inv s) :
    s.programmers.contains s.next_programmer_id = false := by
  by_contra hc
  have := h.progKeys _ (by simpa using hc)
  omega

theorem queueIds_insert_ne (s : ServerState) (r k : Int) (q : List ProgramReview)
    (hk : r ≠ k) (s1 : ServerState) (hq : s1.review_queues = s.review_queues.insert k q) :
    queueIds r s1 = queueIds r s := by
  simp [queueIds, Map.get, hq, Map.find_insert_ne _ _ _ _ hk]

theorem queueIds_insert_self (s : ServerState) (k : Int) (q : List ProgramReview)
    (s1 : ServerState) (hq : s1.review_queues = s.review_queues.insert k q) :
    queueIds k s1 = q.map (fun it => it.program_id) := by
  simp [queueIds, Map.get, hq, Map.find_insert_self]

theorem queueIds_same (s s1 : ServerState) (r : Int) (hq : s1.review_queues = s.review_queues) :
    queueIds r s1 = queueIds r s := by
  simp [queueIds, hq]

theorem facts_registerProgrammer (s : ServerState) (clk : Clock) (msg : Message)
    (ip : String) (port : Int) (h : Inv s) (hty : msg.type = REGISTER_PROGRAMMER) :
    ∃ s1 outs, step s (Step.recv clk msg ip port) = some (s1, outs) ∧
      StepFacts s (Step.recv clk msg ip port) s1 outs := by
  obtain ⟨s1, ack, bouts, heq, hinv, hst, hat, hac, hnp, hno, _, _, hprog, _, hq⟩ :=
    handleRegisterProgrammer_ok s clk msg ip port h
  have hf1 : isRegisterProgrammer (Step.recv clk msg ip port) = true := by
    simp [isRegisterProgrammer, hty]
  have hf2 : isRegisterObserver (Step.recv clk msg ip port) = false := by
    simp [isRegisterObserver, hty, REGISTER_PROGRAMMER, REGISTER_OBSERVER]
  refine ⟨s1, _, by simp only [step, processMessage, hty, if_true]; exact heq, ?_⟩
  constructor
  · exact hinv
  · intro r
    have h1 : served r (⟨ack, ip, port⟩ :: bouts) = [] := by
      rw [served_cons, served_status r bouts hst]
      simp [served, hat, REGISTER_PROGRAMMER, REQUEST_REVIEW]
    have h2 : submittedBy r s (Step.recv clk msg ip port) = [] := by
      simp [submittedBy, hty, REGISTER_PROGRAMMER, SUBMIT_PROGRAM]
    rw [h1, h2]
    by_cases hr : r = s.next_programmer_id
    · subst hr
      have hnc := not_contains_next_programmer s h
      have hnq : s.review_queues.find s.next_programmer_id = none := by
        have h3 : s.review_queues.contains s.next_programmer_id = false := by
          by_contra h4
          have h5 := (h.queues _).mpr (by simpa using h4)
          simp [hnc] at h5
        simpa [Map.contains] using h3
      rw [queueIds_insert_self s _ [] s1 hq]
      simp [queueIds, Map.get, hnq]
    · rw [queueIds_insert_ne s r _ [] hr s1 hq]
      simp
  · simp [hf1, hnp]
  · simp [hf2, hno]
  · rw [authorAcks_cons, authorAcks_status bouts hst]
    simp [authorAcks, hat, hac, hf1]
  · rw [observerAcks_cons, observerAcks_status bouts hst]
    simp [observerAcks, hat, hf2, REGISTER_PROGRAMMER, REGISTER_OBSERVER]
  · intro k
    rw [hprog, Map.contains_insert]
    simp [hf1]
    tauto
  · simp [hf2]

theorem facts_registerObserver (s : ServerState) (clk : Clock) (msg : Message)
    (ip : String) (port : Int) (h : Inv s) (hty : msg.type = REGISTER_OBSERVER) :
    ∃ s1 outs, step s (Step.recv clk msg ip port) = some (s1, outs) ∧
      StepFacts s (Step.recv clk msg ip port) s1 outs := by
  obtain ⟨s1, ack, bouts, heq, hinv, hst, hat, hac, hnp, hno, _, hobs, hprog, _, hq⟩ :=
    handleRegisterObserver_ok s clk msg ip port h
  have hf1 : isRegisterProgrammer (Step.recv clk msg ip port) = false := by
    simp [isRegisterProgrammer, hty, REGISTER_PROGRAMMER, REGISTER_OBSERVER]
  have hf2 : isRegisterObserver (Step.recv clk msg ip port) = true := by
    simp [isRegisterObserver, hty]
  refine ⟨s1, _, by
    simp only [step, processMessage, hty]
    simp only [REGISTER_OBSERVER, REGISTER_PROGRAMMER] at heq ⊢
    simpa using heq, ?_⟩
  constructor
  · exact hinv
  · intro r
    have h1 : served r (⟨ack, ip, port⟩ :: bouts) = [] := by
      rw [served_cons, served_status r bouts hst]
      simp [served, hat, REGISTER_OBSERVER, REQUEST_REVIEW]
    have h2 : submittedBy r s (Step.recv clk msg ip port) = [] := by
      simp [submittedBy, hty, REGISTER_OBSERVER, SUBMIT_PROGRAM]
    rw [h1, h2, queueIds_same s s1 r hq]
    simp
  · simp [hf1, hnp]
  · simp [hf2, hno]
  · rw [authorAcks_cons, authorAcks_status bouts hst]
    simp [authorAcks, hat, hf1, REGISTER_PROGRAMMER, REGISTER_OBSERVER]
  · rw [observerAcks_cons, observerAcks_status bouts hst]
    simp [observerAcks, hat, hac, hf2]
  · intro k
    rw [hprog]
    simp [hf1]
  · intro _
    rw [hobs]
    exact Map.contains_insert_self _ _ _

/-- A step that is no registration and no accepted submission, leaves the queues alone and
sends neither acknowledgements nor items. -/
theorem StepFacts.quiet (s : ServerState) (e : Step) (s1 : ServerState) (outs : List Sent)
    (hinv : Inv s1)
    (h1 : isRegisterProgrammer e = false) (h2 : isRegisterObserver e = false)
    (h3 : ∀ r, submittedBy r s e = [])
    (hq : s1.review_queues = s.review_queues)
    (hnp : s1.next_programmer_id = s.next_programmer_id)
    (hno : s1.next_observer_id = s.next_observer_id)
    (hk : ∀ k, s1.programmers.contains k = s.programmers.contains k)
    (hs : ∀ r, served r outs = []) (ha : authorAcks outs = [])
    (ho : observerAcks outs = []) : StepFacts s e s1 outs := by
  constructor
  · exact hinv
  · intro r
    simp [hs r, h3 r, queueIds_same s s1 r hq]
  · simp [h1, hnp]
  · simp [h2, hno]
  · simp [ha, h1]
  · simp [ho, h2]
  · intro k
    simp [h1, hk]
  · simp [h2]

theorem contains_modify_same (m : Map ProgrammerInfo) (k : Int) (d : ProgrammerInfo)
    (f : ProgrammerInfo → ProgrammerInfo) (hk : m.contains k = true) (j : Int) :
    (m.modify k d f).contains j = m.contains j := by
  rw [Map.contains_modify]
  by_cases hj : j = k
  · subst hj
    simp [hk]
  · simp [hj]

theorem facts_submit (s : ServerState) (clk : Clock) (msg : Message)
    (ip : String) (port : Int) (h : Inv s) (hty : msg.type = SUBMIT_PROGRAM) :
    ∃ s1 outs, step s (Step.recv clk msg ip port) = some (s1, outs) ∧
      StepFacts s (Step.recv clk msg ip port) s1 outs := by
  have hstep : step s (Step.recv clk msg ip port) = handleSubmitProgram s clk msg ip port := by
    simp [step, processMessage, hty, SUBMIT_PROGRAM, REGISTER_PROGRAMMER, REGISTER_OBSERVER]
  have hf1 : isRegisterProgrammer (Step.recv clk msg ip port) = false := by
    simp [isRegisterProgrammer, hty, REGISTER_PROGRAMMER, SUBMIT_PROGRAM]
  have hf2 : isRegisterObserver (Step.recv clk msg ip port) = false := by
    simp [isRegisterObserver, hty, REGISTER_OBSERVER, SUBMIT_PROGRAM]
  by_cases ha : s.programmers.contains msg.client_id = true
  · by_cases ht : s.programmers.contains msg.target_id = true
    · obtain ⟨s1, note, addr, bouts, heq, hinv, hst, _, hnote, hs1⟩ :=
        handleSubmitProgram_ok s clk msg ip port h ha ht
      have hnt : note.type = ASSIGNMENT_NOTIFICATION := by rw [hnote]
      refine ⟨s1, _, by rw [hstep]; exact heq, ?_⟩
      constructor
      · exact hinv
      · intro r
        have h1 : served r (⟨note, addr.1, addr.2⟩ :: bouts) = [] := by
          rw [served_cons, served_status r bouts hst]
          simp [served, hnt, ASSIGNMENT_NOTIFICATION, REQUEST_REVIEW]
        have hq : s1.review_queues = s.review_queues.insert msg.target_id
            (s.review_queues.get msg.target_id [] ++
              [ProgramReview.new clk s.next_program_id msg.client_id msg.target_id
                (if cstr msg.data = [] then lit "Программа" ++ to_string s.next_program_id
                 else cstr msg.data)]) := by
          rw [hs1]
          rfl
        rw [h1]
        by_cases hr : r = msg.target_id
        · subst hr
          rw [queueIds_insert_self s _ _ s1 hq]
          simp [submittedBy, hty, ha, ht, queueIds, ProgramReview.new]
        · rw [queueIds_insert_ne s r _ _ hr s1 hq]
          have hr1 : ¬ msg.target_id = r := fun h2 => hr h2.symm
          simp [submittedBy, hr1]
      · simp [hf1, hs1]
      · simp [hf2, hs1]
      · rw [authorAcks_cons, authorAcks_status bouts hst]
        simp [authorAcks, hnt, hf1, REGISTER_PROGRAMMER, ASSIGNMENT_NOTIFICATION]
      · rw [observerAcks_cons, observerAcks_status bouts hst]
        simp [observerAcks, hnt, hf2, REGISTER_OBSERVER, ASSIGNMENT_NOTIFICATION]
      · intro k
        rw [hs1]
        simp [hf1, contains_modify_same _ _ _ _ ha]
      · simp [hf2]
    · refine ⟨s, [], ?_, StepFacts.skip s _ h hf1 hf2 ?_⟩
      · rw [hstep]
        exact handleSubmitProgram_unknown s clk msg ip port (Or.inr (by simpa using ht))
      · intro r
        simp [submittedBy, ht]
  · refine ⟨s, [], ?_, StepFacts.skip s _ h hf1 hf2 ?_⟩
    · rw [hstep]
      exact handleSubmitProgram_unknown s clk msg ip port (Or.inl (by simpa using ha))
    · intro r
      simp [submittedBy, ha]

theorem facts_request (s : ServerState) (clk : Clock) (msg : Message)
    (ip : String) (port : Int) (h : Inv s) (hty : msg.type = REQUEST_REVIEW) :
    ∃ s1 outs, step s (Step.recv clk msg ip port) = some (s1, outs) ∧
      StepFacts s (Step.recv clk msg ip port) s1 outs := by
  have hstep : step s (Step.recv clk msg ip port) = handleRequestReview s clk msg ip port := by
    simp [step, processMessage, hty, REQUEST_REVIEW, SUBMIT_PROGRAM, REGISTER_PROGRAMMER,
      REGISTER_OBSERVER]
  have hf1 : isRegisterProgrammer (Step.recv clk msg ip port) = false := by
    simp [isRegisterProgrammer, hty, REGISTER_PROGRAMMER, REQUEST_REVIEW]
  have hf2 : isRegisterObserver (Step.recv clk msg ip port) = false := by
    simp [isRegisterObserver, hty, REGISTER_OBSERVER, REQUEST_REVIEW]
  have hsub : ∀ r, submittedBy r s (Step.recv clk msg ip port) = [] := by
    intro r
    simp [submittedBy, hty, REQUEST_REVIEW, SUBMIT_PROGRAM]
  by_cases hr : s.programmers.contains msg.client_id = true
  · obtain ⟨q, hq⟩ := Map.find_isSome_of_contains _ _ ((h.queues _).mp hr)
    cases q with
    | nil =>
        refine ⟨s, _, by rw [hstep]; exact handleRequestReview_empty s clk msg ip port hr hq, ?_⟩
        exact StepFacts.quiet s _ s _ h hf1 hf2 hsub rfl rfl rfl (fun _ => rfl)
          (fun r => by simp [served]) (by simp [authorAcks, REQUEST_REVIEW, REGISTER_PROGRAMMER])
          (by simp [observerAcks, REQUEST_REVIEW, REGISTER_OBSERVER])
    | cons review rest =>
        obtain ⟨s1, reply, bouts, heq, hinv, hst, hreply, hs1⟩ :=
          handleRequestReview_ok s clk msg ip port h review rest hr hq
        have hrt : reply.type = REQUEST_REVIEW := by rw [hreply]
        have hrc : reply.client_id = msg.client_id := by rw [hreply]
        have hrp : reply.program_id = review.program_id := by rw [hreply]
        have hpos : 1 ≤ review.program_id := (h.items _ _ hq review (List.mem_cons_self _ _)).2.1
        have hqs : s1.review_queues = s.review_queues.insert msg.client_id rest := by rw [hs1]
        refine ⟨s1, _, by rw [hstep]; exact heq, ?_⟩
        constructor
        · exact hinv
        · intro r
          rw [served_cons, served_status r bouts hst, hsub r]
          by_cases hrr : r = msg.client_id
          · subst hrr
            rw [queueIds_insert_self s _ _ s1 hqs]
            have hne : ¬ review.program_id = 0 := by omega
            simp [served, hrt, hrc, hrp, hne, queueIds, Map.get, hq]
          · rw [queueIds_insert_ne s r _ _ hrr s1 hqs]
            have hrr1 : ¬ msg.client_id = r := fun h2 => hrr h2.symm
            simp [served, hrt, hrc, hrr1]
        · simp [hf1, hs1]
        · simp [hf2, hs1]
        · rw [authorAcks_cons, authorAcks_status bouts hst]
          simp [authorAcks, hrt, hf1, REGISTER_PROGRAMMER, REQUEST_REVIEW]
        · rw [observerAcks_cons, observerAcks_status bouts hst]
          simp [observerAcks, hrt, hf2, REGISTER_OBSERVER, REQUEST_REVIEW]
        · intro k
          rw [hs1]
          simp [hf1, contains_modify_same _ _ _ _ hr]
        · simp [hf2]
  · refine ⟨s, [], ?_, StepFacts.skip s _ h hf1 hf2 hsub⟩
    rw [hstep]
    exact handleRequestReview_unknown s clk msg ip port (by simpa using hr)

theorem facts_reviewResult (s : ServerState) (clk : Clock) (msg : Message)
    (ip : String) (port : Int) (h : Inv s) (hty : msg.type = REVIEW_RESULT) :
    ∃ s1 outs, step s (Step.recv clk msg ip port) = some (s1, outs) ∧
      StepFacts s (Step.recv clk msg ip port) s1 outs := by
  have hstep : step s (Step.recv clk msg ip port) = handleReviewResult s clk msg ip port := by
    simp [step, processMessage, hty, REVIEW_RESULT, REQUEST_REVIEW, SUBMIT_PROGRAM,
      REGISTER_PROGRAMMER, REGISTER_OBSERVER]
  have hf1 : isRegisterProgrammer (Step.recv clk msg ip port) = false := by
    simp [isRegisterProgrammer, hty, REGISTER_PROGRAMMER, REVIEW_RESULT]
  have hf2 : isRegisterObserver (Step.recv clk msg ip port) = false := by
    simp [isRegisterObserver, hty, REGISTER_OBSERVER, REVIEW_RESULT]
  have hsub : ∀ r, submittedBy r s (Step.recv clk msg ip port) = [] := by
    intro r
    simp [submittedBy, hty, REVIEW_RESULT, SUBMIT_PROGRAM]
  by_cases hr : s.programmers.contains msg.client_id = true
  · by_cases ha : s.programmers.contains msg.target_id = true
    · obtain ⟨s1, addr, bouts, heq, hinv, hst, _, hs1⟩ :=
        handleReviewResult_ok s clk msg ip port h hr ha
      refine ⟨s1, _, by rw [hstep]; exact heq, ?_⟩
      apply StepFacts.quiet s _ s1 _ hinv hf1 hf2 hsub
      · rw [hs1]
      · rw [hs1]
      · rw [hs1]
      · intro k
        rw [hs1]
        simp only
        rw [contains_modify_same _ _ _ _ (by rw [contains_modify_same _ _ _ _ hr]; exact ha),
          contains_modify_same _ _ _ _ hr]
      · intro r
        rw [served_cons, served_status r bouts hst]
        simp [served, hty, REVIEW_RESULT, REQUEST_REVIEW]
      · rw [authorAcks_cons, authorAcks_status bouts hst]
        simp [authorAcks, hty, REVIEW_RESULT, REGISTER_PROGRAMMER]
      · rw [observerAcks_cons, observerAcks_status bouts hst]
        simp [observerAcks, hty, REVIEW_RESULT, REGISTER_OBSERVER]
    · refine ⟨s, [], ?_, StepFacts.skip s _ h hf1 hf2 hsub⟩
      rw [hstep]
      exact handleReviewResult_unknown s clk msg ip port (Or.inr (by simpa using ha))
  · refine ⟨s, [], ?_, StepFacts.skip s _ h hf1 hf2 hsub⟩
    rw [hstep]
    exact handleReviewResult_unknown s clk msg ip port (Or.inl (by simpa using hr))

theorem facts_disconnect (s : ServerState) (clk : Clock) (msg : Message)
    (ip : String) (port : Int) (h : Inv s) (hty : msg.type = DISCONNECT) :
    ∃ s1 outs, step s (Step.recv clk msg ip port) = some (s1, outs) ∧
      StepFacts s (Step.recv clk msg ip port) s1 outs := by
  have hstep : step s (Step.recv clk msg ip port) = handleDisconnect s clk msg ip port := by
    simp [step, processMessage, hty, DISCONNECT, REVIEW_RESULT, REQUEST_REVIEW, SUBMIT_PROGRAM,
      REGISTER_PROGRAMMER, REGISTER_OBSERVER]
  have hf1 : isRegisterProgrammer (Step.recv clk msg ip port) = false := by
    simp [isRegisterProgrammer, hty, REGISTER_PROGRAMMER, DISCONNECT]
  have hf2 : isRegisterObserver (Step.recv clk msg ip port) = false := by
    simp [isRegisterObserver, hty, REGISTER_OBSERVER, DISCONNECT]
  have hsub : ∀ r, submittedBy r s (Step.recv clk msg ip port) = [] := by
    intro r
    simp [submittedBy, hty, DISCONNECT, SUBMIT_PROGRAM]
  obtain ⟨s1, bouts, heq, hinv, hst, hs1⟩ := handleDisconnect_ok s clk msg ip port h
  refine ⟨s1, _, by rw [hstep]; exact heq, ?_⟩
  apply StepFacts.quiet s _ s1 _ hinv hf1 hf2 hsub
  · rw [hs1]
    split
    · rfl
    · split <;> rfl
  · rw [hs1]
    split
    · rfl
    · split <;> rfl
  · rw [hs1]
    split
    · rfl
    · split <;> rfl
  · intro k
    rw [hs1]
    split
    · rename_i hc
      dsimp only
      exact contains_modify_same _ _ _ _ hc k
    · split <;> rfl
  · exact fun r => served_status r bouts hst
  · exact authorAcks_status bouts hst
  · exact observerAcks_status bouts hst

theorem facts_heartbeat (s : ServerState) (clk : Clock) (msg : Message)
    (ip : String) (port : Int) (h : Inv s) (hty : msg.type = HEARTBEAT) :
    ∃ s1 outs, step s (Step.recv clk msg ip port) = some (s1, outs) ∧
      StepFacts s (Step.recv clk msg ip port) s1 outs := by
  have hstep : step s (Step.recv clk msg ip port) = handleHeartbeat s clk msg ip port := by
    simp [step, processMessage, hty, HEARTBEAT, DISCONNECT, REVIEW_RESULT, REQUEST_REVIEW,
      SUBMIT_PROGRAM, REGISTER_PROGRAMMER, REGISTER_OBSERVER]
  have hf1 : isRegisterProgrammer (Step.recv clk msg ip port) = false := by
    simp [isRegisterProgrammer, hty, REGISTER_PROGRAMMER, HEARTBEAT]
  have hf2 : isRegisterObserver (Step.recv clk msg ip port) = false := by
    simp [isRegisterObserver, hty, REGISTER_OBSERVER, HEARTBEAT]
  have hsub : ∀ r, submittedBy r s (Step.recv clk msg ip port) = [] := by
    intro r
    simp [submittedBy, hty, HEARTBEAT, SUBMIT_PROGRAM]
  obtain ⟨s1, heq, hinv, hs1⟩ := handleHeartbeat_ok s clk msg ip port h
  refine ⟨s1, _, by rw [hstep]; exact heq, ?_⟩
  apply StepFacts.quiet s _ s1 _ hinv hf1 hf2 hsub
  · rw [hs1]
    split <;> rfl
  · rw [hs1]
    split <;> rfl
  · rw [hs1]
    split <;> rfl
  · intro k
    rw [hs1]
    split
    · rename_i hc
      dsimp only
      exact contains_modify_same _ _ _ _ hc k
    · rfl
  · exact fun r => by simp [served]
  · simp [authorAcks]
  · simp [observerAcks]

theorem facts_other (s : ServerState) (clk : Clock) (msg : Message)
    (ip : String) (port : Int) (h : Inv s)
    (h1 : msg.type ≠ REGISTER_PROGRAMMER) (h2 : msg.type ≠ REGISTER_OBSERVER)
    (h3 : msg.type ≠ SUBMIT_PROGRAM) (h4 : msg.type ≠ REQUEST_REVIEW)
    (h5 : msg.type ≠ REVIEW_RESULT) (h6 : msg.type ≠ DISCONNECT)
    (h7 : msg.type ≠ HEARTBEAT) :
    ∃ s1 outs, step s (Step.recv clk msg ip port) = some (s1, outs) ∧
      StepFacts s (Step.recv clk msg ip port) s1 outs := by
  refine ⟨s, [], by simp [step, processMessage, h1, h2, h3, h4, h5, h6, h7], ?_⟩
  apply StepFacts.skip s _ h
  · simp [isRegisterProgrammer, h1]
  · simp [isRegisterObserver, h2]
  · intro r
    simp [submittedBy, h3]

theorem facts_sweep (s : ServerState) (clk : Clock) (h : Inv s) :
    ∃ s1 outs, step s (Step.sweep clk) = some (s1, outs) ∧
      StepFacts s (Step.sweep clk) s1 outs := by
  obtain ⟨s1, outs, heq, hinv, hst, hsame, hkeys⟩ := checkHeartbeats_ok s clk h
  obtain ⟨_, _, _, hq, hnp, hno, _⟩ := hsame
  exact ⟨s1, outs, heq, StepFacts.quiet s _ s1 _ hinv rfl rfl (fun _ => rfl) hq hnp hno hkeys
    (fun r => served_status r outs hst) (authorAcks_status outs hst)
    (observerAcks_status outs hst)⟩

/-- Every step from a state with the invariant goes through. -/
theorem step_facts (s : ServerState) (e : Step) (h : Inv s) :
    ∃ s1 outs, step s e = some (s1, outs) ∧ StepFacts s e s1 outs := by
  cases e with
  | sweep clk => exact facts_sweep s clk h
  | recv clk msg ip port =>
      by_cases h1 : msg.type = REGISTER_PROGRAMMER
      · exact facts_registerProgrammer s clk msg ip port h h1
      by_cases h2 : msg.type = REGISTER_OBSERVER
      · exact facts_registerObserver s clk msg ip port h h2
      by_cases h3 : msg.type = SUBMIT_PROGRAM
      · exact facts_submit s clk msg ip port h h3
      by_cases h4 : msg.type = REQUEST_REVIEW
      · exact facts_request s clk msg ip port h h4
      by_cases h5 : msg.type = REVIEW_RESULT
      · exact facts_reviewResult s clk msg ip port h h5
      by_cases h6 : msg.type = DISCONNECT
      · exact facts_disconnect s clk msg ip port h h6
      by_cases h7 : msg.type = HEARTBEAT
      · exact facts_heartbeat s clk msg ip port h h7
      exact facts_other s clk msg ip port h h1 h2 h3 h4 h5 h6 h7

/-! ## Runs -/

theorem run_cons_eq (s : ServerState) (e : Step) (es : List Step) (s1 s2 : ServerState)
    (o1 o2 : List Sent) (h1 : step s e = some (s1, o1)) (h2 : run s1 es = some (s2, o2)) :
    run s (e :: es) = some (s2, o1 ++ o2) := by
  simp [run, h1, h2]

theorem run_append_eq (s : ServerState) (a b : List Step) (s1 s2 : ServerState)
    (o1 o2 : List Sent) (h1 : run s a = some (s1, o1)) (h2 : run s1 b = some (s2, o2)) :
    run s (a ++ b) = some (s2, o1 ++ o2) := by
  induction a generalizing s o1 with
  | nil =>
      simp only [run, Option.some.injEq, Prod.mk.injEq] at h1
      obtain ⟨h3, h4⟩ := h1
      subst h3 h4
      simpa using h2
  | cons e es ih =>
      unfold run at h1
      split at h1
      · simp at h1
      · rename_i sa oa hstep
        split at h1
        · simp at h1
        · rename_i sb ob hrun
          simp only [Option.some.injEq, Prod.mk.injEq] at h1
          obtain ⟨h3, h4⟩ := h1
          subst h3 h4
          have h5 := ih sa ob hrun
          rw [List.cons_append, run_cons_eq s e (es ++ b) sa s2 oa (ob ++ o2) hstep h5,
            List.append_assoc]

theorem registrations_cons (e : Step) (es : List Step) :
    registrations (e :: es) = (if isRegisterProgrammer e then 1 else 0) + registrations es := by
  by_cases h : isRegisterProgrammer e = true
  · simp [registrations, List.filter_cons, h]
    omega
  · simp [registrations, List.filter_cons, h]

theorem observerRegistrations_cons (e : Step) (es : List Step) :
    observerRegistrations (e :: es) =
      (if isRegisterObserver e then 1 else 0) + observerRegistrations es := by
  by_cases h : isRegisterObserver e = true
  · simp [observerRegistrations, List.filter_cons, h]
    omega
  · simp [observerRegistrations, List.filter_cons, h]

theorem idsFrom_succ (first : Int) (n : Nat) :
    idsFrom first (n + 1) = first :: idsFrom (first + 1) n := by
  simp only [idsFrom, List.range_succ_eq_map, List.map_cons, List.map_map]
  simp only [Nat.cast_zero, add_zero, List.cons.injEq, true_and]
  apply List.map_congr_left
  intro i _
  simp only [Function.comp, Nat.cast_succ]
  omega

theorem mem_idsFrom (first : Int) (n : Nat) (k : Int) :
    k ∈ idsFrom first n ↔ first ≤ k ∧ k < first + n := by
  simp only [idsFrom, List.mem_map, List.mem_range]
  constructor
  · rintro ⟨i, hi, rfl⟩
    have h0 : (0 : Int) ≤ (i : Int) := Int.ofNat_nonneg i
    have h1 : (i : Int) < (n : Int) := by exact_mod_cast hi
    constructor <;> linarith
  · intro ⟨h1, h2⟩
    refine ⟨(k - first).toNat, ?_, ?_⟩
    · have h3 : ((k - first).toNat : Int) = k - first := Int.toNat_of_nonneg (by linarith)
      have h4 : ((k - first).toNat : Int) < (n : Int) := by rw [h3]; linarith
      exact_mod_cast h4
    · rw [Int.toNat_of_nonneg (by linarith)]
      ring

/-- Every run from a state with the invariant goes through. -/
theorem run_facts (s : ServerState) (steps : List Step) (h : Inv s) :
    ∃ s1 outs, run s steps = some (s1, outs) ∧ RunFacts s steps s1 outs := by
  induction steps generalizing s with
  | nil =>
      refine ⟨s, [], rfl, ?_⟩
      constructor
      · exact h
      · intro r
        simp [served, submitted]
      · simp [registrations]
      · simp [observerRegistrations]
      · simp [authorAcks, registrations, idsFrom]
      · simp [observerAcks, observerRegistrations, idsFrom]
      · intro k
        simp [registrations]
  | cons e es ih =>
      obtain ⟨sa, oa, hstep, hf⟩ := step_facts s e h
      obtain ⟨s1, ob, hrun, hr⟩ := ih sa hf.inv
      refine ⟨s1, oa ++ ob, run_cons_eq s e es sa s1 oa ob hstep hrun, ?_⟩
      constructor
      · exact hr.inv
      · intro r
        have h1 := hf.fifo r
        have h2 := hr.fifo r
        have h3 : submitted r s (e :: es) = submittedBy r s e ++ submitted r sa es := by
          simp [submitted, hstep]
        rw [served_append, List.append_assoc, h2, ← List.append_assoc, h1, h3,
          List.append_assoc]
      · rw [hr.progCounter, hf.progCounter, registrations_cons]
        split <;> simp
        omega
      · rw [hr.obsCounter, hf.obsCounter, observerRegistrations_cons]
        split <;> simp
        omega
      · rw [authorAcks_append, hf.progAcks, hr.progAcks, hf.progCounter, registrations_cons]
        split
        · rw [Nat.add_comm, idsFrom_succ]
          simp
        · simp
      · rw [observerAcks_append, hf.obsAcks, hr.obsAcks, hf.obsCounter,
          observerRegistrations_cons]
        split
        · rw [Nat.add_comm, idsFrom_succ]
          simp
        · simp
      · intro k
        rw [hr.progKeys k, hf.progKeys k, hf.progCounter, registrations_cons]
        by_cases hreg : isRegisterProgrammer e = true
        · simp only [hreg, if_true, true_and]
          push_cast
          constructor
          · rintro ((h1 | h1) | h1)
            · exact Or.inl h1
            · exact Or.inr (by omega)
            · exact Or.inr (by omega)
          · rintro (h1 | h1)
            · exact Or.inl (Or.inl h1)
            · by_cases hk : k = s.next_programmer_id
              · exact Or.inl (Or.inr hk)
              · exact Or.inr (by omega)
        · simp only [hreg, if_false, false_and, or_false]
          simp

theorem inv_of_reachable (s : ServerState) (h : Reachable s) : Inv s := by
  obtain ⟨steps, outs, hrun⟩ := h
  obtain ⟨s1, outs1, hrun1, hf⟩ := run_facts initial steps inv_initial
  rw [hrun] at hrun1
  simp only [Option.some.injEq, Prod.mk.injEq] at hrun1
  rw [hrun1.1]
  exact hf.inv

theorem get_modify_self (m : Map ProgrammerInfo) (k : Int) (d d1 : ProgrammerInfo)
    (f : ProgrammerInfo → ProgrammerInfo) : (m.modify k d f).get k d1 = f (m.get k d) := by
  simp [Map.get, Map.find_modify_self]

theorem get_modify_ne (m : Map ProgrammerInfo) (k j : Int) (d d1 : ProgrammerInfo)
    (f : ProgrammerInfo → ProgrammerInfo) (h : j ≠ k) :
    (m.modify k d f).get j d1 = m.get j d1 := by
  simp [Map.get, Map.find_modify_ne _ _ _ _ _ h]

theorem find_modify_modify_second (m : Map ProgrammerInfo) (r a : Int) (d : ProgrammerInfo)
    (f1 f2 : ProgrammerInfo → ProgrammerInfo) (v : ProgrammerInfo) (hv : m.find a = some v) :
    ((m.modify r d f1).modify a d f2).find a = some (f2 (if a = r then f1 v else v)) := by
  rw [Map.find_modify_self]
  by_cases h : a = r
  · subst h
    rw [get_modify_self, Map.get_of_find _ _ _ _ hv]
    simp
  · rw [get_modify_ne _ _ _ _ _ _ h, Map.get_of_find _ _ _ _ hv]
    simp [h]

theorem find_modify_modify_first (m : Map ProgrammerInfo) (r a : Int) (d : ProgrammerInfo)
    (f1 f2 : ProgrammerInfo → ProgrammerInfo) (v : ProgrammerInfo) (hv : m.find r = some v) :
    ((m.modify r d f1).modify a d f2).find r = some (if r = a then f2 (f1 v) else f1 v) := by
  by_cases h : r = a
  · subst h
    rw [Map.find_modify_self, get_modify_self, Map.get_of_find _ _ _ _ hv]
    simp
  · rw [Map.find_modify_ne _ _ _ _ _ h, Map.find_modify_self, Map.get_of_find _ _ _ _ hv]
    simp [h]

theorem processMessage_reviewResult (s : ServerState) (clk : Clock) (msg : Message)
    (ip : String) (port : Int) (hty : msg.type = REVIEW_RESULT) :
    processMessage s clk msg ip port = handleReviewResult s clk msg ip port := by
  simp [processMessage, hty, REVIEW_RESULT, REQUEST_REVIEW, SUBMIT_PROGRAM,
    REGISTER_PROGRAMMER, REGISTER_OBSERVER]

theorem processMessage_submit (s : ServerState) (clk : Clock) (msg : Message)
    (ip : String) (port : Int) (hty : msg.type = SUBMIT_PROGRAM) :
    processMessage s clk msg ip port = handleSubmitProgram s clk msg ip port := by
  simp [processMessage, hty, SUBMIT_PROGRAM, REGISTER_PROGRAMMER, REGISTER_OBSERVER]

theorem processMessage_request (s : ServerState) (clk : Clock) (msg : Message)
    (ip : String) (port : Int) (hty : msg.type = REQUEST_REVIEW) :
    processMessage s clk msg ip port = handleRequestReview s clk msg ip port := by
  simp [processMessage, hty, REQUEST_REVIEW, SUBMIT_PROGRAM, REGISTER_PROGRAMMER,
    REGISTER_OBSERVER]

theorem registrations_replicate (n : Nat) (name : String) (port : Int) :
    registrations (List.replicate n (sampleRegister name port)) = n := by
  induction n with
  | zero => rfl
  | succ n ih =>
      rw [List.replicate_succ, registrations_cons, ih]
      simp [isRegisterProgrammer, sampleRegister, sampleMessage]
      omega

theorem observerRegistrations_replicate (n : Nat) (name : String) (port : Int) :
    observerRegistrations (List.replicate n (sampleRegister name port)) = 0 := by
  induction n with
  | zero => rfl
  | succ n ih =>
      rw [List.replicate_succ, observerRegistrations_cons, ih]
      simp [isRegisterObserver, sampleRegister, sampleMessage, REGISTER_PROGRAMMER,
        REGISTER_OBSERVER]

theorem stateAfter_eq (steps : List Step) (s : ServerState) (outs : List Sent)
    (h : run initial steps = some (s, outs)) : stateAfter steps = s := by
  simp [stateAfter, h]

theorem sentAfter_eq (steps : List Step) (s : ServerState) (outs : List Sent)
    (h : run initial steps = some (s, outs)) : sentAfter steps = outs := by
  simp [sentAfter, h]

theorem reachable_stateAfter (steps : List Step) : Reachable (stateAfter steps) := by
  obtain ⟨s1, outs, hrun, _⟩ := run_facts initial steps inv_initial
  exact ⟨steps, outs, by simp [stateAfter, hrun]⟩

/-- On a sample run the observations are what one expects: `X` and `Y` are submitted to
programmer 2, who then asks for one review and is handed `X`. -/
theorem observations_sample :
    submitted 2 initial [sampleRegister "A" 9001, sampleRegister "B" 9002,
      sampleSubmit 1 2 "X", sampleSubmit 1 2 "Y",
      Step.recv sampleClock (sampleMessage REQUEST_REVIEW 2 0 CORRECT []) "127.0.0.1" 9002]
      = [1, 2] ∧
    served 2 (sentAfter [sampleRegister "A" 9001, sampleRegister "B" 9002,
      sampleSubmit 1 2 "X", sampleSubmit 1 2 "Y",
      Step.recv sampleClock (sampleMessage REQUEST_REVIEW 2 0 CORRECT []) "127.0.0.1" 9002])
      = [1] := by
  decide

/-! ## Facts about the datagrams of a snapshot -/

theorem find_erase_self (m : Map Address) (k : Int) : (Map.erase m k).find k = none := by
  induction m with
  | nil => rfl
  | cons e rest ih =>
      obtain ⟨k1, v1⟩ := e
      by_cases h : k1 = k
      · simpa [Map.erase, List.filter_cons, h] using ih
      · have h1 : ¬ k = k1 := fun h2 => h h2.symm
        simpa [Map.erase, List.filter_cons, h, Map.find, h1] using ih

theorem find_erase_ne (m : Map Address) (k j : Int) (hj : j ≠ k) :
    (Map.erase m k).find j = m.find j := by
  induction m with
  | nil => rfl
  | cons e rest ih =>
      obtain ⟨k1, v1⟩ := e
      by_cases h : k1 = k
      · subst h
        simpa [Map.erase, List.filter_cons, Map.find, hj] using ih
      · by_cases h1 : j = k1
        · simp [Map.erase, List.filter_cons, h, Map.find, h1]
        · simpa [Map.erase, List.filter_cons, h, Map.find, h1] using ih

theorem sendParts_fields (m : Message) (addr : Address) (fuel : Nat) (rest : Bytes)
    (part : Int) :
    ∀ x ∈ sendParts m addr fuel rest part,
      x.msg.type = m.type ∧ x.msg.client_id = m.client_id ∧ x.ip = addr.1 ∧
      x.port = addr.2 := by
  induction fuel generalizing rest part with
  | zero => simp [sendParts]
  | succ fuel ih =>
      intro x hx
      unfold sendParts at hx
      split at hx
      · simp at hx
      · rcases List.mem_cons.mp hx with h1 | h1
        · rw [h1]
          exact ⟨rfl, rfl, rfl, rfl⟩
        · exact ih _ _ x h1

theorem sendStatus_fields (clk : Clock) (o : Int) (addr : Address) (text : Bytes) :
    ∀ x ∈ sendStatus clk o addr text,
      x.msg.type = STATUS_UPDATE ∧ x.msg.client_id = o ∧ x.ip = addr.1 ∧ x.port = addr.2 := by
  intro x hx
  simp only [sendStatus] at hx
  rcases List.mem_append.mp hx with h1 | h1
  · exact sendParts_fields _ _ _ _ _ x h1
  · simp only [List.mem_singleton] at h1
    rw [h1]
    exact ⟨rfl, rfl, rfl, rfl⟩

/-- For a registered observer `sendFullStatusToObserver` sends the datagrams of
`sendStatus` for the text it has built. -/
theorem sendFull_eq (s : ServerState) (clk : Clock) (o : Int) (addr : Address)
    (text : Bytes) (ha : s.observer_addresses.find o = some addr)
    (ht : statusText s clk = some text) :
    sendFullStatusToObserver s clk o = some (sendStatus clk o addr text) := by
  have hc : s.observer_addresses.contains o = true := by simp [Map.contains, ha]
  simp only [sendFullStatusToObserver, hc, ht, Map.get_of_find _ _ _ _ ha, sendStatus,
    Bool.not_true, Bool.false_eq_true, if_false]

theorem sendFull_unregistered (s : ServerState) (clk : Clock) (o : Int)
    (ha : s.observer_addresses.find o = none) :
    sendFullStatusToObserver s clk o = some [] := by
  have hc : s.observer_addresses.contains o = false := by simp [Map.contains, ha]
  simp [sendFullStatusToObserver, hc]

/-- Every datagram of a snapshot goes to a registered observer, at its address and
tagged with its id. -/
theorem sendFull_addressed (s : ServerState) (clk : Clock) (o : Int) (outs : List Sent)
    (h : sendFullStatusToObserver s clk o = some outs) :
    ∀ x ∈ outs, x.msg.type = STATUS_UPDATE ∧
      s.observer_addresses.find x.msg.client_id = some (x.ip, x.port) := by
  cases ha : s.observer_addresses.find o with
  | none =>
      rw [sendFull_unregistered s clk o ha] at h
      simp only [Option.some.injEq] at h
      subst h
      simp
  | some addr =>
      cases ht : statusText s clk with
      | none =>
          have hc : s.observer_addresses.contains o = true := by simp [Map.contains, ha]
          simp [sendFullStatusToObserver, hc, ht] at h
      | some text =>
          rw [sendFull_eq s clk o addr text ha ht] at h
          simp only [Option.some.injEq] at h
          subst h
          intro x hx
          obtain ⟨h1, h2, h3, h4⟩ := sendStatus_fields clk o addr text x hx
          refine ⟨h1, ?_⟩
          rw [h2, ha, h3, h4]

theorem broadcastLoop_addressed (s : ServerState) (clk : Clock) (l : List Int)
    (outs : List Sent) (h : broadcastLoop s clk l = some outs) :
    ∀ x ∈ outs, x.msg.type = STATUS_UPDATE ∧
      s.observer_addresses.find x.msg.client_id = some (x.ip, x.port) := by
  induction l generalizing outs with
  | nil =>
      simp only [broadcastLoop, Option.some.injEq] at h
      subst h
      simp
  | cons o rest ih =>
      unfold broadcastLoop at h
      split at h
      · simp at h
      · rename_i a ha
        split at h
        · simp at h
        · rename_i b hb
          simp only [Option.some.injEq] at h
          subst h
          intro x hx
          rcases List.mem_append.mp hx with h1 | h1
          · exact sendFull_addressed s clk o a ha x h1
          · exact ih b hb x h1

theorem broadcast_addressed (s : ServerState) (clk : Clock) (outs : List Sent)
    (h : broadcastStatusUpdate s clk = some outs) :
    ∀ x ∈ outs, x.msg.type = STATUS_UPDATE ∧
      s.observer_addresses.find x.msg.client_id = some (x.ip, x.port) :=
  broadcastLoop_addressed s clk _ outs h

/-! ## What the broadcasting handlers send -/

theorem handleDisconnect_sent (s : ServerState) (clk : Clock) (msg : Message) (ip : String)
    (port : Int) (s1 : ServerState) (outs : List Sent)
    (h : handleDisconnect s clk msg ip port = some (s1, outs)) :
    broadcastStatusUpdate s1 clk = some outs := by
  unfold handleDisconnect at h
  simp only at h
  split at h
  · simp at h
  · rename_i bo hb
    simp only [Option.some.injEq, Prod.mk.injEq] at h
    obtain ⟨h1, h2⟩ := h
    rw [← h1, ← h2]
    exact hb

theorem handleRegisterProgrammer_sent (s : ServerState) (clk : Clock) (msg : Message)
    (ip : String) (port : Int) (s1 : ServerState) (outs : List Sent)
    (h : handleRegisterProgrammer s clk msg ip port = some (s1, outs)) :
    ∃ sent bouts, outs = sent ++ bouts ∧ broadcastStatusUpdate s1 clk = some bouts := by
  unfold handleRegisterProgrammer at h
  simp only at h
  split at h
  · simp at h
  · rename_i bo hb
    simp only [Option.some.injEq, Prod.mk.injEq] at h
    obtain ⟨h1, h2⟩ := h
    subst h1 h2
    exact ⟨_, bo, (List.singleton_append).symm, hb⟩

theorem handleRegisterObserver_sent (s : ServerState) (clk : Clock) (msg : Message)
    (ip : String) (port : Int) (s1 : ServerState) (outs : List Sent)
    (h : handleRegisterObserver s clk msg ip port = some (s1, outs)) :
    ∃ sent bouts, outs = sent ++ bouts ∧
      sendFullStatusToObserver s1 clk s.next_observer_id = some bouts ∧
      ∀ x ∈ sent, x.msg.type = REGISTER_OBSERVER := by
  unfold handleRegisterObserver at h
  simp only at h
  split at h
  · simp at h
  · rename_i bo hb
    simp only [Option.some.injEq, Prod.mk.injEq] at h
    obtain ⟨h1, h2⟩ := h
    subst h1 h2
    exact ⟨_, bo, (List.singleton_append).symm, hb, by simp⟩

theorem handleSubmitProgram_sent (s : ServerState) (clk : Clock) (msg : Message)
    (ip : String) (port : Int) (s1 : ServerState) (outs : List Sent)
    (ha : s.programmers.contains msg.client_id = true)
    (ht : s.programmers.contains msg.target_id = true)
    (h : handleSubmitProgram s clk msg ip port = some (s1, outs)) :
    ∃ sent bouts, outs = sent ++ bouts ∧ broadcastStatusUpdate s1 clk = some bouts := by
  unfold handleSubmitProgram at h
  simp only [ha, ht, Bool.not_true, Bool.or_self, Bool.false_eq_true, if_false] at h
  split at h
  · simp at h
  · rename_i bo hb
    simp only [Option.some.injEq, Prod.mk.injEq] at h
    obtain ⟨h1, h2⟩ := h
    exact ⟨_, bo, h2.symm, by rw [← h1]; exact hb⟩

theorem handleReviewResult_sent (s : ServerState) (clk : Clock) (msg : Message)
    (ip : String) (port : Int) (s1 : ServerState) (outs : List Sent)
    (hr : s.programmers.contains msg.client_id = true)
    (ha : s.programmers.contains msg.target_id = true)
    (h : handleReviewResult s clk msg ip port = some (s1, outs)) :
    ∃ sent bouts, outs = sent ++ bouts ∧ broadcastStatusUpdate s1 clk = some bouts := by
  unfold handleReviewResult at h
  simp only [hr, ha, Bool.not_true, Bool.or_self, Bool.false_eq_true, if_false] at h
  split at h
  · simp at h
  · rename_i bo hb
    simp only [Option.some.injEq, Prod.mk.injEq] at h
    obtain ⟨h1, h2⟩ := h
    exact ⟨_, bo, h2.symm, by rw [← h1]; exact hb⟩

theorem handleRequestReview_sent (s : ServerState) (clk : Clock) (msg : Message)
    (ip : String) (port : Int) (s1 : ServerState) (outs : List Sent)
    (item : ProgramReview) (rest : List ProgramReview)
    (hr : s.programmers.contains msg.client_id = true)
    (hq : s.review_queues.find msg.client_id = some (item :: rest))
    (h : handleRequestReview s clk msg ip port = some (s1, outs)) :
    ∃ sent bouts, outs = sent ++ bouts ∧ broadcastStatusUpdate s1 clk = some bouts := by
  have hc : s.review_queues.contains msg.client_id = true := by simp [Map.contains, hq]
  have htouch : s.review_queues.touch msg.client_id [] = s.review_queues :=
    Map.touch_of_contains _ _ _ hc
  have hget : s.review_queues.get msg.client_id [] = item :: rest :=
    Map.get_of_find _ _ _ _ hq
  unfold handleRequestReview at h
  simp only [hr, htouch, hget, Bool.not_true, Bool.false_eq_true, if_false] at h
  split at h
  · simp at h
  · rename_i bo hb
    simp only [Option.some.injEq, Prod.mk.injEq] at h
    obtain ⟨h1, h2⟩ := h
    subst h1 h2
    exact ⟨_, bo, (List.singleton_append).symm, hb⟩

/-! ## What the liveness check does -/

theorem swept_of_timeout (now : Int) (v : ProgrammerInfo)
    (h : (v.is_connected && decide (now - v.last_activity > CLIENT_TIMEOUT)) = true) :
    swept now v = { v with is_connected := false } := by
  simp only [Bool.and_eq_true, decide_eq_true_eq] at h
  have h2 : ¬ now - v.last_activity ≤ CLIENT_TIMEOUT := by omega
  simp [swept, h2]

theorem swept_of_not_timeout (now : Int) (v : ProgrammerInfo)
    (h : ¬ (v.is_connected && decide (now - v.last_activity > CLIENT_TIMEOUT)) = true) :
    swept now v = v := by
  simp only [Bool.and_eq_true, decide_eq_true_eq, not_and] at h
  obtain ⟨id, name, state, pw, pr, cp, ca, la, ic⟩ := v
  cases ic with
  | false => simp [swept]
  | true =>
      have h2 : now - la ≤ CLIENT_TIMEOUT := by
        have := h rfl
        simp only at this
        omega
      simp [swept, h2]

theorem swept_swept (now : Int) (v : ProgrammerInfo) : swept now (swept now v) = swept now v := by
  simp [swept]

theorem checkHeartbeatsLoop_effect (clk : Clock) (ks : List Int) (s s1 : ServerState)
    (outs : List Sent) (h : checkHeartbeatsLoop clk ks s = some (s1, outs)) :
    SameButFlags s s1 ∧
    (∀ x ∈ outs, x.msg.type = STATUS_UPDATE ∧
      s.observer_addresses.find x.msg.client_id = some (x.ip, x.port)) ∧
    (∀ j v, s.programmers.find j = some v →
      s1.programmers.find j = some (if j ∈ ks then swept clk.now v else v)) ∧
    (∀ j, s.programmers.find j = none → s1.programmers.find j = none) := by
  induction ks generalizing s outs with
  | nil =>
      simp only [checkHeartbeatsLoop, Option.some.injEq, Prod.mk.injEq] at h
      obtain ⟨h1, h2⟩ := h
      subst h1 h2
      exact ⟨by simp [SameButFlags], by simp, by simp, fun _ hj => hj⟩
  | cons k ks ih =>
      unfold checkHeartbeatsLoop at h
      simp only at h
      split at h
      · rename_i hcond
        cases hk : s.programmers.find k with
        | none =>
            simp [Map.get, hk, ProgrammerInfo.default] at hcond
        | some info =>
            rw [Map.get_of_find _ _ _ _ hk] at hcond
            split at h
            · simp at h
            · rename_i bo hb
              split at h
              · simp at h
              · rename_i s2 outs2 hl
                simp only [Option.some.injEq, Prod.mk.injEq] at h
                obtain ⟨h1, h2⟩ := h
                subst h1 h2
                obtain ⟨hsame, haddr, hfind, hnone⟩ := ih _ _ hl
                refine ⟨?_, ?_, ?_, ?_⟩
                · simpa [SameButFlags] using hsame
                · intro x hx
                  rcases List.mem_append.mp hx with h3 | h3
                  · exact broadcast_addressed _ clk bo hb x h3
                  · exact haddr x h3
                · intro j v hj
                  by_cases hjk : j = k
                  · subst hjk
                    rw [hk] at hj
                    simp only [Option.some.injEq] at hj
                    subst hj
                    have h4 := hfind j { info with is_connected := false } (by
                      dsimp only
                      rw [Map.find_modify_self, Map.get_of_find _ _ _ _ hk])
                    rw [h4]
                    simp only [List.mem_cons, true_or, if_true]
                    rw [swept_of_timeout clk.now info hcond]
                    split
                    · simp [swept]
                    · rfl
                  · have h4 := hfind j v (by
                      dsimp only
                      rw [Map.find_modify_ne _ _ _ _ _ hjk]
                      exact hj)
                    rw [h4]
                    simp [hjk]
                · intro j hj
                  have hjk : j ≠ k := by
                    intro h5
                    rw [h5, hk] at hj
                    simp at hj
                  exact hnone j (by
                    dsimp only
                    rw [Map.find_modify_ne _ _ _ _ _ hjk]
                    exact hj)
      · rename_i hcond
        obtain ⟨hsame, haddr, hfind, hnone⟩ := ih _ _ h
        refine ⟨hsame, haddr, ?_, hnone⟩
        intro j v hj
        rw [hfind j v hj]
        by_cases hjk : j = k
        · subst hjk
          rw [Map.get_of_find _ _ _ _ hj] at hcond
          simp only [List.mem_cons, true_or, if_true]
          split
          · rfl
          · rw [swept_of_not_timeout clk.now v hcond]
        · simp [hjk]

theorem checkHeartbeats_effect (s s1 : ServerState) (clk : Clock) (outs : List Sent)
    (h : checkHeartbeats s clk = some (s1, outs)) :
    SameButFlags s s1 ∧
    (∀ x ∈ outs, x.msg.type = STATUS_UPDATE ∧
      s.observer_addresses.find x.msg.client_id = some (x.ip, x.port)) ∧
    (∀ j v, s.programmers.find j = some v → s1.programmers.find j = some (swept clk.now v)) ∧
    (∀ j, s.programmers.find j = none → s1.programmers.find j = none) := by
  obtain ⟨hsame, haddr, hfind, hnone⟩ := checkHeartbeatsLoop_effect clk _ s s1 outs h
  refine ⟨hsame, haddr, ?_, hnone⟩
  intro j v hj
  rw [hfind j v hj]
  have hmem : j ∈ s.programmers.keys :=
    (Map.contains_iff_mem_keys _ _).mp (by simp [Map.contains, hj])
  simp [hmem]

/-! ## Heartbeats -/

theorem processMessage_heartbeat (s : ServerState) (clk : Clock) (msg : Message)
    (ip : String) (port : Int) (hty : msg.type = HEARTBEAT) :
    processMessage s clk msg ip port = handleHeartbeat s clk msg ip port := by
  simp [processMessage, hty, HEARTBEAT, DISCONNECT, REVIEW_RESULT, REQUEST_REVIEW,
    SUBMIT_PROGRAM, REGISTER_PROGRAMMER, REGISTER_OBSERVER]

theorem processMessage_disconnect (s : ServerState) (clk : Clock) (msg : Message)
    (ip : String) (port : Int) (hty : msg.type = DISCONNECT) :
    processMessage s clk msg ip port = handleDisconnect s clk msg ip port := by
  simp [processMessage, hty, DISCONNECT, REVIEW_RESULT, REQUEST_REVIEW,
    SUBMIT_PROGRAM, REGISTER_PROGRAMMER, REGISTER_OBSERVER]

/-- One heartbeat of a registered programmer. -/
theorem heartbeat_once (s : ServerState) (clk : Clock) (msg : Message) (ip : String)
    (port : Int) (before : ProgrammerInfo) (hty : msg.type = HEARTBEAT)
    (hb : s.programmers.find msg.client_id = some before) :
    ∃ s1, processMessage s clk msg ip port = some (s1, []) ∧
      s1.programmers.find msg.client_id =
        some { before with last_activity := clk.now, is_connected := true } ∧
      (∀ k, k ≠ msg.client_id → s1.programmers.find k = s.programmers.find k) ∧
      SameButFlags s s1 := by
  have hc : s.programmers.contains msg.client_id = true := by simp [Map.contains, hb]
  refine ⟨{ s with
    programmers := s.programmers.modify msg.client_id (ProgrammerInfo.default clk)
      (fun p => { p with last_activity := clk.now, is_connected := true }) }, ?_, ?_, ?_, ?_⟩
  · rw [processMessage_heartbeat s clk msg ip port hty]
    simp [handleHeartbeat, hc]
  · dsimp only
    rw [Map.find_modify_self, Map.get_of_find _ _ _ _ hb]
  · intro k hk
    dsimp only
    exact Map.find_modify_ne _ _ _ _ _ hk
  · simp [SameButFlags]

/-- Any number of further heartbeats of a connected programmer. -/
theorem heartbeat_again (msg : Message) (ip : String) (port : Int)
    (hty : msg.type = HEARTBEAT) (clocks : List Clock) :
    ∀ (s : ServerState) (p : ProgrammerInfo),
      s.programmers.find msg.client_id = some p → p.is_connected = true →
      ∃ sn, run s (heartbeats msg ip port clocks) = some (sn, []) ∧
        sn.programmers.find msg.client_id = some { p with
          last_activity := (clocks.getLast?.map (fun c => c.now)).getD p.last_activity } ∧
        (∀ k, k ≠ msg.client_id → sn.programmers.find k = s.programmers.find k) ∧
        SameButFlags s sn := by
  induction clocks with
  | nil =>
      intro s p hp _
      exact ⟨s, rfl, by simpa using hp, fun _ _ => rfl, by simp [SameButFlags]⟩
  | cons c cs ih =>
      intro s p hp hcon
      obtain ⟨s1, h1, hf1, hk1, hs1⟩ := heartbeat_once s c msg ip port p hty hp
      obtain ⟨sn, h2, hf2, hk2, hs2⟩ := ih s1 _ hf1 rfl
      refine ⟨sn, ?_, ?_, ?_, ?_⟩
      · have := run_cons_eq s (Step.recv c msg ip port) (heartbeats msg ip port cs) s1 sn [] []
          h1 h2
        simpa [heartbeats] using this
      · rw [hf2]
        cases cs with
        | nil => simp [hcon]
        | cons c2 cs2 =>
            have hl : (c2 :: cs2).getLast? = some ((c2 :: cs2).getLast (by simp)) :=
              List.getLast?_eq_getLast _ _
            simp [List.getLast?_cons_cons, hcon, hl]
      · intro k hk
        rw [hk2 k hk, hk1 k hk]
      · obtain ⟨a1, a2, a3, a4, a5, a6, a7⟩ := hs1
        obtain ⟨b1, b2, b3, b4, b5, b6, b7⟩ := hs2
        exact ⟨b1.trans a1, b2.trans a2, b3.trans a3, b4.trans a4, b5.trans a5, b6.trans a6,
          b7.trans a7⟩

/-! ## Which steps take a connection -/

theorem find_modify_connected (m : Map ProgrammerInfo) (k : Int) (d : ProgrammerInfo)
    (f : ProgrammerInfo → ProgrammerInfo) (a : Int) (before : ProgrammerInfo)
    (hb : m.find a = some before) (hc : before.is_connected = true)
    (hf : ∀ p, p.is_connected = true → (f p).is_connected = true) :
    ∃ after, (m.modify k d f).find a = some after ∧ after.is_connected = true := by
  by_cases hak : a = k
  · subst hak
    exact ⟨_, Map.find_modify_self _ _ _ _, hf _ (by rw [Map.get_of_find _ _ _ _ hb]; exact hc)⟩
  · exact ⟨before, by rw [Map.find_modify_ne _ _ _ _ _ hak]; exact hb, hc⟩

/-- A received datagram of a kind other than DISCONNECT leaves a connected programmer
connected. -/
theorem recv_keeps_connected (s : ServerState) (clk : Clock) (msg : Message) (ip : String)
    (port : Int) (h : Inv s) (a : Int) (before : ProgrammerInfo)
    (hb : s.programmers.find a = some before) (hc : before.is_connected = true)
    (hty : msg.type ≠ DISCONNECT) :
    ∃ s1 outs, step s (Step.recv clk msg ip port) = some (s1, outs) ∧
      ∃ after, s1.programmers.find a = some after ∧ after.is_connected = true := by
  have hstay : ∀ outs, step s (Step.recv clk msg ip port) = some (s, outs) →
      ∃ s1 outs, step s (Step.recv clk msg ip port) = some (s1, outs) ∧
        ∃ after, s1.programmers.find a = some after ∧ after.is_connected = true :=
    fun outs ho => ⟨s, outs, ho, before, hb, hc⟩
  have hca : s.programmers.contains a = true := by simp [Map.contains, hb]
  by_cases h1 : msg.type = REGISTER_PROGRAMMER
  · obtain ⟨s1, ack, bouts, heq, _, _, _, _, _, _, _, _, hprog, _⟩ :=
      handleRegisterProgrammer_ok s clk msg ip port h
    have hne : a ≠ s.next_programmer_id := by
      intro h2
      have h3 := not_contains_next_programmer s h
      rw [← h2, hca] at h3
      simp at h3
    refine ⟨s1, ⟨ack, ip, port⟩ :: bouts,
      by simp only [step, processMessage, h1, if_true]; exact heq, before, ?_, hc⟩
    rw [hprog, Map.find_insert_ne _ _ _ _ hne]
    exact hb
  by_cases h2 : msg.type = REGISTER_OBSERVER
  · obtain ⟨s1, ack, bouts, heq, _, _, _, _, _, _, _, _, hprog, _⟩ :=
      handleRegisterObserver_ok s clk msg ip port h
    refine ⟨s1, ⟨ack, ip, port⟩ :: bouts, ?_, before, by rw [hprog]; exact hb, hc⟩
    simp only [step, processMessage, h2]
    simp only [REGISTER_OBSERVER, REGISTER_PROGRAMMER] at heq ⊢
    simpa using heq
  by_cases h3 : msg.type = SUBMIT_PROGRAM
  · have hstep : step s (Step.recv clk msg ip port) = handleSubmitProgram s clk msg ip port :=
      processMessage_submit s clk msg ip port h3
    by_cases hx : s.programmers.contains msg.client_id = true
    · by_cases hy : s.programmers.contains msg.target_id = true
      · obtain ⟨s1, note, addr, bouts, heq, _, _, _, _, hs1⟩ :=
          handleSubmitProgram_ok s clk msg ip port h hx hy
        rw [← hstep] at heq
        refine ⟨s1, _, heq, ?_⟩
        rw [hs1]
        dsimp only
        refine find_modify_connected s.programmers msg.client_id
          (ProgrammerInfo.default clk) _ a before hb hc ?_
        intro p hp
        exact hp
      · exact hstay [] (by
          rw [hstep]
          exact handleSubmitProgram_unknown s clk msg ip port (Or.inr (by simpa using hy)))
    · exact hstay [] (by
        rw [hstep]
        exact handleSubmitProgram_unknown s clk msg ip port (Or.inl (by simpa using hx)))
  by_cases h4 : msg.type = REQUEST_REVIEW
  · have hstep : step s (Step.recv clk msg ip port) = handleRequestReview s clk msg ip port :=
      processMessage_request s clk msg ip port h4
    by_cases hx : s.programmers.contains msg.client_id = true
    · obtain ⟨q, hq⟩ := Map.find_isSome_of_contains _ _ ((h.queues _).mp hx)
      cases q with
      | nil =>
          exact hstay _ (by rw [hstep]; exact handleRequestReview_empty s clk msg ip port hx hq)
      | cons item rest =>
          obtain ⟨s1, reply, bouts, heq, _, _, _, hs1⟩ :=
            handleRequestReview_ok s clk msg ip port h item rest hx hq
          rw [← hstep] at heq
          refine ⟨s1, _, heq, ?_⟩
          rw [hs1]
          dsimp only
          refine find_modify_connected s.programmers msg.client_id
            (ProgrammerInfo.default clk) _ a before hb hc ?_
          intro p hp
          exact hp
    · exact hstay [] (by
        rw [hstep]
        exact handleRequestReview_unknown s clk msg ip port (by simpa using hx))
  by_cases h5 : msg.type = REVIEW_RESULT
  · have hstep : step s (Step.recv clk msg ip port) = handleReviewResult s clk msg ip port :=
      processMessage_reviewResult s clk msg ip port h5
    by_cases hx : s.programmers.contains msg.client_id = true
    · by_cases hy : s.programmers.contains msg.target_id = true
      · obtain ⟨s1, addr, bouts, heq, _, _, _, hs1⟩ :=
          handleReviewResult_ok s clk msg ip port h hx hy
        rw [← hstep] at heq
        refine ⟨s1, _, heq, ?_⟩
        rw [hs1]
        dsimp only
        obtain ⟨mid, hfm, hcm⟩ := find_modify_connected s.programmers msg.client_id
          (ProgrammerInfo.default clk)
          (fun p => { p with
            programs_reviewed := p.programs_reviewed + 1,
            state := WRITING,
            current_activity := lit "Пишет новую программу",
            last_activity := clk.now }) a before hb hc (fun p hp => by exact hp)
        refine find_modify_connected _ msg.target_id
          (ProgrammerInfo.default clk) _ a mid hfm hcm ?_
        intro p hp
        dsimp only
        split <;> exact hp
      · exact hstay [] (by
          rw [hstep]
          exact handleReviewResult_unknown s clk msg ip port (Or.inr (by simpa using hy)))
    · exact hstay [] (by
        rw [hstep]
        exact handleReviewResult_unknown s clk msg ip port (Or.inl (by simpa using hx)))
  by_cases h7 : msg.type = HEARTBEAT
  · have hstep : step s (Step.recv clk msg ip port) = handleHeartbeat s clk msg ip port :=
      processMessage_heartbeat s clk msg ip port h7
    by_cases hx : s.programmers.contains msg.client_id = true
    · obtain ⟨after, hfa, hca1⟩ := find_modify_connected s.programmers msg.client_id
        (ProgrammerInfo.default clk)
        (fun p => { p with last_activity := clk.now, is_connected := true })
        a before hb hc (fun _ _ => rfl)
      refine ⟨{ s with
        programmers := s.programmers.modify msg.client_id (ProgrammerInfo.default clk)
          (fun p => { p with last_activity := clk.now, is_connected := true }) }, [], ?_,
        after, hfa, hca1⟩
      rw [hstep]
      simp [handleHeartbeat, hx]
    · exact hstay [] (by
        rw [hstep]
        exact handleHeartbeat_unknown s clk msg ip port (by simpa using hx))
  exact hstay [] (by simp [step, processMessage, h1, h2, h3, h4, h5, hty, h7])

/-! ## Facts about the sending loop and the observer -/

theorem zeroData_drop (n : Nat) : zeroData.drop n = List.replicate (256 - n) 0 := by
  rw [zeroData, List.drop_replicate]

theorem cstr_chunk (c : Bytes) (h0 : 0 ∉ c) (hlen : c.length ≤ 255) :
    cstr (c ++ zeroData.drop c.length) = c := by
  rw [zeroData_drop]
  have h1 : 256 - c.length = (255 - c.length) + 1 := by omega
  rw [h1, List.replicate_succ]
  exact cstr_append_zero c _ h0

theorem not_mem_take (rest : Bytes) (n : Nat) (h : 0 ∉ rest) : 0 ∉ rest.take n :=
  fun hm => h (List.mem_of_mem_take hm)

theorem not_mem_drop (rest : Bytes) (n : Nat) (h : 0 ∉ rest) : 0 ∉ rest.drop n :=
  fun hm => h (List.mem_of_mem_drop hm)

/-- The parts the loop sends for a text without NUL bytes: their numbers count up from
`part`, their texts have 1 to 255 bytes, and put together they give the text. -/
theorem sendParts_spec (m : Message) (addr : Address) (fuel : Nat) (rest : Bytes)
    (part : Int) (h0 : 0 ∉ rest) (hfuel : rest.length ≤ fuel) :
    (sendParts m addr fuel rest part).map (fun x => x.msg.program_id) =
      idsFrom part (sendParts m addr fuel rest part).length ∧
    (∀ x ∈ sendParts m addr fuel rest part,
      1 ≤ (cstr x.msg.data).length ∧ (cstr x.msg.data).length ≤ 255) ∧
    (sendParts m addr fuel rest part).flatMap (fun x => cstr x.msg.data) = rest := by
  induction fuel generalizing rest part with
  | zero =>
      have hnil : rest = [] := List.eq_nil_of_length_eq_zero (by omega)
      subst hnil
      simp [sendParts, idsFrom]
  | succ fuel ih =>
      unfold sendParts
      by_cases hlen : rest.length = 0
      · have hnil : rest = [] := List.eq_nil_of_length_eq_zero hlen
        subst hnil
        simp [idsFrom]
      · simp only [hlen, if_false]
        have hpos : 0 < rest.length := Nat.pos_of_ne_zero hlen
        have htl : (rest.take (min 255 rest.length)).length = min 255 rest.length := by
          simp
        have hbody : cstr (rest.take (min 255 rest.length) ++
            zeroData.drop (min 255 rest.length)) = rest.take (min 255 rest.length) := by
          have := cstr_chunk (rest.take (min 255 rest.length)) (not_mem_take _ _ h0)
            (by rw [htl]; omega)
          rw [htl] at this
          exact this
        obtain ⟨ih1, ih2, ih3⟩ := ih (rest.drop (min 255 rest.length)) (part + 1)
          (not_mem_drop _ _ h0) (by rw [List.length_drop]; omega)
        refine ⟨?_, ?_, ?_⟩
        · simp only [List.map_cons, List.length_cons, idsFrom_succ, ih1]
        · intro x hx
          rcases List.mem_cons.mp hx with h1 | h1
          · rw [h1]
            dsimp only
            rw [hbody, htl]
            omega
          · exact ih2 x h1
        · simp only [List.flatMap_cons, ih3, hbody]
          exact List.take_append_drop _ _

namespace ObserverClient

theorem processMessages_append (o : ObserverClient) (a b : List Message) :
    o.processMessages (a ++ b) =
      (((o.processMessages a).1.processMessages b).1,
        (o.processMessages a).2 ++ ((o.processMessages a).1.processMessages b).2) := by
  induction a generalizing o with
  | nil => simp [processMessages]
  | cons m rest ih =>
      rw [List.cons_append]
      simp only [processMessages, ih, List.append_assoc]

/-- Snapshot parts for this client, none of which reads as the end marker, are appended
to the accumulator and print nothing. -/
theorem processMessages_parts (o : ObserverClient) (parts : List Message)
    (h : ∀ x ∈ parts, x.type = STATUS_UPDATE ∧ x.client_id = o.client_id ∧
      cstr x.data ≠ lit "END_OF_STATUS") :
    o.processMessages parts =
      ({ o with accumulated_status :=
          o.accumulated_status ++ parts.flatMap (fun x => cstr x.data) }, []) := by
  induction parts generalizing o with
  | nil => simp [processMessages]
  | cons m rest ih =>
      obtain ⟨h1, h2, h3⟩ := h m (List.mem_cons_self _ _)
      have hstep : o.processMessage m =
          ({ o with accumulated_status := o.accumulated_status ++ cstr m.data }, []) := by
        simp [processMessage, handleStatusUpdate, h1, h2, h3]
      have ih1 := ih { o with accumulated_status := o.accumulated_status ++ cstr m.data }
        (fun x hx => h x (List.mem_cons_of_mem _ hx))
      simp only [processMessages, hstep, ih1, List.flatMap_cons, List.append_assoc,
        List.nil_append]

end ObserverClient

/-! ## Complete snapshots among the datagrams of a step -/

theorem SnapshotIn.append_right {clk : Clock} {o : Int} {addr : Address} {text : Bytes}
    {outs : List Sent} (h : SnapshotIn clk o addr text outs) (more : List Sent) :
    SnapshotIn clk o addr text (outs ++ more) := by
  obtain ⟨pre, post, hp⟩ := h
  exact ⟨pre, post ++ more, by rw [hp]; simp [List.append_assoc]⟩

theorem SnapshotIn.append_left {clk : Clock} {o : Int} {addr : Address} {text : Bytes}
    {outs : List Sent} (h : SnapshotIn clk o addr text outs) (more : List Sent) :
    SnapshotIn clk o addr text (more ++ outs) := by
  obtain ⟨pre, post, hp⟩ := h
  exact ⟨more ++ pre, post, by rw [hp]; simp [List.append_assoc]⟩

theorem sendFull_snapshot (s : ServerState) (clk : Clock) (o : Int) (addr : Address)
    (outs : List Sent) (ha : s.observer_addresses.find o = some addr)
    (h : sendFullStatusToObserver s clk o = some outs) :
    ∃ text, statusText s clk = some text ∧ outs = sendStatus clk o addr text := by
  cases ht : statusText s clk with
  | none =>
      have hc : s.observer_addresses.contains o = true := by simp [Map.contains, ha]
      simp [sendFullStatusToObserver, hc, ht] at h
  | some text =>
      rw [sendFull_eq s clk o addr text ha ht] at h
      simp only [Option.some.injEq] at h
      exact ⟨text, rfl, h.symm⟩

theorem broadcastLoop_snapshots (s : ServerState) (clk : Clock) (l : List Int)
    (outs : List Sent) (h : broadcastLoop s clk l = some outs) (o : Int) (addr : Address)
    (ho : o ∈ l) (ha : s.observer_addresses.find o = some addr) :
    ∃ text, statusText s clk = some text ∧ SnapshotIn clk o addr text outs := by
  induction l generalizing outs with
  | nil => simp at ho
  | cons k rest ih =>
      unfold broadcastLoop at h
      split at h
      · simp at h
      · rename_i a hsend
        split at h
        · simp at h
        · rename_i b hb
          simp only [Option.some.injEq] at h
          subst h
          by_cases hk : o = k
          · subst hk
            obtain ⟨text, ht, ha1⟩ := sendFull_snapshot s clk o addr a ha hsend
            exact ⟨text, ht, [], b, by rw [ha1]; simp⟩
          · have hmem : o ∈ rest := by
              rcases List.mem_cons.mp ho with h1 | h1
              · exact absurd h1 hk
              · exact h1
            obtain ⟨text, ht, hsn⟩ := ih b hb hmem
            exact ⟨text, ht, hsn.append_left a⟩

/-- A broadcast holds a complete snapshot for every registered observer. -/
theorem broadcast_snapshots (s : ServerState) (clk : Clock) (outs : List Sent)
    (h : broadcastStatusUpdate s clk = some outs) (o : Int) (addr : Address)
    (ha : s.observer_addresses.find o = some addr) :
    ∃ text, statusText s clk = some text ∧ SnapshotIn clk o addr text outs :=
  broadcastLoop_snapshots s clk _ outs h o addr
    ((Map.contains_iff_mem_keys _ _).mp (by simp [Map.contains, ha])) ha

theorem processMessage_registerProgrammer (s : ServerState) (clk : Clock) (msg : Message)
    (ip : String) (port : Int) (hty : msg.type = REGISTER_PROGRAMMER) :
    processMessage s clk msg ip port = handleRegisterProgrammer s clk msg ip port := by
  simp [processMessage, hty]

theorem processMessage_registerObserver (s : ServerState) (clk : Clock) (msg : Message)
    (ip : String) (port : Int) (hty : msg.type = REGISTER_OBSERVER) :
    processMessage s clk msg ip port = handleRegisterObserver s clk msg ip port := by
  simp [processMessage, hty, REGISTER_OBSERVER, REGISTER_PROGRAMMER]

/-- The datagrams of a broadcasting step end with the broadcast made in the state the
step leaves. -/
theorem recv_broadcast (s : ServerState) (clk : Clock) (msg : Message) (ip : String)
    (port : Int) (s1 : ServerState) (outs : List Sent)
    (hb : Broadcasting s (Step.recv clk msg ip port))
    (h : processMessage s clk msg ip port = some (s1, outs)) :
    ∃ sent bouts, outs = sent ++ bouts ∧ broadcastStatusUpdate s1 clk = some bouts := by
  rcases hb with hty | ⟨hty, ha, ht⟩ | ⟨hty, hr, item, rest, hq⟩ | ⟨hty, hr, ha⟩ | hty
  · rw [processMessage_registerProgrammer s clk msg ip port hty] at h
    exact handleRegisterProgrammer_sent s clk msg ip port s1 outs h
  · rw [processMessage_submit s clk msg ip port hty] at h
    exact handleSubmitProgram_sent s clk msg ip port s1 outs ha ht h
  · rw [processMessage_request s clk msg ip port hty] at h
    exact handleRequestReview_sent s clk msg ip port s1 outs item rest hr hq h
  · rw [processMessage_reviewResult s clk msg ip port hty] at h
    exact handleReviewResult_sent s clk msg ip port s1 outs hr ha h
  · rw [processMessage_disconnect s clk msg ip port hty] at h
    exact ⟨[], outs, rfl, handleDisconnect_sent s clk msg ip port s1 outs h⟩

/-- The sample texts of `to_string` are the decimal numerals. -/
theorem to_string_sample :
    to_string 0 = lit "0" ∧ to_string 3 = lit "3" ∧ to_string 1000 = lit "1000" ∧
    to_string (-42) = lit "-42" := by
  decide

/-! ## Facts about tidy tables -/

theorem keys_insert_subset (m : Map (List ProgramReview)) (k : Int) (v : List ProgramReview)
    (j : Int) (h : j ∈ (m.insert k v).keys) : j = k ∨ j ∈ m.keys := by
  simp only [Map.keys, List.mem_map] at h ⊢
  obtain ⟨e, he, hj⟩ := h
  rcases Map.mem_insert m k v e he with h1 | h1
  · left
    rw [← hj, h1]
  · exact Or.inr ⟨e, h1, hj⟩

theorem sorted_insert (m : Map (List ProgramReview)) (k : Int) (v : List ProgramReview)
    (h : m.keys.Pairwise (fun a b => a < b)) :
    (m.insert k v).keys.Pairwise (fun a b => a < b) := by
  induction m with
  | nil => simp [Map.insert, Map.keys]
  | cons e rest ih =>
      obtain ⟨k1, v1⟩ := e
      have hc : (∀ j ∈ Map.keys rest, k1 < j) ∧
          (Map.keys rest).Pairwise (fun a b => a < b) := by
        simpa [Map.keys] using h
      by_cases h1 : k = k1
      · subst h1
        simpa [Map.insert, Map.keys] using h
      · by_cases h2 : k < k1
        · simp only [Map.insert, h1, h2, if_true, if_false]
          have : Map.keys ((k, v) :: (k1, v1) :: rest) = k :: Map.keys ((k1, v1) :: rest) := rfl
          rw [this]
          refine List.Pairwise.cons ?_ h
          intro j hj
          have hj1 : j = k1 ∨ j ∈ Map.keys rest := by simpa [Map.keys] using hj
          rcases hj1 with hj1 | hj1
          · rw [hj1]
            exact h2
          · exact lt_trans h2 (hc.1 j hj1)
        · simp only [Map.insert, h1, h2, if_false]
          have : Map.keys ((k1, v1) :: Map.insert rest k v) =
              k1 :: Map.keys (Map.insert rest k v) := rfl
          rw [this]
          refine List.Pairwise.cons ?_ (ih hc.2)
          intro j hj
          rcases keys_insert_subset rest k v j hj with hj1 | hj1
          · rw [hj1]
            omega
          · exact hc.1 j hj1

theorem find_of_mem_sorted (m : Map (List ProgramReview))
    (h : m.keys.Pairwise (fun a b => a < b)) (e : Int × List ProgramReview) (he : e ∈ m) :
    m.find e.1 = some e.2 := by
  induction m with
  | nil => simp at he
  | cons e1 rest ih =>
      obtain ⟨k1, v1⟩ := e1
      have hc : (∀ j ∈ Map.keys rest, k1 < j) ∧
          (Map.keys rest).Pairwise (fun a b => a < b) := by
        simpa [Map.keys] using h
      rcases List.mem_cons.mp he with h1 | h1
      · rw [h1]
        simp [Map.find]
      · have hlt : k1 < e.1 := hc.1 e.1 (List.mem_map.mpr ⟨e, h1, rfl⟩)
        have hne : e.1 ≠ k1 := by omega
        simp only [Map.find, hne, if_false]
        exact ih hc.2 h1

theorem queuesTidy_nil : QueuesTidy [] :=
  ⟨by simp [Map.find], by simp [Map.find], by simp [Map.keys]⟩

/-- Putting the queue `q1` under key `k` keeps the table tidy when the ids of `q1` are
distinct and none of them waits in another queue. -/
theorem QueuesTidy.putQueue {m : Map (List ProgramReview)} (h : QueuesTidy m) (k : Int)
    (q1 : List ProgramReview) (hq : (q1.map (fun it => it.program_id)).Nodup)
    (hother : ∀ k2 q2, k2 ≠ k → m.find k2 = some q2 →
      ∀ it1 ∈ q1, ∀ it2 ∈ q2, it1.program_id ≠ it2.program_id) :
    QueuesTidy (m.insert k q1) := by
  refine ⟨?_, ?_, sorted_insert m k q1 h.sorted⟩
  · intro j q hj
    by_cases hjk : j = k
    · subst hjk
      rw [Map.find_insert_self] at hj
      simp only [Option.some.injEq] at hj
      rw [← hj]
      exact hq
    · rw [Map.find_insert_ne _ _ _ _ hjk] at hj
      exact h.nodup j q hj
  · intro j1 j2 p1 p2 hne h1 h2 it1 hi1 it2 hi2
    by_cases hj1 : j1 = k
    · subst hj1
      rw [Map.find_insert_self] at h1
      simp only [Option.some.injEq] at h1
      rw [Map.find_insert_ne _ _ _ _ (Ne.symm hne)] at h2
      rw [← h1] at hi1
      exact hother j2 p2 (Ne.symm hne) h2 it1 hi1 it2 hi2
    · rw [Map.find_insert_ne _ _ _ _ hj1] at h1
      by_cases hj2 : j2 = k
      · subst hj2
        rw [Map.find_insert_self] at h2
        simp only [Option.some.injEq] at h2
        rw [← h2] at hi2
        exact fun heq => hother j1 p1 hj1 h1 it2 hi2 it1 hi1 heq.symm
      · rw [Map.find_insert_ne _ _ _ _ hj2] at h2
        exact h.apart j1 j2 p1 p2 hne h1 h2 it1 hi1 it2 hi2

/-- All pending ids of a tidy table are distinct. -/
theorem QueuesTidy.pending {m : Map (List ProgramReview)} (h : QueuesTidy m) :
    (m.flatMap (fun e => e.2.map (fun it => it.program_id))).Nodup := by
  rw [List.nodup_flatMap]
  refine ⟨fun e he => h.nodup e.1 e.2 (find_of_mem_sorted m h.sorted e he), ?_⟩
  have hp : m.Pairwise (fun a b => a.1 < b.1) := by
    have := h.sorted
    rwa [Map.keys, List.pairwise_map] at this
  refine List.Pairwise.imp_of_mem ?_ hp
  intro a b ha hb hab
  simp only [Function.onFun]
  intro x hxa hxb
  obtain ⟨i1, hi1, rfl⟩ := List.mem_map.mp hxa
  obtain ⟨i2, hi2, h2⟩ := List.mem_map.mp hxb
  exact h.apart a.1 b.1 a.2 b.2 (by omega) (find_of_mem_sorted m h.sorted a ha)
    (find_of_mem_sorted m h.sorted b hb) i1 hi1 i2 hi2 h2.symm

theorem textsTidy_default (clk : Clock) :
    0 ∉ (ProgrammerInfo.default clk).name ∧ 0 ∉ (ProgrammerInfo.default clk).current_activity := by
  simp [ProgrammerInfo.default]

theorem TextsTidy.record {m : Map ProgrammerInfo} (h : TextsTidy m) (k : Int) (clk : Clock) :
    0 ∉ (m.get k (ProgrammerInfo.default clk)).name ∧
      0 ∉ (m.get k (ProgrammerInfo.default clk)).current_activity := by
  cases hf : m.find k with
  | none =>
      simp only [Map.get, hf, Option.getD_none]
      exact textsTidy_default clk
  | some v =>
      rw [Map.get_of_find _ _ _ _ hf]
      exact h (k, v) (Map.mem_of_find _ _ _ hf)

theorem TextsTidy.putRecord {m : Map ProgrammerInfo} (h : TextsTidy m) (k : Int)
    (v : ProgrammerInfo) (hv : 0 ∉ v.name ∧ 0 ∉ v.current_activity) :
    TextsTidy (m.insert k v) := by
  intro e he
  rcases Map.mem_insert m k v e he with h1 | h1
  · rw [h1]
    exact hv
  · exact h e h1

theorem TextsTidy.changeRecord {m : Map ProgrammerInfo} (h : TextsTidy m) (k : Int) (clk : Clock)
    (f : ProgrammerInfo → ProgrammerInfo)
    (hf : ∀ p, 0 ∉ p.name ∧ 0 ∉ p.current_activity →
      0 ∉ (f p).name ∧ 0 ∉ (f p).current_activity) :
    TextsTidy (m.modify k (ProgrammerInfo.default clk) f) :=
  h.putRecord k _ (hf _ (h.record k clk))
/-! ## Steps keep the tables tidy -/

theorem checkHeartbeatsLoop_texts (clk : Clock) (ks : List Int) (s s1 : ServerState)
    (outs : List Sent) (h : checkHeartbeatsLoop clk ks s = some (s1, outs))
    (ht : TextsTidy s.programmers) : TextsTidy s1.programmers := by
  induction ks generalizing s outs with
  | nil =>
      simp only [checkHeartbeatsLoop, Option.some.injEq, Prod.mk.injEq] at h
      rw [← h.1]
      exact ht
  | cons k ks ih =>
      unfold checkHeartbeatsLoop at h
      simp only at h
      split at h
      · split at h
        · simp at h
        · split at h
          · simp at h
          · rename_i s2 outs2 hl
            simp only [Option.some.injEq, Prod.mk.injEq] at h
            obtain ⟨h1, h2⟩ := h
            subst h1 h2
            refine ih _ _ hl ?_
            dsimp only
            refine ht.changeRecord k clk _ ?_
            intro p hp
            exact hp
      · exact ih _ _ h ht

theorem zero_not_mem_programmer_name (id : Int) (data : Bytes) :
    0 ∉ (if cstr data = [] then lit "Программист" ++ to_string id else cstr data) := by
  split
  · intro hm
    rcases List.mem_append.mp hm with h1 | h1
    · revert h1
      decide
    · exact zero_not_mem_to_string _ h1
  · exact zero_not_mem_cstr _

/-- A step from a state with the invariant and tidy tables leaves the tables tidy, and it
raises the item counter by one exactly when it is an accepted submission. -/
theorem step_tidy (s : ServerState) (e : Step) (h : Inv s) (ht : Tidy s) (s1 : ServerState)
    (outs : List Sent) (hstep : step s e = some (s1, outs)) :
    Tidy s1 ∧ s1.next_program_id = s.next_program_id + (if isAccepted s e then 1 else 0) := by
  cases e with
  | sweep clk =>
      obtain ⟨hsame, _⟩ := checkHeartbeats_effect s s1 clk outs hstep
      obtain ⟨_, _, _, hq, _, _, hn⟩ := hsame
      refine ⟨⟨by rw [hq]; exact ht.queues,
        checkHeartbeatsLoop_texts clk _ s s1 outs hstep ht.texts⟩, ?_⟩
      simp [isAccepted, hn]
  | recv clk msg ip port =>
      have hstay : s1 = s → isAccepted s (Step.recv clk msg ip port) = false →
          Tidy s1 ∧ s1.next_program_id =
            s.next_program_id + (if isAccepted s (Step.recv clk msg ip port) then 1 else 0) := by
        intro h1 h2
        rw [h1, h2]
        exact ⟨ht, by simp⟩
      by_cases h1 : msg.type = REGISTER_PROGRAMMER
      · obtain ⟨s2, ack, bouts, heq, _, _, _, _, _, _, hnp, _, hprog, _, hqs⟩ :=
          handleRegisterProgrammer_ok s clk msg ip port h
        have hstep1 : handleRegisterProgrammer s clk msg ip port = some (s1, outs) := by
          rw [← processMessage_registerProgrammer s clk msg ip port h1]
          exact hstep
        rw [hstep1] at heq
        simp only [Option.some.injEq, Prod.mk.injEq] at heq
        obtain ⟨hs2, _⟩ := heq
        subst hs2
        refine ⟨⟨?_, ?_⟩, ?_⟩
        · rw [hqs]
          exact ht.queues.putQueue _ [] (by simp) (by simp)
        · rw [hprog]
          refine ht.texts.putRecord _ _ ⟨zero_not_mem_programmer_name _ _, ?_⟩
          simp only [ProgrammerInfo.new]
          decide
        · simp [isAccepted, h1, hnp, REGISTER_PROGRAMMER, SUBMIT_PROGRAM]
      by_cases h2 : msg.type = REGISTER_OBSERVER
      · obtain ⟨s2, ack, bouts, heq, _, _, _, _, _, _, hnp, _, hprog, _, hqs⟩ :=
          handleRegisterObserver_ok s clk msg ip port h
        have hstep1 : handleRegisterObserver s clk msg ip port = some (s1, outs) := by
          rw [← processMessage_registerObserver s clk msg ip port h2]
          exact hstep
        rw [hstep1] at heq
        simp only [Option.some.injEq, Prod.mk.injEq] at heq
        obtain ⟨hs2, _⟩ := heq
        subst hs2
        refine ⟨⟨by rw [hqs]; exact ht.queues, by rw [hprog]; exact ht.texts⟩, ?_⟩
        simp [isAccepted, h2, hnp, REGISTER_OBSERVER, SUBMIT_PROGRAM]
      by_cases h3 : msg.type = SUBMIT_PROGRAM
      · have hstep1 : handleSubmitProgram s clk msg ip port = some (s1, outs) := by
          rw [← processMessage_submit s clk msg ip port h3]
          exact hstep
        by_cases hx : s.programmers.contains msg.client_id = true
        · by_cases hy : s.programmers.contains msg.target_id = true
          · obtain ⟨s2, note, addr, bouts, heq, _, _, _, _, hs2⟩ :=
              handleSubmitProgram_ok s clk msg ip port h hx hy
            rw [hstep1] at heq
            simp only [Option.some.injEq, Prod.mk.injEq] at heq
            obtain ⟨hs12, _⟩ := heq
            rw [← hs12] at hs2
            obtain ⟨q, hq⟩ := Map.find_isSome_of_contains _ _ ((h.queues _).mp hy)
            have hlt : ∀ k2 q2, s.review_queues.find k2 = some q2 →
                ∀ it ∈ q2, it.program_id < s.next_program_id :=
              fun k2 q2 h2 it hit => (h.items k2 q2 h2 it hit).2.2.1
            refine ⟨⟨?_, ?_⟩, ?_⟩
            · rw [hs2]
              dsimp only
              unfold Map.modify
              rw [Map.get_of_find _ _ _ _ hq]
              refine ht.queues.putQueue _ _ ?_ ?_
              · rw [List.map_append, List.nodup_append]
                refine ⟨ht.queues.nodup _ _ hq, by simp, ?_⟩
                intro x hx1 hx2
                obtain ⟨it, hit, rfl⟩ := List.mem_map.mp hx1
                have := hlt _ _ hq it hit
                simp [ProgramReview.new] at hx2
                omega
              · intro k2 q2 hk2 hq2 it1 hi1 it2 hi2
                rcases List.mem_append.mp hi1 with h5 | h5
                · exact ht.queues.apart _ _ _ _ (Ne.symm hk2) hq hq2 it1 h5 it2 hi2
                · simp only [List.mem_singleton] at h5
                  have := hlt _ _ hq2 it2 hi2
                  rw [h5]
                  simp only [ProgramReview.new]
                  omega
            · rw [hs2]
              dsimp only
              refine ht.texts.changeRecord _ clk _ ?_
              intro p hp
              refine ⟨hp.1, ?_⟩
              dsimp only
              intro hm
              rcases List.mem_append.mp hm with h5 | h5
              · revert h5
                decide
              · exact zero_not_mem_program_name _ _ h5
            · rw [hs2]
              simp [isAccepted, h3, hx, hy]
          · have hy1 : s.programmers.contains msg.target_id = false := by simpa using hy
            rw [handleSubmitProgram_unknown s clk msg ip port (Or.inr hy1)] at hstep1
            simp only [Option.some.injEq, Prod.mk.injEq] at hstep1
            exact hstay hstep1.1.symm (by simp [isAccepted, hy1])
        · have hx1 : s.programmers.contains msg.client_id = false := by simpa using hx
          rw [handleSubmitProgram_unknown s clk msg ip port (Or.inl hx1)] at hstep1
          simp only [Option.some.injEq, Prod.mk.injEq] at hstep1
          exact hstay hstep1.1.symm (by simp [isAccepted, hx1])
      have hna : isAccepted s (Step.recv clk msg ip port) = false := by
        simp [isAccepted, h3]
      by_cases h4 : msg.type = REQUEST_REVIEW
      · have hstep1 : handleRequestReview s clk msg ip port = some (s1, outs) := by
          rw [← processMessage_request s clk msg ip port h4]
          exact hstep
        by_cases hx : s.programmers.contains msg.client_id = true
        · obtain ⟨q, hq⟩ := Map.find_isSome_of_contains _ _ ((h.queues _).mp hx)
          cases q with
          | nil =>
              rw [handleRequestReview_empty s clk msg ip port hx hq] at hstep1
              simp only [Option.some.injEq, Prod.mk.injEq] at hstep1
              exact hstay hstep1.1.symm hna
          | cons item rest =>
              obtain ⟨s2, reply, bouts, heq, _, _, _, hs2⟩ :=
                handleRequestReview_ok s clk msg ip port h item rest hx hq
              rw [hstep1] at heq
              simp only [Option.some.injEq, Prod.mk.injEq] at heq
              obtain ⟨hs12, _⟩ := heq
              rw [← hs12] at hs2
              refine ⟨⟨?_, ?_⟩, ?_⟩
              · rw [hs2]
                dsimp only
                refine ht.queues.putQueue _ _ ?_ ?_
                · have := ht.queues.nodup _ _ hq
                  rw [List.map_cons, List.nodup_cons] at this
                  exact this.2
                · intro k2 q2 hk2 hq2 it1 hi1 it2 hi2
                  exact ht.queues.apart _ _ _ _ (Ne.symm hk2) hq hq2 it1
                    (List.mem_cons_of_mem _ hi1) it2 hi2
              · rw [hs2]
                dsimp only
                refine ht.texts.changeRecord _ clk _ ?_
                intro p hp
                refine ⟨hp.1, ?_⟩
                dsimp only
                have hname := (h.items _ _ hq item (List.mem_cons_self _ _)).2.2.2.1
                intro hm
                rcases List.mem_append.mp hm with h5 | h5
                · rcases List.mem_append.mp h5 with h6 | h6
                  · revert h6
                    decide
                  · exact hname h6
                · revert h5
                  decide
              · rw [hs2, hna]
                simp
        · have hx1 : s.programmers.contains msg.client_id = false := by simpa using hx
          rw [handleRequestReview_unknown s clk msg ip port hx1] at hstep1
          simp only [Option.some.injEq, Prod.mk.injEq] at hstep1
          exact hstay hstep1.1.symm hna
      by_cases h5 : msg.type = REVIEW_RESULT
      · have hstep1 : handleReviewResult s clk msg ip port = some (s1, outs) := by
          rw [← processMessage_reviewResult s clk msg ip port h5]
          exact hstep
        by_cases hx : s.programmers.contains msg.client_id = true
        · by_cases hy : s.programmers.contains msg.target_id = true
          · obtain ⟨s2, addr, bouts, heq, _, _, _, hs2⟩ :=
              handleReviewResult_ok s clk msg ip port h hx hy
            rw [hstep1] at heq
            simp only [Option.some.injEq, Prod.mk.injEq] at heq
            obtain ⟨hs12, _⟩ := heq
            rw [← hs12] at hs2
            refine ⟨⟨by rw [hs2]; exact ht.queues, ?_⟩, by rw [hs2, hna]; simp⟩
            rw [hs2]
            dsimp only
            refine (ht.texts.changeRecord _ clk _ ?_).changeRecord _ clk _ ?_
            · intro p hp
              refine ⟨hp.1, ?_⟩
              dsimp only
              decide
            · intro p hp
              split
              · refine ⟨hp.1, ?_⟩
                dsimp only
                decide
              · refine ⟨hp.1, ?_⟩
                dsimp only
                intro hm
                rcases List.mem_append.mp hm with h6 | h6
                · rcases List.mem_append.mp h6 with h7 | h7
                  · revert h7
                    decide
                  · exact zero_not_mem_to_string _ h7
                · revert h6
                  decide
          · have hy1 : s.programmers.contains msg.target_id = false := by simpa using hy
            rw [handleReviewResult_unknown s clk msg ip port (Or.inr hy1)] at hstep1
            simp only [Option.some.injEq, Prod.mk.injEq] at hstep1
            exact hstay hstep1.1.symm hna
        · have hx1 : s.programmers.contains msg.client_id = false := by simpa using hx
          rw [handleReviewResult_unknown s clk msg ip port (Or.inl hx1)] at hstep1
          simp only [Option.some.injEq, Prod.mk.injEq] at hstep1
          exact hstay hstep1.1.symm hna
      by_cases h6 : msg.type = DISCONNECT
      · have hstep1 : handleDisconnect s clk msg ip port = some (s1, outs) := by
          rw [← processMessage_disconnect s clk msg ip port h6]
          exact hstep
        obtain ⟨s2, bouts, heq, _, _, hs2⟩ := handleDisconnect_ok s clk msg ip port h
        rw [hstep1] at heq
        simp only [Option.some.injEq, Prod.mk.injEq] at heq
        obtain ⟨hs12, _⟩ := heq
        rw [← hs12] at hs2
        rw [hs2, hna]
        split
        · refine ⟨⟨ht.queues, ?_⟩, by simp⟩
          dsimp only
          refine ht.texts.changeRecord _ clk _ ?_
          intro p hp
          exact hp
        · split
          · exact ⟨⟨ht.queues, ht.texts⟩, by simp⟩
          · exact ⟨ht, by simp⟩
      by_cases h7 : msg.type = HEARTBEAT
      · have hstep1 : handleHeartbeat s clk msg ip port = some (s1, outs) := by
          rw [← processMessage_heartbeat s clk msg ip port h7]
          exact hstep
        obtain ⟨s2, heq, _, hs2⟩ := handleHeartbeat_ok s clk msg ip port h
        rw [hstep1] at heq
        simp only [Option.some.injEq, Prod.mk.injEq] at heq
        obtain ⟨hs12, _⟩ := heq
        rw [← hs12] at hs2
        rw [hs2, hna]
        split
        · refine ⟨⟨ht.queues, ?_⟩, by simp⟩
          dsimp only
          refine ht.texts.changeRecord _ clk _ ?_
          intro p hp
          exact hp
        · exact ⟨ht, by simp⟩
      have hs : s1 = s := by
        simp [step, processMessage, h1, h2, h3, h4, h5, h6, h7] at hstep
        exact hstep.1.symm
      exact hstay hs hna
theorem tidy_initial : Tidy initial :=
  ⟨queuesTidy_nil, by simp [TextsTidy, initial]⟩

/-- Every run from a state with the invariant and tidy tables goes through and ends in
such a state; the item counter has grown by the number of accepted submissions. -/
theorem run_tidy (s : ServerState) (steps : List Step) (h : Inv s) (ht : Tidy s) :
    ∃ s1 outs, run s steps = some (s1, outs) ∧ Inv s1 ∧ Tidy s1 ∧
      s1.next_program_id = s.next_program_id + (accepted s steps : Int) := by
  induction steps generalizing s with
  | nil => exact ⟨s, [], rfl, h, ht, by simp [accepted]⟩
  | cons e es ih =>
      obtain ⟨s1, o1, hstep, hf⟩ := step_facts s e h
      obtain ⟨ht1, hn1⟩ := step_tidy s e h ht s1 o1 hstep
      obtain ⟨s2, o2, hrun, hinv2, ht2, hn2⟩ := ih s1 hf.inv ht1
      refine ⟨s2, o1 ++ o2, run_cons_eq s e es s1 s2 o1 o2 hstep hrun, hinv2, ht2, ?_⟩
      rw [hn2, hn1]
      simp only [accepted, hstep]
      split <;> push_cast <;> omega

theorem tidy_of_reachable (s : ServerState) (h : Reachable s) : Tidy s := by
  obtain ⟨steps, outs, hrun⟩ := h
  obtain ⟨s1, outs1, hrun1, _, ht, _⟩ := run_tidy initial steps inv_initial tidy_initial
  rw [hrun] at hrun1
  simp only [Option.some.injEq, Prod.mk.injEq] at hrun1
  rw [hrun1.1]
  exact ht

/-! ## The snapshot text and its parts -/

theorem zero_not_mem_append (a b : Bytes) (ha : 0 ∉ a) (hb : 0 ∉ b) : 0 ∉ a ++ b := by
  intro hm
  rcases List.mem_append.mp hm with h | h
  · exact ha h
  · exact hb h

theorem zero_not_mem_stateText (st : Int) : 0 ∉ stateText st := by
  unfold stateText
  repeat' split
  all_goals decide

theorem zero_not_mem_getCurrentTime (clk : Clock) : 0 ∉ getCurrentTime clk := by
  unfold getCurrentTime
  simp only
  split
  · exact fun hm => zero_not_mem_cstr _ (List.mem_of_mem_dropLast hm)
  · exact zero_not_mem_cstr _

/-- The lines of one programmer have no NUL byte and end in a newline. -/
theorem programmerText_tidy (queues : Map (List ProgramReview)) (info : ProgrammerInfo)
    (t : Bytes) (h : programmerText queues info = some t) (hn : 0 ∉ info.name)
    (ha : 0 ∉ info.current_activity) : 0 ∉ t ∧ ∃ r, t = r ++ [10] := by
  unfold programmerText at h
  split at h
  · simp at h
  · simp only [Option.some.injEq] at h
    subst h
    constructor
    · repeat' apply zero_not_mem_append
      all_goals first
        | assumption
        | exact zero_not_mem_to_string _
        | exact zero_not_mem_stateText _
        | decide
        | (split <;> decide)
    · have hl : lit "\n\n" = [10] ++ [10] := by decide
      rw [hl, ← List.append_assoc]
      exact ⟨_, rfl⟩

theorem programmersText_tidy (queues : Map (List ProgramReview))
    (l : List (Int × ProgrammerInfo)) (acc t : Bytes)
    (h : programmersText queues l acc = some t)
    (hl : ∀ e ∈ l, 0 ∉ e.2.name ∧ 0 ∉ e.2.current_activity)
    (h0 : 0 ∉ acc) (hend : ∃ r, acc = r ++ [10]) : 0 ∉ t ∧ ∃ r, t = r ++ [10] := by
  induction l generalizing acc with
  | nil =>
      simp only [programmersText, Option.some.injEq] at h
      subst h
      exact ⟨h0, hend⟩
  | cons e rest ih =>
      obtain ⟨k, info⟩ := e
      unfold programmersText at h
      split at h
      · simp at h
      · rename_i t1 ht1
        obtain ⟨hz, r1, hr1⟩ := programmerText_tidy queues info t1 ht1
          (hl (k, info) (List.mem_cons_self _ _)).1 (hl (k, info) (List.mem_cons_self _ _)).2
        refine ih (acc ++ t1) h (fun e he => hl e (List.mem_cons_of_mem _ he))
          (zero_not_mem_append _ _ h0 hz) ⟨acc ++ r1, ?_⟩
        rw [hr1, List.append_assoc]

/-- The snapshot text has no NUL byte and ends in a newline. -/
theorem statusText_tidy (s : ServerState) (clk : Clock) (text : Bytes)
    (h : statusText s clk = some text) (ht : TextsTidy s.programmers) :
    0 ∉ text ∧ ∃ r, text = r ++ [10] := by
  unfold statusText at h
  refine programmersText_tidy _ _ _ _ h ht ?_ ?_
  · repeat' apply zero_not_mem_append
    all_goals first
      | exact zero_not_mem_getCurrentTime clk
      | decide
  · have hl : lit "\n\n" = [10] ++ [10] := by decide
    rw [hl, ← List.append_assoc, ← List.append_assoc, ← List.append_assoc]
    exact ⟨_, rfl⟩

theorem marker_no_newline (r : Bytes) : r ++ [10] ≠ lit "END_OF_STATUS" := by
  intro h
  have h1 : (r ++ [10]).getLast? = (lit "END_OF_STATUS").getLast? := by rw [h]
  have h2 : (r ++ [10]).getLast? = some 10 := by simp
  rw [h2] at h1
  revert h1
  decide

/-- No part the loop sends for a text without NUL bytes that ends in a newline reads as
the end marker. -/
theorem sendParts_no_marker (m : Message) (addr : Address) (fuel : Nat) (rest : Bytes)
    (part : Int) (h0 : 0 ∉ rest) (hend : rest = [] ∨ ∃ r, rest = r ++ [10]) :
    ∀ x ∈ sendParts m addr fuel rest part, cstr x.msg.data ≠ lit "END_OF_STATUS" := by
  induction fuel generalizing rest part with
  | zero => simp [sendParts]
  | succ fuel ih =>
      unfold sendParts
      by_cases hlen : rest.length = 0
      · simp [hlen]
      · simp only [hlen, if_false]
        have htl : (rest.take (min 255 rest.length)).length = min 255 rest.length := by
          simp
        have hbody : cstr (rest.take (min 255 rest.length) ++
            zeroData.drop (min 255 rest.length)) = rest.take (min 255 rest.length) := by
          have := cstr_chunk (rest.take (min 255 rest.length)) (not_mem_take _ _ h0)
            (by rw [htl]; omega)
          rw [htl] at this
          exact this
        obtain ⟨r, hr⟩ : ∃ r, rest = r ++ [10] := by
          rcases hend with h1 | h1
          · rw [h1] at hlen
            simp at hlen
          · exact h1
        intro x hx
        rcases List.mem_cons.mp hx with h1 | h1
        · rw [h1]
          dsimp only
          rw [hbody]
          intro heq
          have hl : (rest.take (min 255 rest.length)).length = 13 := by
            rw [heq]
            decide
          rw [htl] at hl
          have hall : rest.take (min 255 rest.length) = rest :=
            List.take_of_length_le (by omega)
          rw [hall, hr] at heq
          exact marker_no_newline r heq
        · have key : ∀ n, rest.drop n = [] ∨ ∃ r1, rest.drop n = r1 ++ [10] := by
            intro n
            by_cases hc : n ≤ r.length
            · right
              rw [hr, List.drop_append_of_le_length hc]
              exact ⟨_, rfl⟩
            · left
              apply List.drop_eq_nil_of_le
              rw [hr]
              simp only [List.length_append, List.length_singleton]
              omega
          exact ih (rest.drop (min 255 rest.length)) (part + 1) (not_mem_drop _ _ h0)
            (key _) x h1
/-- On a sample run two submissions are accepted, the counter stands at 3, and the items
1 and 2 wait in the queues of programmers 2 and 1. -/
theorem pending_sample :
    accepted initial crossPending = 2 ∧
    (stateAfter crossPending).next_program_id = 3 ∧
    pendingIds (stateAfter crossPending) = [2, 1] ∧
    queueIds 1 (stateAfter crossPending) = [2] ∧
    queueIds 2 (stateAfter crossPending) = [1] := by
  decide

/-! ## The snapshot a step ends with -/

/-- The datagrams of `sendStatus` for a text without NUL bytes: the numbered data parts,
which carry the text, and the end marker. -/
theorem sendStatus_split (clk : Clock) (o : Int) (addr : Address) (text : Bytes)
    (hnul : 0 ∉ text) :
    ∃ parts final, sendStatus clk o addr text = parts ++ [final] ∧
      (∀ x ∈ parts ++ [final], x.msg.type = STATUS_UPDATE ∧ x.msg.client_id = o ∧
        x.ip = addr.1 ∧ x.port = addr.2) ∧
      parts.map (fun x => x.msg.program_id) = idsFrom 1 parts.length ∧
      (∀ x ∈ parts, 1 ≤ (cstr x.msg.data).length ∧ (cstr x.msg.data).length ≤ 255) ∧
      parts.flatMap (fun x => cstr x.msg.data) = text ∧
      final.msg.program_id = 0 ∧ cstr final.msg.data = lit "END_OF_STATUS" ∧
      ((∃ r, text = r ++ [10]) → ∀ x ∈ parts, cstr x.msg.data ≠ lit "END_OF_STATUS") := by
  obtain ⟨parts, hp⟩ : ∃ parts, parts = sendParts
      { Message.new clk with type := STATUS_UPDATE, client_id := o } addr text.length text 1 :=
    ⟨_, rfl⟩
  obtain ⟨hnum, hlen, hcat⟩ := sendParts_spec
    { Message.new clk with type := STATUS_UPDATE, client_id := o } addr text.length text 1
    hnul (Nat.le_refl _)
  have hmark := fun hend => sendParts_no_marker
    { Message.new clk with type := STATUS_UPDATE, client_id := o } addr text.length text 1
    hnul (Or.inr hend)
  rw [← hp] at hnum hlen hcat hmark
  have hfields := sendStatus_fields clk o addr text
  have hfinal : cstr (strcpy zeroData (lit "END_OF_STATUS")) = lit "END_OF_STATUS" :=
    cstr_strcpy _ _ (by decide)
  have hsplit : sendStatus clk o addr text = parts ++
      [⟨{ Message.new clk with
          type := STATUS_UPDATE, client_id := o,
          data := strcpy zeroData (lit "END_OF_STATUS"), program_id := 0 },
        addr.1, addr.2⟩] := by
    rw [hp]
    rfl
  rw [hsplit] at hfields
  exact ⟨parts, _, hsplit, hfields, hnum, hlen, hcat, rfl, hfinal, hmark⟩

theorem SnapshotIn.complete {clk : Clock} {o : Int} {addr : Address} {text : Bytes}
    {outs : List Sent} (h : SnapshotIn clk o addr text outs) (hnul : 0 ∉ text)
    (hne : text ≠ []) : CompleteSnapshot o addr text outs := by
  obtain ⟨pre, post, ho⟩ := h
  obtain ⟨parts, final, hsplit, hfields, hnum, hlen, hcat, hz, hfin, _⟩ :=
    sendStatus_split clk o addr text hnul
  refine ⟨pre, parts, final, post, by rw [ho, hsplit], ?_, hfields, hnum, hlen, hcat, hz, hfin⟩
  intro hnil
  rw [hnil] at hcat
  exact hne hcat.symm

/-- In a state with the invariant and tidy tables the snapshot text is built; it has no
NUL byte and it is not empty. -/
theorem statusText_ok (s : ServerState) (clk : Clock) (text : Bytes) (ht : Tidy s)
    (h : statusText s clk = some text) : 0 ∉ text ∧ text ≠ [] := by
  obtain ⟨hnul, r, hr⟩ := statusText_tidy s clk text h ht.texts
  refine ⟨hnul, ?_⟩
  rw [hr]
  simp

/-- A liveness check that finds nobody to disconnect leaves the state alone and sends
nothing. -/
theorem checkHeartbeatsLoop_quiet (clk : Clock) (ks : List Int) (s : ServerState)
    (hno : ∀ a ∈ ks, ∀ v, s.programmers.find a = some v →
      ¬ (v.is_connected = true ∧ clk.now - v.last_activity > CLIENT_TIMEOUT)) :
    checkHeartbeatsLoop clk ks s = some (s, []) := by
  induction ks with
  | nil => rfl
  | cons k ks ih =>
      unfold checkHeartbeatsLoop
      simp only
      have hcond : ¬ ((s.programmers.get k (ProgrammerInfo.default clk)).is_connected &&
          decide (clk.now - (s.programmers.get k (ProgrammerInfo.default clk)).last_activity
            > CLIENT_TIMEOUT)) = true := by
        cases hk : s.programmers.find k with
        | none => simp [Map.get, hk, ProgrammerInfo.default]
        | some v =>
            rw [Map.get_of_find _ _ _ _ hk]
            have := hno k (List.mem_cons_self _ _) v hk
            simpa using this
      rw [if_neg hcond]
      exact ih (fun a ha => hno a (List.mem_cons_of_mem _ ha))

/-- The datagrams of a liveness check that disconnects somebody end with the broadcast
made in the state the check leaves. -/
theorem checkHeartbeatsLoop_final (clk : Clock) (ks : List Int) (s s1 : ServerState)
    (outs : List Sent) (h : checkHeartbeatsLoop clk ks s = some (s1, outs))
    (hex : ∃ a ∈ ks, ∃ v, s.programmers.find a = some v ∧ v.is_connected = true ∧
      clk.now - v.last_activity > CLIENT_TIMEOUT) :
    ∃ sent bouts, outs = sent ++ bouts ∧ broadcastStatusUpdate s1 clk = some bouts := by
  induction ks generalizing s outs with
  | nil =>
      obtain ⟨a, ha, _⟩ := hex
      simp at ha
  | cons k ks ih =>
      unfold checkHeartbeatsLoop at h
      simp only at h
      split at h
      · split at h
        · simp at h
        · rename_i bo hb
          split at h
          · simp at h
          · rename_i s2 outs2 hloop
            simp only [Option.some.injEq, Prod.mk.injEq] at h
            obtain ⟨h1, h2⟩ := h
            subst h1 h2
            by_cases hlater : ∃ a ∈ ks, ∃ v,
                ({ s with
                    programmers := s.programmers.modify k (ProgrammerInfo.default clk)
                      (fun p => { p with is_connected := false }) }).programmers.find a
                  = some v ∧ v.is_connected = true ∧
                  clk.now - v.last_activity > CLIENT_TIMEOUT
            · obtain ⟨sent, bouts, ho, hbc⟩ := ih _ _ hloop hlater
              exact ⟨bo ++ sent, bouts, by rw [ho, List.append_assoc], hbc⟩
            · have hq := checkHeartbeatsLoop_quiet clk ks _ (by
                intro a ha v hv hcv
                exact hlater ⟨a, ha, v, hv, hcv.1, hcv.2⟩)
              rw [hq] at hloop
              simp only [Option.some.injEq, Prod.mk.injEq] at hloop
              obtain ⟨h3, h4⟩ := hloop
              subst h3 h4
              exact ⟨[], bo, by simp, hb⟩
      · rename_i hcond
        obtain ⟨a, ha, v, hv, hc, hl⟩ := hex
        have hne : a ≠ k := by
          intro hak
          subst hak
          apply hcond
          rw [Map.get_of_find _ _ _ _ hv]
          simp [hc, hl]
        have hmem1 : a ∈ ks := by
          rcases List.mem_cons.mp ha with h1 | h1
          · exact absurd h1 hne
          · exact h1
        exact ih s outs h ⟨a, hmem1, v, hv, hc, hl⟩

/-! ## The claims -/

/-- C1. FIFO per reviewer: every run from the initial state goes through, and for every
reviewer id `r` the item ids handed out by the review replies to `r` are, in order, a
prefix of the item ids created by the accepted submissions that targeted `r`. -/
theorem fifo_per_reviewer (steps : List Step) (r : Int) :
    ∃ s outs, run initial steps = some (s, outs) ∧
      served r outs <+: submitted r initial steps := by
  obtain ⟨s, outs, hrun, hf⟩ := run_facts initial steps inv_initial
  refine ⟨s, outs, hrun, queueIds r s, ?_⟩
  have h := hf.fifo r
  simpa [queueIds, initial, Map.get, Map.find] using h

/-- C2. In every reachable state, a review result whose reviewer id and author id are
both registered is handled, and afterwards: if the verdict is CORRECT the author has one
more written program than before and is in state WRITING; if the verdict is INCORRECT the
author is in state FIXING with as many written programs as before. -/
theorem review_result_author (s : ServerState) (clk : Clock) (msg : Message)
    (ip : String) (port : Int) (hs : Reachable s) (hty : msg.type = REVIEW_RESULT)
    (hr : s.programmers.contains msg.client_id = true)
    (ha : s.programmers.contains msg.target_id = true) :
    ∃ s1 outs before after,
      processMessage s clk msg ip port = some (s1, outs) ∧
      s.programmers.find msg.target_id = some before ∧
      s1.programmers.find msg.target_id = some after ∧
      (msg.result = CORRECT →
        after.programs_written = before.programs_written + 1 ∧ after.state = WRITING) ∧
      (msg.result = INCORRECT →
        after.state = FIXING ∧ after.programs_written = before.programs_written) := by
  obtain ⟨before, hb⟩ := Map.find_isSome_of_contains _ _ ha
  obtain ⟨s1, addr, bouts, heq, _, _, _, hs1⟩ :=
    handleReviewResult_ok s clk msg ip port (inv_of_reachable s hs) hr ha
  have hfind := find_modify_modify_second s.programmers msg.client_id msg.target_id
    (ProgrammerInfo.default clk)
    (fun p => { p with
      programs_reviewed := p.programs_reviewed + 1,
      state := WRITING,
      current_activity := lit "Пишет новую программу",
      last_activity := clk.now })
    (fun p =>
      if msg.result = CORRECT then
        { p with
          programs_written := p.programs_written + 1,
          state := WRITING,
          current_activity := lit "Пишет новую программу",
          last_activity := clk.now }
      else
        { p with
          state := FIXING,
          current_activity := lit "Исправляет программу (ID: " ++
            to_string msg.program_id ++ lit ")",
          last_activity := clk.now }) before hb
  refine ⟨s1, ⟨msg, addr.1, addr.2⟩ :: bouts, before, _, ?_, hb, by rw [hs1]; exact hfind,
    ?_, ?_⟩
  · rw [processMessage_reviewResult s clk msg ip port hty]
    exact heq
  · intro hc
    by_cases hsame : msg.target_id = msg.client_id <;> simp [hc, hsame]
  · intro hc
    have hne : ¬ msg.result = CORRECT := by
      rw [hc]
      decide
    by_cases hsame : msg.target_id = msg.client_id <;> simp [hne, hsame]

/-- Witness for C2: programmer 2 reports that the program of programmer 1 is correct. -/
theorem review_result_author_witness :
    Reachable twoProgrammers ∧
    (sampleMessage REVIEW_RESULT 2 1 CORRECT []).type = REVIEW_RESULT ∧
    twoProgrammers.programmers.contains 2 = true ∧
    twoProgrammers.programmers.contains 1 = true ∧
    ∃ s1 outs before after,
      processMessage twoProgrammers sampleClock (sampleMessage REVIEW_RESULT 2 1 CORRECT [])
        "127.0.0.1" 9002 = some (s1, outs) ∧
      twoProgrammers.programmers.find 1 = some before ∧
      s1.programmers.find 1 = some after ∧
      ((sampleMessage REVIEW_RESULT 2 1 CORRECT []).result = CORRECT →
        after.programs_written = before.programs_written + 1 ∧ after.state = WRITING) ∧
      ((sampleMessage REVIEW_RESULT 2 1 CORRECT []).result = INCORRECT →
        after.state = FIXING ∧ after.programs_written = before.programs_written) :=
  ⟨reachable_stateAfter _, by decide, by decide, by decide,
    review_result_author twoProgrammers sampleClock (sampleMessage REVIEW_RESULT 2 1 CORRECT [])
      "127.0.0.1" 9002 (reachable_stateAfter _) (by decide) (by decide) (by decide)⟩

/-- C3, as stated, fails: with programmers 1 and 2 registered, programmer 1 sends a review
result with verdict INCORRECT that names itself as the author; both ids are registered,
and afterwards the reviewer (id 1) is in state FIXING, not WRITING. -/
theorem review_result_self_incorrect :
    Reachable twoProgrammers ∧
    (sampleMessage REVIEW_RESULT 1 1 INCORRECT []).type = REVIEW_RESULT ∧
    twoProgrammers.programmers.contains 1 = true ∧
    (processMessage twoProgrammers sampleClock (sampleMessage REVIEW_RESULT 1 1 INCORRECT [])
      "127.0.0.1" 9001).map (fun r => (r.1.programmers.find 1).map (fun p => p.state)) =
      some (some FIXING) ∧
    FIXING ≠ WRITING :=
  ⟨reachable_stateAfter _, by decide, by decide, by decide, by decide⟩

/-- C3, amended. In every reachable state, a review result whose reviewer id and author
id are both registered is handled, and afterwards the reviewer has one more reviewed
program than before; the reviewer is in state WRITING when the two ids differ or the
verdict is CORRECT, and in state FIXING when the reviewer names itself as the author with
another verdict. -/
theorem review_result_reviewer (s : ServerState) (clk : Clock) (msg : Message)
    (ip : String) (port : Int) (hs : Reachable s) (hty : msg.type = REVIEW_RESULT)
    (hr : s.programmers.contains msg.client_id = true)
    (ha : s.programmers.contains msg.target_id = true) :
    ∃ s1 outs before after,
      processMessage s clk msg ip port = some (s1, outs) ∧
      s.programmers.find msg.client_id = some before ∧
      s1.programmers.find msg.client_id = some after ∧
      after.programs_reviewed = before.programs_reviewed + 1 ∧
      (msg.client_id ≠ msg.target_id ∨ msg.result = CORRECT → after.state = WRITING) ∧
      (msg.client_id = msg.target_id ∧ msg.result ≠ CORRECT → after.state = FIXING) := by
  obtain ⟨before, hb⟩ := Map.find_isSome_of_contains _ _ hr
  obtain ⟨s1, addr, bouts, heq, _, _, _, hs1⟩ :=
    handleReviewResult_ok s clk msg ip port (inv_of_reachable s hs) hr ha
  have hproc : processMessage s clk msg ip port = some (s1, ⟨msg, addr.1, addr.2⟩ :: bouts) := by
    rw [processMessage_reviewResult s clk msg ip port hty]
    exact heq
  have hfind := find_modify_modify_first s.programmers msg.client_id msg.target_id
    (ProgrammerInfo.default clk)
    (fun p => { p with
      programs_reviewed := p.programs_reviewed + 1,
      state := WRITING,
      current_activity := lit "Пишет новую программу",
      last_activity := clk.now })
    (fun p =>
      if msg.result = CORRECT then
        { p with
          programs_written := p.programs_written + 1,
          state := WRITING,
          current_activity := lit "Пишет новую программу",
          last_activity := clk.now }
      else
        { p with
          state := FIXING,
          current_activity := lit "Исправляет программу (ID: " ++
            to_string msg.program_id ++ lit ")",
          last_activity := clk.now }) before hb
  refine ⟨s1, ⟨msg, addr.1, addr.2⟩ :: bouts, before, _, hproc, hb, by rw [hs1]; exact hfind,
    ?_, ?_, ?_⟩
  · by_cases hsame : msg.client_id = msg.target_id <;>
      by_cases hc : msg.result = CORRECT <;> simp [hsame, hc]
  · rintro (h1 | h1)
    · simp [h1]
    · by_cases hsame : msg.client_id = msg.target_id <;> simp [hsame, h1]
  · rintro ⟨h1, h2⟩
    simp [h1, h2]

/-- Witness for C3, amended: programmer 1 reports an incorrect program of its own. -/
theorem review_result_reviewer_witness :
    Reachable twoProgrammers ∧
    (sampleMessage REVIEW_RESULT 1 1 INCORRECT []).type = REVIEW_RESULT ∧
    twoProgrammers.programmers.contains 1 = true ∧
    ∃ s1 outs before after,
      processMessage twoProgrammers sampleClock (sampleMessage REVIEW_RESULT 1 1 INCORRECT [])
        "127.0.0.1" 9001 = some (s1, outs) ∧
      twoProgrammers.programmers.find 1 = some before ∧
      s1.programmers.find 1 = some after ∧
      after.programs_reviewed = before.programs_reviewed + 1 ∧
      ((1 : Int) ≠ 1 ∨ (sampleMessage REVIEW_RESULT 1 1 INCORRECT []).result = CORRECT →
        after.state = WRITING) ∧
      ((1 : Int) = 1 ∧ (sampleMessage REVIEW_RESULT 1 1 INCORRECT []).result ≠ CORRECT →
        after.state = FIXING) :=
  ⟨reachable_stateAfter _, by decide, by decide,
    review_result_reviewer twoProgrammers sampleClock
      (sampleMessage REVIEW_RESULT 1 1 INCORRECT []) "127.0.0.1" 9001
      (reachable_stateAfter _) (by decide) (by decide) (by decide)⟩

/-- C4. Whatever steps came before, a programmer registration is acknowledged, to the
sender, with the number of programmer registrations so far, itself included: the k-th
registration gets id k. -/
theorem register_programmer_id (pre : List Step) (clk : Clock) (msg : Message)
    (ip : String) (port : Int) (hty : msg.type = REGISTER_PROGRAMMER) :
    ∃ s outs0 s1 ack rest,
      run initial pre = some (s, outs0) ∧
      step s (Step.recv clk msg ip port) = some (s1, ⟨ack, ip, port⟩ :: rest) ∧
      ack.type = REGISTER_PROGRAMMER ∧
      ack.client_id = (registrations pre : Int) + 1 ∧
      (∀ x ∈ rest, x.msg.type = STATUS_UPDATE) := by
  obtain ⟨s, outs0, hrun, hf⟩ := run_facts initial pre inv_initial
  obtain ⟨s1, ack, bouts, heq, _, hst, hat, hac, _⟩ :=
    handleRegisterProgrammer_ok s clk msg ip port hf.inv
  refine ⟨s, outs0, s1, ack, bouts, hrun, ?_, hat, ?_, hst⟩
  · simp only [step, processMessage, hty, if_true]
    exact heq
  · rw [hac, hf.progCounter]
    simp only [initial]
    omega

/-- Witness for C4: after one programmer and one observer have registered, the next
programmer registration is acknowledged with id 2. -/
theorem register_programmer_id_witness :
    (sampleMessage REGISTER_PROGRAMMER 0 0 CORRECT (lit "B")).type = REGISTER_PROGRAMMER ∧
    ∃ s outs0 s1 ack rest,
      run initial [sampleRegister "A" 9001, sampleRegisterObserver 9100] = some (s, outs0) ∧
      step s (Step.recv sampleClock (sampleMessage REGISTER_PROGRAMMER 0 0 CORRECT (lit "B"))
        "127.0.0.1" 9002) = some (s1, ⟨ack, "127.0.0.1", 9002⟩ :: rest) ∧
      ack.type = REGISTER_PROGRAMMER ∧
      ack.client_id =
        (registrations [sampleRegister "A" 9001, sampleRegisterObserver 9100] : Int) + 1 ∧
      (∀ x ∈ rest, x.msg.type = STATUS_UPDATE) :=
  ⟨by decide, register_programmer_id _ _ _ _ _ (by decide)⟩

/-- C5. Whatever steps came before, an observer registration is acknowledged, to the
sender, with 999 plus the number of observer registrations so far, itself included: the
k-th registration gets id 999 + k. -/
theorem register_observer_id (pre : List Step) (clk : Clock) (msg : Message)
    (ip : String) (port : Int) (hty : msg.type = REGISTER_OBSERVER) :
    ∃ s outs0 s1 ack rest,
      run initial pre = some (s, outs0) ∧
      step s (Step.recv clk msg ip port) = some (s1, ⟨ack, ip, port⟩ :: rest) ∧
      ack.type = REGISTER_OBSERVER ∧
      ack.client_id = 999 + ((observerRegistrations pre : Int) + 1) ∧
      (∀ x ∈ rest, x.msg.type = STATUS_UPDATE) := by
  obtain ⟨s, outs0, hrun, hf⟩ := run_facts initial pre inv_initial
  obtain ⟨s1, ack, bouts, heq, _, hst, hat, hac, _⟩ :=
    handleRegisterObserver_ok s clk msg ip port hf.inv
  refine ⟨s, outs0, s1, ack, bouts, hrun, ?_, hat, ?_, hst⟩
  · simp only [step, processMessage, hty]
    simp only [REGISTER_OBSERVER, REGISTER_PROGRAMMER] at heq ⊢
    simpa using heq
  · rw [hac, hf.obsCounter]
    simp only [initial]
    omega

/-- Witness for C5: after one programmer and one observer have registered, the next
observer registration is acknowledged with id 1001. -/
theorem register_observer_id_witness :
    (sampleMessage REGISTER_OBSERVER 0 0 CORRECT []).type = REGISTER_OBSERVER ∧
    ∃ s outs0 s1 ack rest,
      run initial [sampleRegister "A" 9001, sampleRegisterObserver 9100] = some (s, outs0) ∧
      step s (Step.recv sampleClock (sampleMessage REGISTER_OBSERVER 0 0 CORRECT [])
        "127.0.0.1" 9101) = some (s1, ⟨ack, "127.0.0.1", 9101⟩ :: rest) ∧
      ack.type = REGISTER_OBSERVER ∧
      ack.client_id = 999 +
        ((observerRegistrations [sampleRegister "A" 9001, sampleRegisterObserver 9100] : Int)
          + 1) ∧
      (∀ x ∈ rest, x.msg.type = STATUS_UPDATE) :=
  ⟨by decide, register_observer_id _ _ _ _ _ (by decide)⟩

/-- C6, as stated, fails: a thousand programmer registrations followed by one observer
registration form a run that goes through, in which the id 1000 is issued both to a
programmer and to an observer, and after which 1000 is a key of the registry of
programmers and of the table of observers. -/
theorem id_1000_issued_twice :
    (run initial thousandAndOne).isSome = true ∧
    (1000 : Int) ∈ authorAcks (sentAfter thousandAndOne) ∧
    (1000 : Int) ∈ observerAcks (sentAfter thousandAndOne) ∧
    (stateAfter thousandAndOne).programmers.contains 1000 = true ∧
    (stateAfter thousandAndOne).observer_addresses.contains 1000 = true := by
  obtain ⟨sa, oa, hrun, hf⟩ :=
    run_facts initial (List.replicate 1000 (sampleRegister "A" 9001)) inv_initial
  obtain ⟨s1, ob, hstep, hg⟩ := step_facts sa (sampleRegisterObserver 9100) hf.inv
  have hrun1 : run initial thousandAndOne = some (s1, oa ++ (ob ++ [])) :=
    run_append_eq initial _ [sampleRegisterObserver 9100] sa s1 oa (ob ++ []) hrun
      (run_cons_eq sa _ [] s1 s1 ob [] hstep rfl)
  have hnp : sa.next_programmer_id = 1001 := by
    rw [hf.progCounter, registrations_replicate]
    rfl
  have hno : sa.next_observer_id = 1000 := by
    rw [hf.obsCounter, observerRegistrations_replicate]
    rfl
  have hO : isRegisterObserver (sampleRegisterObserver 9100) = true := by decide
  have hP : isRegisterProgrammer (sampleRegisterObserver 9100) = false := by decide
  have hka : sa.programmers.contains 1000 = true := by
    rw [hf.progKeys, registrations_replicate]
    right
    simp [initial]
  have hst := stateAfter_eq thousandAndOne s1 _ hrun1
  have hse := sentAfter_eq thousandAndOne s1 _ hrun1
  refine ⟨?_, ?_, ?_, ?_, ?_⟩
  · rw [hrun1]
    rfl
  · rw [hse, authorAcks_append, hf.progAcks, registrations_replicate]
    apply List.mem_append_left
    rw [mem_idsFrom]
    simp [initial]
  · rw [hse, observerAcks_append, observerAcks_append, hg.obsAcks, hno]
    simp [hO, observerAcks]
  · rw [hst, hg.progKeys]
    exact Or.inl hka
  · rw [hst]
    have := hg.obsNew hO
    rwa [hno] at this

/-- C6, amended. As long as fewer than a thousand programmers have registered, every run
from the initial state goes through, no id is issued both to a programmer and to an
observer, and no id is a key of both the registry of programmers and the table of
observers. -/
theorem ids_disjoint_below_thousand (steps : List Step) (hfew : registrations steps < 1000) :
    ∃ s outs, run initial steps = some (s, outs) ∧
      (∀ id, id ∈ authorAcks outs → id ∉ observerAcks outs) ∧
      (∀ id, s.programmers.contains id = true → s.observer_addresses.contains id = false) := by
  obtain ⟨s, outs, hrun, hf⟩ := run_facts initial steps inv_initial
  have hlt : (registrations steps : Int) < 1000 := by exact_mod_cast hfew
  refine ⟨s, outs, hrun, ?_, ?_⟩
  · intro id h1 h2
    rw [hf.progAcks, mem_idsFrom] at h1
    rw [hf.obsAcks, mem_idsFrom] at h2
    simp only [initial] at h1 h2
    omega
  · intro id h1
    rw [hf.progKeys] at h1
    by_contra h2
    have h3 := hf.inv.obsKeys id (by simpa using h2)
    simp only [initial, Map.contains, Map.find, Option.isSome_none, Bool.false_eq_true,
      false_or] at h1
    omega

/-- Witness for C6, amended: two programmers and an observer register. -/
theorem ids_disjoint_below_thousand_witness :
    registrations [sampleRegister "A" 9001, sampleRegisterObserver 9100,
      sampleRegister "B" 9002] < 1000 ∧
    ∃ s outs,
      run initial [sampleRegister "A" 9001, sampleRegisterObserver 9100,
        sampleRegister "B" 9002] = some (s, outs) ∧
      (∀ id, id ∈ authorAcks outs → id ∉ observerAcks outs) ∧
      (∀ id, s.programmers.contains id = true → s.observer_addresses.contains id = false) :=
  ⟨by decide, ids_disjoint_below_thousand _ (by decide)⟩

/-- C7, as stated, fails: with programmers 1 and 2 registered, programmer 1 submits to
programmer 2 a datagram whose text is empty; the item put into the queue of 2 is named
"Программа1", which is not the (empty) name the datagram gave. -/
theorem submit_empty_name :
    Reachable twoProgrammers ∧
    (sampleMessage SUBMIT_PROGRAM 1 2 CORRECT []).type = SUBMIT_PROGRAM ∧
    twoProgrammers.programmers.contains 1 = true ∧
    twoProgrammers.programmers.contains 2 = true ∧
    cstr (sampleMessage SUBMIT_PROGRAM 1 2 CORRECT []).data = [] ∧
    (processMessage twoProgrammers sampleClock (sampleMessage SUBMIT_PROGRAM 1 2 CORRECT [])
      "127.0.0.1" 9001).map
        (fun r => (r.1.review_queues.get 2 []).map (fun it => it.program_name)) =
      some [lit "Программа1"] ∧
    lit "Программа1" ≠ [] :=
  ⟨reachable_stateAfter _, by decide, by decide, by decide, by decide, by decide, by decide⟩

/-- C7, amended. In every reachable state, a submission whose author id and target id are
both registered is handled as follows.  The new item gets the current value of the item
counter, which then grows by one; it carries the given author and target, and as its name
the text of the datagram, or "Программа" followed by the item id when that text is empty.
The item goes to the tail of the queue of the target.  The author gets state
WAITING_REVIEW, the item id as current program, a new activity text and time stamp.  The
first datagram sent is the notification to the address of the target, with the item id,
the id of the author and the name of the item; the others are snapshot parts.  No other
queue and no other programmer changes. -/
theorem submit_program_effect (s : ServerState) (clk : Clock) (msg : Message)
    (ip : String) (port : Int) (hs : Reachable s) (hty : msg.type = SUBMIT_PROGRAM)
    (ha : s.programmers.contains msg.client_id = true)
    (ht : s.programmers.contains msg.target_id = true) :
    ∃ s1 note addr bouts before queue,
      processMessage s clk msg ip port = some (s1, ⟨note, addr.1, addr.2⟩ :: bouts) ∧
      (∀ x ∈ bouts, x.msg.type = STATUS_UPDATE) ∧
      s.programmer_addresses.find msg.target_id = some addr ∧
      note.type = ASSIGNMENT_NOTIFICATION ∧ note.client_id = msg.target_id ∧
      note.program_id = s.next_program_id ∧ note.target_id = msg.client_id ∧
      cstr note.data =
        (if cstr msg.data = [] then lit "Программа" ++ to_string s.next_program_id
         else cstr msg.data) ∧
      s1.next_program_id = s.next_program_id + 1 ∧
      s.review_queues.find msg.target_id = some queue ∧
      s1.review_queues.find msg.target_id = some (queue ++
        [{ program_id := s.next_program_id, author_id := msg.client_id,
           reviewer_id := msg.target_id,
           program_name :=
             (if cstr msg.data = [] then lit "Программа" ++ to_string s.next_program_id
              else cstr msg.data),
           submitted_time := clk.now }]) ∧
      (∀ k, k ≠ msg.target_id → s1.review_queues.find k = s.review_queues.find k) ∧
      s.programmers.find msg.client_id = some before ∧
      s1.programmers.find msg.client_id = some { before with
        state := WAITING_REVIEW,
        current_program_id := s.next_program_id,
        current_activity := lit "Ожидает проверки программы " ++
          (if cstr msg.data = [] then lit "Программа" ++ to_string s.next_program_id
           else cstr msg.data),
        last_activity := clk.now } ∧
      (∀ k, k ≠ msg.client_id → s1.programmers.find k = s.programmers.find k) := by
  obtain ⟨before, hb⟩ := Map.find_isSome_of_contains _ _ ha
  have hinv := inv_of_reachable s hs
  obtain ⟨queue, hq⟩ := Map.find_isSome_of_contains _ _ ((hinv.queues _).mp ht)
  obtain ⟨s1, note, addr, bouts, heq, _, hst, haddr, hnote, hs1⟩ :=
    handleSubmitProgram_ok s clk msg ip port hinv ha ht
  refine ⟨s1, note, addr, bouts, before, queue, ?_, hst, haddr, ?_, ?_, ?_, ?_, ?_, ?_, hq,
    ?_, ?_, hb, ?_, ?_⟩
  · rw [processMessage_submit s clk msg ip port hty]
    exact heq
  · rw [hnote]
  · rw [hnote]
  · rw [hnote]
  · rw [hnote]
  · rw [hnote]
    exact cstr_strcpy _ _ (zero_not_mem_program_name _ _)
  · rw [hs1]
  · rw [hs1]
    dsimp only
    rw [Map.find_modify_self, Map.get_of_find _ _ _ _ hq]
    rfl
  · intro k hk
    rw [hs1]
    dsimp only
    exact Map.find_modify_ne _ _ _ _ _ hk
  · rw [hs1]
    dsimp only
    rw [Map.find_modify_self, Map.get_of_find _ _ _ _ hb]
  · intro k hk
    rw [hs1]
    dsimp only
    exact Map.find_modify_ne _ _ _ _ _ hk

/-- Witness for C7, amended: programmer 1 submits a program without a name to
programmer 2. -/
theorem submit_program_effect_witness :
    Reachable twoProgrammers ∧
    (sampleMessage SUBMIT_PROGRAM 1 2 CORRECT []).type = SUBMIT_PROGRAM ∧
    twoProgrammers.programmers.contains 1 = true ∧
    twoProgrammers.programmers.contains 2 = true ∧
    ∃ s1 note addr bouts before queue,
      processMessage twoProgrammers sampleClock (sampleMessage SUBMIT_PROGRAM 1 2 CORRECT [])
        "127.0.0.1" 9001 = some (s1, ⟨note, addr.1, addr.2⟩ :: bouts) ∧
      (∀ x ∈ bouts, x.msg.type = STATUS_UPDATE) ∧
      twoProgrammers.programmer_addresses.find 2 = some addr ∧
      note.type = ASSIGNMENT_NOTIFICATION ∧ note.client_id = 2 ∧
      note.program_id = twoProgrammers.next_program_id ∧ note.target_id = 1 ∧
      cstr note.data =
        (if cstr (sampleMessage SUBMIT_PROGRAM 1 2 CORRECT []).data = [] then
           lit "Программа" ++ to_string twoProgrammers.next_program_id
         else cstr (sampleMessage SUBMIT_PROGRAM 1 2 CORRECT []).data) ∧
      s1.next_program_id = twoProgrammers.next_program_id + 1 ∧
      twoProgrammers.review_queues.find 2 = some queue ∧
      s1.review_queues.find 2 = some (queue ++
        [{ program_id := twoProgrammers.next_program_id, author_id := 1, reviewer_id := 2,
           program_name :=
             (if cstr (sampleMessage SUBMIT_PROGRAM 1 2 CORRECT []).data = [] then
                lit "Программа" ++ to_string twoProgrammers.next_program_id
              else cstr (sampleMessage SUBMIT_PROGRAM 1 2 CORRECT []).data),
           submitted_time := sampleClock.now }]) ∧
      (∀ k, k ≠ 2 → s1.review_queues.find k = twoProgrammers.review_queues.find k) ∧
      twoProgrammers.programmers.find 1 = some before ∧
      s1.programmers.find 1 = some { before with
        state := WAITING_REVIEW,
        current_program_id := twoProgrammers.next_program_id,
        current_activity := lit "Ожидает проверки программы " ++
          (if cstr (sampleMessage SUBMIT_PROGRAM 1 2 CORRECT []).data = [] then
             lit "Программа" ++ to_string twoProgrammers.next_program_id
           else cstr (sampleMessage SUBMIT_PROGRAM 1 2 CORRECT []).data),
        last_activity := sampleClock.now } ∧
      (∀ k, k ≠ 1 → s1.programmers.find k = twoProgrammers.programmers.find k) :=
  ⟨reachable_stateAfter _, by decide, by decide, by decide,
    submit_program_effect twoProgrammers sampleClock
      (sampleMessage SUBMIT_PROGRAM 1 2 CORRECT []) "127.0.0.1" 9001
      (reachable_stateAfter _) (by decide) (by decide) (by decide)⟩

/-- C8. In every reachable state, a review request from a registered programmer whose
queue is not empty is handled as follows.  The item at the front leaves the queue and the
items behind it stay as they are, in order.  The first datagram sent is the reply to the
requester with the id, the author id and the name of that item; the others are snapshot
parts.  The requester gets state REVIEWING and an activity text that contains the name of
the item.  No other queue and no other programmer changes. -/
theorem request_review_effect (s : ServerState) (clk : Clock) (msg : Message)
    (ip : String) (port : Int) (item : ProgramReview) (rest : List ProgramReview)
    (hs : Reachable s) (hty : msg.type = REQUEST_REVIEW)
    (hr : s.programmers.contains msg.client_id = true)
    (hq : s.review_queues.find msg.client_id = some (item :: rest)) :
    ∃ s1 reply bouts before,
      processMessage s clk msg ip port = some (s1, ⟨reply, ip, port⟩ :: bouts) ∧
      (∀ x ∈ bouts, x.msg.type = STATUS_UPDATE) ∧
      reply.type = REQUEST_REVIEW ∧ reply.client_id = msg.client_id ∧
      reply.program_id = item.program_id ∧ reply.target_id = item.author_id ∧
      cstr reply.data = item.program_name ∧
      s1.review_queues.find msg.client_id = some rest ∧
      (∀ k, k ≠ msg.client_id → s1.review_queues.find k = s.review_queues.find k) ∧
      s.programmers.find msg.client_id = some before ∧
      s1.programmers.find msg.client_id = some { before with
        state := REVIEWING,
        current_activity := lit "Проверяет программу \x27" ++ item.program_name
          ++ lit "\x27",
        last_activity := clk.now } ∧
      item.program_name <:+: lit "Проверяет программу \x27" ++ item.program_name
        ++ lit "\x27" ∧
      (∀ k, k ≠ msg.client_id → s1.programmers.find k = s.programmers.find k) := by
  obtain ⟨before, hb⟩ := Map.find_isSome_of_contains _ _ hr
  have hinv := inv_of_reachable s hs
  have hname : 0 ∉ item.program_name :=
    (hinv.items _ _ hq item (List.mem_cons_self _ _)).2.2.2.1
  obtain ⟨s1, reply, bouts, heq, _, hst, hreply, hs1⟩ :=
    handleRequestReview_ok s clk msg ip port hinv item rest hr hq
  refine ⟨s1, reply, bouts, before, ?_, hst, ?_, ?_, ?_, ?_, ?_, ?_, ?_, hb, ?_, ?_, ?_⟩
  · rw [processMessage_request s clk msg ip port hty]
    exact heq
  · rw [hreply]
  · rw [hreply]
  · rw [hreply]
  · rw [hreply]
  · rw [hreply]
    exact cstr_strcpy _ _ hname
  · rw [hs1]
    dsimp only
    exact Map.find_insert_self _ _ _
  · intro k hk
    rw [hs1]
    dsimp only
    exact Map.find_insert_ne _ _ _ _ hk
  · rw [hs1]
    dsimp only
    rw [Map.find_modify_self, Map.get_of_find _ _ _ _ hb]
  · exact ⟨lit "Проверяет программу \x27", lit "\x27", rfl⟩
  · intro k hk
    rw [hs1]
    dsimp only
    exact Map.find_modify_ne _ _ _ _ _ hk

/-- Witness for C8: programmer 2 asks for a review while `X` and `Y` wait in its queue. -/
theorem request_review_effect_witness :
    Reachable twoPending ∧
    (sampleMessage REQUEST_REVIEW 2 0 CORRECT []).type = REQUEST_REVIEW ∧
    twoPending.programmers.contains 2 = true ∧
    twoPending.review_queues.find 2 =
      some (ProgramReview.new sampleClock 1 1 2 (lit "X") ::
        [ProgramReview.new sampleClock 2 1 2 (lit "Y")]) ∧
    ∃ s1 reply bouts before,
      processMessage twoPending sampleClock (sampleMessage REQUEST_REVIEW 2 0 CORRECT [])
        "127.0.0.1" 9002 = some (s1, ⟨reply, "127.0.0.1", 9002⟩ :: bouts) ∧
      (∀ x ∈ bouts, x.msg.type = STATUS_UPDATE) ∧
      reply.type = REQUEST_REVIEW ∧ reply.client_id = 2 ∧
      reply.program_id = 1 ∧ reply.target_id = 1 ∧
      cstr reply.data = lit "X" ∧
      s1.review_queues.find 2 = some [ProgramReview.new sampleClock 2 1 2 (lit "Y")] ∧
      (∀ k, k ≠ 2 → s1.review_queues.find k = twoPending.review_queues.find k) ∧
      twoPending.programmers.find 2 = some before ∧
      s1.programmers.find 2 = some { before with
        state := REVIEWING,
        current_activity := lit "Проверяет программу \x27" ++ lit "X" ++ lit "\x27",
        last_activity := sampleClock.now } ∧
      lit "X" <:+: lit "Проверяет программу \x27" ++ lit "X" ++ lit "\x27" ∧
      (∀ k, k ≠ 2 → s1.programmers.find k = twoPending.programmers.find k) :=
  ⟨reachable_stateAfter _, by decide, by decide, by decide,
    request_review_effect twoPending sampleClock (sampleMessage REQUEST_REVIEW 2 0 CORRECT [])
      "127.0.0.1" 9002 (ProgramReview.new sampleClock 1 1 2 (lit "X"))
      [ProgramReview.new sampleClock 2 1 2 (lit "Y")]
      (reachable_stateAfter _) (by decide) (by decide) (by decide)⟩

/-- C9. A review request from a registered programmer whose queue is empty sends exactly
one datagram, the reply to the requester with item id 0 and the text
"No programs to review", and leaves the server state as it was. -/
theorem request_review_empty_queue (s : ServerState) (clk : Clock) (msg : Message)
    (ip : String) (port : Int) (hty : msg.type = REQUEST_REVIEW)
    (hr : s.programmers.contains msg.client_id = true)
    (hq : s.review_queues.find msg.client_id = some []) :
    ∃ reply, processMessage s clk msg ip port = some (s, [⟨reply, ip, port⟩]) ∧
      reply.type = REQUEST_REVIEW ∧ reply.client_id = msg.client_id ∧
      reply.program_id = 0 ∧ cstr reply.data = lit "No programs to review" := by
  refine ⟨{ Message.new clk with
    type := REQUEST_REVIEW, client_id := msg.client_id, program_id := 0,
    data := strcpy zeroData (lit "No programs to review") }, ?_, rfl, rfl, rfl, ?_⟩
  · have h := handleRequestReview_empty s clk msg ip port hr hq
    simpa [processMessage, hty, REQUEST_REVIEW, SUBMIT_PROGRAM, REGISTER_PROGRAMMER,
      REGISTER_OBSERVER] using h
  · exact cstr_strcpy _ _ (by decide)

/-- Witness for C9: programmer 2 asks for a review while nothing has been submitted. -/
theorem request_review_empty_queue_witness :
    (sampleMessage REQUEST_REVIEW 2 0 CORRECT []).type = REQUEST_REVIEW ∧
    twoProgrammers.programmers.contains 2 = true ∧
    twoProgrammers.review_queues.find 2 = some [] ∧
    ∃ reply,
      processMessage twoProgrammers sampleClock (sampleMessage REQUEST_REVIEW 2 0 CORRECT [])
        "127.0.0.1" 9002 = some (twoProgrammers, [⟨reply, "127.0.0.1", 9002⟩]) ∧
      reply.type = REQUEST_REVIEW ∧
      reply.client_id = (sampleMessage REQUEST_REVIEW 2 0 CORRECT []).client_id ∧
      reply.program_id = 0 ∧ cstr reply.data = lit "No programs to review" :=
  ⟨by decide, by decide, by decide,
    request_review_empty_queue twoProgrammers sampleClock
      (sampleMessage REQUEST_REVIEW 2 0 CORRECT []) "127.0.0.1" 9002 (by decide) (by decide)
      (by decide)⟩

/-- C10. A submission, a review request, a review result or a heartbeat that names an id
missing from the registry leaves the whole server state as it was and sends nothing. -/
theorem unknown_id_is_noop (s : ServerState) (clk : Clock) (msg : Message)
    (ip : String) (port : Int) (h : UnknownReference s msg) :
    processMessage s clk msg ip port = some (s, []) := by
  rcases h with ⟨hty, hu⟩ | ⟨hty, hu⟩ | ⟨hty, hu⟩ | ⟨hty, hu⟩
  · have h1 := handleSubmitProgram_unknown s clk msg ip port hu
    simpa [processMessage, hty, SUBMIT_PROGRAM, REGISTER_PROGRAMMER, REGISTER_OBSERVER] using h1
  · have h1 := handleRequestReview_unknown s clk msg ip port hu
    simpa [processMessage, hty, REQUEST_REVIEW, SUBMIT_PROGRAM, REGISTER_PROGRAMMER,
      REGISTER_OBSERVER] using h1
  · have h1 := handleReviewResult_unknown s clk msg ip port hu
    simpa [processMessage, hty, REVIEW_RESULT, REQUEST_REVIEW, SUBMIT_PROGRAM,
      REGISTER_PROGRAMMER, REGISTER_OBSERVER] using h1
  · have h1 := handleHeartbeat_unknown s clk msg ip port hu
    simpa [processMessage, hty, HEARTBEAT, DISCONNECT, REVIEW_RESULT, REQUEST_REVIEW,
      SUBMIT_PROGRAM, REGISTER_PROGRAMMER, REGISTER_OBSERVER] using h1

/-- Witness for C10: with programmers 1 and 2 registered, a submission to the unknown
id 7, and a review request, a review result and a heartbeat from it, change nothing. -/
theorem unknown_id_is_noop_witness :
    (UnknownReference twoProgrammers (sampleMessage SUBMIT_PROGRAM 1 7 CORRECT (lit "X")) ∧
      processMessage twoProgrammers sampleClock
        (sampleMessage SUBMIT_PROGRAM 1 7 CORRECT (lit "X")) "127.0.0.1" 9001 =
        some (twoProgrammers, [])) ∧
    (UnknownReference twoProgrammers (sampleMessage REQUEST_REVIEW 7 0 CORRECT []) ∧
      processMessage twoProgrammers sampleClock
        (sampleMessage REQUEST_REVIEW 7 0 CORRECT []) "127.0.0.1" 9007 =
        some (twoProgrammers, [])) ∧
    (UnknownReference twoProgrammers (sampleMessage REVIEW_RESULT 7 1 INCORRECT []) ∧
      processMessage twoProgrammers sampleClock
        (sampleMessage REVIEW_RESULT 7 1 INCORRECT []) "127.0.0.1" 9007 =
        some (twoProgrammers, [])) ∧
    (UnknownReference twoProgrammers (sampleMessage HEARTBEAT 7 0 CORRECT []) ∧
      processMessage twoProgrammers sampleClock
        (sampleMessage HEARTBEAT 7 0 CORRECT []) "127.0.0.1" 9007 =
        some (twoProgrammers, [])) :=
  ⟨⟨Or.inl ⟨by decide, Or.inr (by decide)⟩,
      unknown_id_is_noop _ _ _ _ _ (Or.inl ⟨by decide, Or.inr (by decide)⟩)⟩,
    ⟨Or.inr (Or.inl ⟨by decide, by decide⟩),
      unknown_id_is_noop _ _ _ _ _ (Or.inr (Or.inl ⟨by decide, by decide⟩))⟩,
    ⟨Or.inr (Or.inr (Or.inl ⟨by decide, Or.inl (by decide)⟩)),
      unknown_id_is_noop _ _ _ _ _ (Or.inr (Or.inr (Or.inl ⟨by decide, Or.inl (by decide)⟩)))⟩,
    ⟨Or.inr (Or.inr (Or.inr ⟨by decide, by decide⟩)),
      unknown_id_is_noop _ _ _ _ _ (Or.inr (Or.inr (Or.inr ⟨by decide, by decide⟩)))⟩⟩

/-- C17. In every reachable state, a review result whose reviewer id and author id are
both registered makes the server send the received datagram itself, equal in every field,
to the registered address of the author; every other datagram it sends is a snapshot
part. -/
theorem verdict_passthrough (s : ServerState) (clk : Clock) (msg : Message)
    (ip : String) (port : Int) (hs : Reachable s) (hty : msg.type = REVIEW_RESULT)
    (hr : s.programmers.contains msg.client_id = true)
    (ha : s.programmers.contains msg.target_id = true) :
    ∃ s1 addr bouts,
      processMessage s clk msg ip port = some (s1, ⟨msg, addr.1, addr.2⟩ :: bouts) ∧
      s.programmer_addresses.find msg.target_id = some addr ∧
      (∀ x ∈ bouts, x.msg.type = STATUS_UPDATE) := by
  obtain ⟨s1, addr, bouts, heq, _, hst, haddr, _⟩ :=
    handleReviewResult_ok s clk msg ip port (inv_of_reachable s hs) hr ha
  refine ⟨s1, addr, bouts, ?_, haddr, hst⟩
  rw [processMessage_reviewResult s clk msg ip port hty]
  exact heq

/-- Witness for C17: programmer 2 reports that the program of programmer 1 has errors. -/
theorem verdict_passthrough_witness :
    Reachable twoProgrammers ∧
    (sampleMessage REVIEW_RESULT 2 1 INCORRECT (lit "Program has errors")).type =
      REVIEW_RESULT ∧
    twoProgrammers.programmers.contains 2 = true ∧
    twoProgrammers.programmers.contains 1 = true ∧
    ∃ s1 addr bouts,
      processMessage twoProgrammers sampleClock
        (sampleMessage REVIEW_RESULT 2 1 INCORRECT (lit "Program has errors"))
        "127.0.0.1" 9002 =
        some (s1, ⟨sampleMessage REVIEW_RESULT 2 1 INCORRECT (lit "Program has errors"),
          addr.1, addr.2⟩ :: bouts) ∧
      twoProgrammers.programmer_addresses.find 1 = some addr ∧
      (∀ x ∈ bouts, x.msg.type = STATUS_UPDATE) :=
  ⟨reachable_stateAfter _, by decide, by decide, by decide,
    verdict_passthrough twoProgrammers sampleClock
      (sampleMessage REVIEW_RESULT 2 1 INCORRECT (lit "Program has errors")) "127.0.0.1" 9002
      (reachable_stateAfter _) (by decide) (by decide) (by decide)⟩

/-- C18. In every reachable state a programmer registration goes through.  The id is the
current value of the programmer counter, which then grows by one, and it was not in use.
Under it the registry gets a record with state WRITING, connected, no written or reviewed
programs and no current program; the name is the text of the datagram, or "Программист"
followed by the decimal id when that text is empty.  The address table gets the address
of the sender and the queue table an empty queue.  The first datagram sent is the
acknowledgement to the sender with the id; the others are snapshot parts.  No other
record, address or queue changes. -/
theorem register_programmer_effect (s : ServerState) (clk : Clock) (msg : Message)
    (ip : String) (port : Int) (hs : Reachable s) (hty : msg.type = REGISTER_PROGRAMMER) :
    ∃ s1 ack bouts,
      processMessage s clk msg ip port = some (s1, ⟨ack, ip, port⟩ :: bouts) ∧
      (∀ x ∈ bouts, x.msg.type = STATUS_UPDATE) ∧
      ack.type = REGISTER_PROGRAMMER ∧ ack.client_id = s.next_programmer_id ∧
      s1.next_programmer_id = s.next_programmer_id + 1 ∧
      s.programmers.find s.next_programmer_id = none ∧
      s.review_queues.find s.next_programmer_id = none ∧
      s1.programmers.find s.next_programmer_id = some
        { id := s.next_programmer_id,
          name := (if cstr msg.data = [] then lit "Программист" ++ to_string s.next_programmer_id
                   else cstr msg.data),
          state := WRITING, programs_written := 0, programs_reviewed := 0,
          current_program_id := 0, current_activity := lit "Starting work",
          last_activity := clk.now, is_connected := true } ∧
      s1.programmer_addresses.find s.next_programmer_id = some (ip, port) ∧
      s1.review_queues.find s.next_programmer_id = some [] ∧
      (∀ k, k ≠ s.next_programmer_id →
        s1.programmers.find k = s.programmers.find k ∧
        s1.programmer_addresses.find k = s.programmer_addresses.find k ∧
        s1.review_queues.find k = s.review_queues.find k) := by
  have hinv := inv_of_reachable s hs
  obtain ⟨s1, ack, bouts, heq, _, hst, hat, hac, hnp, _, _, _, hprog, haddr, hq⟩ :=
    handleRegisterProgrammer_ok s clk msg ip port hinv
  have hnc := not_contains_next_programmer s hinv
  have hnone : s.programmers.find s.next_programmer_id = none := by
    simpa [Map.contains] using hnc
  have hqnone : s.review_queues.find s.next_programmer_id = none := by
    have h3 : s.review_queues.contains s.next_programmer_id = false := by
      by_contra h4
      have h5 := (hinv.queues _).mpr (by simpa using h4)
      simp [hnc] at h5
    simpa [Map.contains] using h3
  refine ⟨s1, ack, bouts, ?_, hst, hat, hac, hnp, hnone, hqnone, ?_, ?_, ?_, ?_⟩
  · simp only [processMessage, hty, if_true]
    exact heq
  · rw [hprog]
    exact Map.find_insert_self _ _ _
  · rw [haddr]
    exact Map.find_insert_self _ _ _
  · rw [hq]
    exact Map.find_insert_self _ _ _
  · intro k hk
    rw [hprog, haddr, hq]
    exact ⟨Map.find_insert_ne _ _ _ _ hk, Map.find_insert_ne _ _ _ _ hk,
      Map.find_insert_ne _ _ _ _ hk⟩

/-- Witness for C18: a third programmer registers without giving a name and is entered as
"Программист3". -/
theorem register_programmer_effect_witness :
    Reachable twoProgrammers ∧
    (sampleMessage REGISTER_PROGRAMMER 0 0 CORRECT []).type = REGISTER_PROGRAMMER ∧
    ∃ s1 ack bouts,
      processMessage twoProgrammers sampleClock (sampleMessage REGISTER_PROGRAMMER 0 0 CORRECT [])
        "127.0.0.1" 9003 = some (s1, ⟨ack, "127.0.0.1", 9003⟩ :: bouts) ∧
      (∀ x ∈ bouts, x.msg.type = STATUS_UPDATE) ∧
      ack.type = REGISTER_PROGRAMMER ∧ ack.client_id = twoProgrammers.next_programmer_id ∧
      s1.next_programmer_id = twoProgrammers.next_programmer_id + 1 ∧
      twoProgrammers.programmers.find twoProgrammers.next_programmer_id = none ∧
      twoProgrammers.review_queues.find twoProgrammers.next_programmer_id = none ∧
      s1.programmers.find twoProgrammers.next_programmer_id = some
        { id := twoProgrammers.next_programmer_id,
          name := (if cstr (sampleMessage REGISTER_PROGRAMMER 0 0 CORRECT []).data = [] then
                     lit "Программист" ++ to_string twoProgrammers.next_programmer_id
                   else cstr (sampleMessage REGISTER_PROGRAMMER 0 0 CORRECT []).data),
          state := WRITING, programs_written := 0, programs_reviewed := 0,
          current_program_id := 0, current_activity := lit "Starting work",
          last_activity := sampleClock.now, is_connected := true } ∧
      s1.programmer_addresses.find twoProgrammers.next_programmer_id =
        some ("127.0.0.1", 9003) ∧
      s1.review_queues.find twoProgrammers.next_programmer_id = some [] ∧
      (∀ k, k ≠ twoProgrammers.next_programmer_id →
        s1.programmers.find k = twoProgrammers.programmers.find k ∧
        s1.programmer_addresses.find k = twoProgrammers.programmer_addresses.find k ∧
        s1.review_queues.find k = twoProgrammers.review_queues.find k) :=
  ⟨reachable_stateAfter _, by decide,
    register_programmer_effect twoProgrammers sampleClock
      (sampleMessage REGISTER_PROGRAMMER 0 0 CORRECT []) "127.0.0.1" 9003
      (reachable_stateAfter _) (by decide)⟩

/-- C19. A datagram whose kind is none of the seven the server has a case for (so also
SHUTDOWN, STATUS_UPDATE, ASSIGNMENT_NOTIFICATION and every value outside 1..10) leaves the
whole server state, the `running` flag included, as it was and sends nothing. -/
theorem unknown_kind_dropped (s : ServerState) (clk : Clock) (msg : Message)
    (ip : String) (port : Int) (h : ¬ HandledKind msg.type) :
    processMessage s clk msg ip port = some (s, []) := by
  simp only [HandledKind, not_or] at h
  obtain ⟨h1, h2, h3, h4, h5, h6, h7⟩ := h
  simp [processMessage, h1, h2, h3, h4, h5, h6, h7]

/-- Witness for C19: SHUTDOWN, STATUS_UPDATE and ASSIGNMENT_NOTIFICATION datagrams and
datagrams of the kinds 0 and 11 are dropped. -/
theorem unknown_kind_dropped_witness :
    (¬ HandledKind (sampleMessage SHUTDOWN 1 0 CORRECT []).type ∧
      processMessage twoProgrammers sampleClock (sampleMessage SHUTDOWN 1 0 CORRECT [])
        "127.0.0.1" 9001 = some (twoProgrammers, [])) ∧
    (¬ HandledKind (sampleMessage STATUS_UPDATE 1 0 CORRECT []).type ∧
      processMessage twoProgrammers sampleClock (sampleMessage STATUS_UPDATE 1 0 CORRECT [])
        "127.0.0.1" 9001 = some (twoProgrammers, [])) ∧
    (¬ HandledKind (sampleMessage ASSIGNMENT_NOTIFICATION 1 2 CORRECT []).type ∧
      processMessage twoProgrammers sampleClock
        (sampleMessage ASSIGNMENT_NOTIFICATION 1 2 CORRECT []) "127.0.0.1" 9001 =
        some (twoProgrammers, [])) ∧
    (¬ HandledKind (sampleMessage 0 1 0 CORRECT []).type ∧
      processMessage twoProgrammers sampleClock (sampleMessage 0 1 0 CORRECT [])
        "127.0.0.1" 9001 = some (twoProgrammers, [])) ∧
    (¬ HandledKind (sampleMessage 11 1 0 CORRECT []).type ∧
      processMessage twoProgrammers sampleClock (sampleMessage 11 1 0 CORRECT [])
        "127.0.0.1" 9001 = some (twoProgrammers, [])) :=
  ⟨⟨by decide, unknown_kind_dropped _ _ _ _ _ (by decide)⟩,
    ⟨by decide, unknown_kind_dropped _ _ _ _ _ (by decide)⟩,
    ⟨by decide, unknown_kind_dropped _ _ _ _ _ (by decide)⟩,
    ⟨by decide, unknown_kind_dropped _ _ _ _ _ (by decide)⟩,
    ⟨by decide, unknown_kind_dropped _ _ _ _ _ (by decide)⟩⟩

/-- C11. In every reachable state a disconnect datagram is handled as follows.  When its
id is a registered programmer, the record of that programmer keeps every field but
`is_connected`, which becomes false, and the table of observers stays as it is.  When its
id is no registered programmer, the registry stays as it is, the id is no key of the
table of observers afterwards and the other observers stay.  In both cases the addresses
and queues of the programmers, the counters and `running` are unchanged, and every
datagram sent is a snapshot part for an observer that is registered after the step, sent
to the address of that observer: the sender gets no reply. -/
theorem disconnect_effect (s : ServerState) (clk : Clock) (msg : Message)
    (ip : String) (port : Int) (hs : Reachable s) (hty : msg.type = DISCONNECT) :
    ∃ s1 outs,
      processMessage s clk msg ip port = some (s1, outs) ∧
      (∀ before, s.programmers.find msg.client_id = some before →
        s1.programmers.find msg.client_id = some { before with is_connected := false } ∧
        (∀ k, k ≠ msg.client_id → s1.programmers.find k = s.programmers.find k) ∧
        s1.observer_addresses = s.observer_addresses) ∧
      (s.programmers.find msg.client_id = none →
        s1.programmers = s.programmers ∧
        s1.observer_addresses.find msg.client_id = none ∧
        (∀ k, k ≠ msg.client_id →
          s1.observer_addresses.find k = s.observer_addresses.find k)) ∧
      s1.programmer_addresses = s.programmer_addresses ∧
      s1.review_queues = s.review_queues ∧
      s1.next_programmer_id = s.next_programmer_id ∧
      s1.next_observer_id = s.next_observer_id ∧
      s1.next_program_id = s.next_program_id ∧
      s1.running = s.running ∧
      (∀ x ∈ outs, x.msg.type = STATUS_UPDATE ∧
        s1.observer_addresses.find x.msg.client_id = some (x.ip, x.port)) := by
  obtain ⟨s1, bouts, heq, _, _, hs1⟩ :=
    handleDisconnect_ok s clk msg ip port (inv_of_reachable s hs)
  have hsent := handleDisconnect_sent s clk msg ip port s1 bouts heq
  refine ⟨s1, bouts, ?_, ?_, ?_, ?_, ?_, ?_, ?_, ?_, ?_, broadcast_addressed s1 clk bouts hsent⟩
  · rw [processMessage_disconnect s clk msg ip port hty]
    exact heq
  · intro before hb
    have hc : s.programmers.contains msg.client_id = true := by simp [Map.contains, hb]
    have hs2 : s1 = { s with
        programmers := s.programmers.modify msg.client_id (ProgrammerInfo.default clk)
          (fun p => { p with is_connected := false }) } := by
      rw [hs1, if_pos hc]
    rw [hs2]
    refine ⟨?_, ?_, rfl⟩
    · dsimp only
      rw [Map.find_modify_self, Map.get_of_find _ _ _ _ hb]
    · intro k hk
      dsimp only
      exact Map.find_modify_ne _ _ _ _ _ hk
  · intro hn
    have hc : s.programmers.contains msg.client_id = false := by simp [Map.contains, hn]
    rw [hs1]
    simp only [hc, Bool.false_eq_true, if_false]
    split
    · exact ⟨rfl, find_erase_self _ _, fun k hk => find_erase_ne _ _ _ hk⟩
    · rename_i ho
      refine ⟨rfl, ?_, fun _ _ => rfl⟩
      simpa [Map.contains] using ho
  all_goals
    rw [hs1]
    split
    · rfl
    · split <;> rfl

/-- Witness for C11: the observer 1000 disconnects while programmers 1 and 2 are
registered. -/
theorem disconnect_effect_witness :
    Reachable withObserver ∧
    (sampleMessage DISCONNECT 1000 0 CORRECT (lit "Observer disconnecting")).type =
      DISCONNECT ∧
    ∃ s1 outs,
      processMessage withObserver sampleClock
        (sampleMessage DISCONNECT 1000 0 CORRECT (lit "Observer disconnecting"))
        "127.0.0.1" 9100 = some (s1, outs) ∧
      (∀ before, withObserver.programmers.find 1000 = some before →
        s1.programmers.find 1000 = some { before with is_connected := false } ∧
        (∀ k, k ≠ 1000 → s1.programmers.find k = withObserver.programmers.find k) ∧
        s1.observer_addresses = withObserver.observer_addresses) ∧
      (withObserver.programmers.find 1000 = none →
        s1.programmers = withObserver.programmers ∧
        s1.observer_addresses.find 1000 = none ∧
        (∀ k, k ≠ 1000 →
          s1.observer_addresses.find k = withObserver.observer_addresses.find k)) ∧
      s1.programmer_addresses = withObserver.programmer_addresses ∧
      s1.review_queues = withObserver.review_queues ∧
      s1.next_programmer_id = withObserver.next_programmer_id ∧
      s1.next_observer_id = withObserver.next_observer_id ∧
      s1.next_program_id = withObserver.next_program_id ∧
      s1.running = withObserver.running ∧
      (∀ x ∈ outs, x.msg.type = STATUS_UPDATE ∧
        s1.observer_addresses.find x.msg.client_id = some (x.ip, x.port)) :=
  ⟨reachable_stateAfter _, by decide,
    disconnect_effect withObserver sampleClock
      (sampleMessage DISCONNECT 1000 0 CORRECT (lit "Observer disconnecting")) "127.0.0.1" 9100
      (reachable_stateAfter _) (by decide)⟩

/-- C12. In every reachable state a liveness check at time `now` goes through.
Afterwards a programmer is connected exactly when it was connected before and
`now - last_activity` is at most the timeout of 15 seconds; no other field of its record
changes and no record appears.  The addresses, the queues, the counters, the table of
observers and `running` are unchanged.  Every datagram sent is a snapshot part for a
registered observer, sent to the address of that observer. -/
theorem sweep_effect (s : ServerState) (clk : Clock) (hs : Reachable s) :
    ∃ s1 outs,
      checkHeartbeats s clk = some (s1, outs) ∧
      (∀ a before, s.programmers.find a = some before →
        s1.programmers.find a = some { before with
          is_connected := before.is_connected &&
            decide (clk.now - before.last_activity ≤ 15) }) ∧
      (∀ a, s.programmers.find a = none → s1.programmers.find a = none) ∧
      s1.programmer_addresses = s.programmer_addresses ∧
      s1.observer_addresses = s.observer_addresses ∧
      s1.review_queues = s.review_queues ∧
      s1.next_programmer_id = s.next_programmer_id ∧
      s1.next_observer_id = s.next_observer_id ∧
      s1.next_program_id = s.next_program_id ∧
      s1.running = s.running ∧
      (∀ x ∈ outs, x.msg.type = STATUS_UPDATE ∧
        s.observer_addresses.find x.msg.client_id = some (x.ip, x.port)) := by
  obtain ⟨s1, outs, heq, _⟩ := checkHeartbeats_ok s clk (inv_of_reachable s hs)
  obtain ⟨hsame, haddr, hfind, hnone⟩ := checkHeartbeats_effect s s1 clk outs heq
  obtain ⟨a1, a2, a3, a4, a5, a6, a7⟩ := hsame
  exact ⟨s1, outs, heq, hfind, hnone, a2, a3, a4, a5, a6, a7, a1, haddr⟩

/-- Witness for C12: programmers 1 and 2 were last heard of at time 1000 and the liveness
check runs at time 1016. -/
theorem sweep_effect_witness :
    Reachable withObserver ∧
    ∃ s1 outs,
      checkHeartbeats withObserver (clockAt 1016) = some (s1, outs) ∧
      (∀ a before, withObserver.programmers.find a = some before →
        s1.programmers.find a = some { before with
          is_connected := before.is_connected &&
            decide ((clockAt 1016).now - before.last_activity ≤ 15) }) ∧
      (∀ a, withObserver.programmers.find a = none → s1.programmers.find a = none) ∧
      s1.programmer_addresses = withObserver.programmer_addresses ∧
      s1.observer_addresses = withObserver.observer_addresses ∧
      s1.review_queues = withObserver.review_queues ∧
      s1.next_programmer_id = withObserver.next_programmer_id ∧
      s1.next_observer_id = withObserver.next_observer_id ∧
      s1.next_program_id = withObserver.next_program_id ∧
      s1.running = withObserver.running ∧
      (∀ x ∈ outs, x.msg.type = STATUS_UPDATE ∧
        withObserver.observer_addresses.find x.msg.client_id = some (x.ip, x.port)) :=
  ⟨reachable_stateAfter _, sweep_effect withObserver (clockAt 1016) (reachable_stateAfter _)⟩

/-- C16. A heartbeat of a registered programmer sends nothing, sets `last_activity` of
that programmer to the time of handling and `is_connected` to true, and changes nothing
else.  After it, the same heartbeat handled any number of further times, at any times,
still sends nothing and changes nothing but `last_activity` of that programmer, which is
the time of the last handling. -/
theorem heartbeat_idempotent (s : ServerState) (clk : Clock) (msg : Message)
    (ip : String) (port : Int) (before : ProgrammerInfo) (hty : msg.type = HEARTBEAT)
    (hb : s.programmers.find msg.client_id = some before) :
    ∃ s1, processMessage s clk msg ip port = some (s1, []) ∧
      s1.programmers.find msg.client_id =
        some { before with last_activity := clk.now, is_connected := true } ∧
      (∀ k, k ≠ msg.client_id → s1.programmers.find k = s.programmers.find k) ∧
      SameButFlags s s1 ∧
      ∀ clocks : List Clock,
        ∃ sn, run s1 (heartbeats msg ip port clocks) = some (sn, []) ∧
          sn.programmers.find msg.client_id = some { before with
            last_activity := (clocks.getLast?.map (fun c => c.now)).getD clk.now,
            is_connected := true } ∧
          (∀ k, k ≠ msg.client_id → sn.programmers.find k = s1.programmers.find k) ∧
          SameButFlags s1 sn := by
  obtain ⟨s1, h1, hf1, hk1, hs1⟩ := heartbeat_once s clk msg ip port before hty hb
  refine ⟨s1, h1, hf1, hk1, hs1, ?_⟩
  intro clocks
  obtain ⟨sn, h2, hf2, hk2, hs2⟩ := heartbeat_again msg ip port hty clocks s1 _ hf1 rfl
  exact ⟨sn, h2, hf2, hk2, hs2⟩

/-- Witness for C16: programmer 1 sends its heartbeat, handled at time 1005 and then again
at the times 1010 and 1015. -/
theorem heartbeat_idempotent_witness :
    (sampleMessage HEARTBEAT 1 0 CORRECT []).type = HEARTBEAT ∧
    twoProgrammers.programmers.find 1 =
      some (ProgrammerInfo.new sampleClock 1 (lit "A")) ∧
    ∃ s1, processMessage twoProgrammers (clockAt 1005) (sampleMessage HEARTBEAT 1 0 CORRECT [])
        "127.0.0.1" 9001 = some (s1, []) ∧
      s1.programmers.find 1 =
        some { ProgrammerInfo.new sampleClock 1 (lit "A") with
          last_activity := (clockAt 1005).now, is_connected := true } ∧
      (∀ k, k ≠ 1 → s1.programmers.find k = twoProgrammers.programmers.find k) ∧
      SameButFlags twoProgrammers s1 ∧
      ∀ clocks : List Clock,
        ∃ sn, run s1 (heartbeats (sampleMessage HEARTBEAT 1 0 CORRECT []) "127.0.0.1" 9001
            clocks) = some (sn, []) ∧
          sn.programmers.find 1 = some { ProgrammerInfo.new sampleClock 1 (lit "A") with
            last_activity := (clocks.getLast?.map (fun c => c.now)).getD (clockAt 1005).now,
            is_connected := true } ∧
          (∀ k, k ≠ 1 → sn.programmers.find k = s1.programmers.find k) ∧
          SameButFlags s1 sn :=
  ⟨by decide, by decide,
    heartbeat_idempotent twoProgrammers (clockAt 1005) (sampleMessage HEARTBEAT 1 0 CORRECT [])
      "127.0.0.1" 9001 (ProgrammerInfo.new sampleClock 1 (lit "A")) (by decide) (by decide)⟩

/-- C20 fails on the code: the registered observer 1000 asks for a refresh, its client
sends one STATUS_UPDATE datagram carrying its id, and the server, which has no case for
that kind, keeps its state and sends nothing back. -/
theorem status_request_dropped :
    Reachable withObserver ∧
    withObserver.observer_addresses.find 1000 = some ("127.0.0.1", 9100) ∧
    (sampleObserver.requestStatusUpdate (clockAt 1005)).map
        (fun m => (m.type, m.client_id)) = [(STATUS_UPDATE, 1000)] ∧
    (sampleObserver.requestStatusUpdate (clockAt 1005)).map
        (fun m => processMessage withObserver (clockAt 1005) m "127.0.0.1" 9100) =
      [some (withObserver, [])] :=
  ⟨reachable_stateAfter _, by decide, by decide, by decide⟩

/-- C13, as stated, fails: programmer 1 has registered and disconnected, so its flag is
false; the next step is again a disconnect datagram naming 1, and the flag does not go
from true to false in it, it stays false. -/
theorem disconnect_of_disconnected :
    Reachable oneGone ∧
    (oneGone.programmers.find 1).map (fun p => p.is_connected) = some false ∧
    Disconnects 1 1000 (sampleDisconnect 1 9001) ∧
    (step oneGone (sampleDisconnect 1 9001)).map
      (fun r => (r.1.programmers.find 1).map (fun p => p.is_connected)) = some (some false) :=
  ⟨reachable_stateAfter _, by decide, ⟨rfl, rfl⟩, by decide⟩

/-- C13, amended. In every reachable state, for every programmer `a` that is connected
and every step, the step goes through and `a` is disconnected after it if and only if the
step is a disconnect datagram naming `a`, or a liveness check at a time `now` with
`now - last_activity` of `a` greater than the timeout. -/
theorem connection_lost_iff (s : ServerState) (a : Int) (before : ProgrammerInfo) (e : Step)
    (hs : Reachable s) (hb : s.programmers.find a = some before)
    (hc : before.is_connected = true) :
    ∃ s1 outs after,
      step s e = some (s1, outs) ∧ s1.programmers.find a = some after ∧
      (after.is_connected = false ↔ Disconnects a before.last_activity e) := by
  have hinv := inv_of_reachable s hs
  cases e with
  | sweep clk =>
      obtain ⟨s1, outs, heq, _⟩ := checkHeartbeats_ok s clk hinv
      obtain ⟨_, _, hfind, _⟩ := checkHeartbeats_effect s s1 clk outs heq
      refine ⟨s1, outs, swept clk.now before, heq, hfind a before hb, ?_⟩
      simp only [swept, hc, Bool.true_and, decide_eq_false_iff_not, Disconnects]
      omega
  | recv clk msg ip port =>
      by_cases hty : msg.type = DISCONNECT
      · obtain ⟨s1, bouts, heq, _, _, hs1⟩ := handleDisconnect_ok s clk msg ip port hinv
        have hstep : step s (Step.recv clk msg ip port) = some (s1, bouts) := by
          rw [← heq]
          exact processMessage_disconnect s clk msg ip port hty
        by_cases hid : msg.client_id = a
        · have hca : s.programmers.contains msg.client_id = true := by
            rw [hid]
            simp [Map.contains, hb]
          refine ⟨s1, bouts, { before with is_connected := false }, hstep, ?_, ?_⟩
          · rw [hs1, if_pos hca]
            dsimp only
            rw [hid, Map.find_modify_self, Map.get_of_find _ _ _ _ hb]
          · simp [Disconnects, hty, hid]
        · have hne : a ≠ msg.client_id := fun h => hid h.symm
          refine ⟨s1, bouts, before, hstep, ?_, ?_⟩
          · rw [hs1]
            split
            · dsimp only
              rw [Map.find_modify_ne _ _ _ _ _ hne]
              exact hb
            · split <;> exact hb
          · simp [Disconnects, hid, hc]
      · obtain ⟨s1, outs, hstep, after, hfa, hca⟩ :=
          recv_keeps_connected s clk msg ip port hinv a before hb hc hty
        refine ⟨s1, outs, after, hstep, hfa, ?_⟩
        simp [Disconnects, hty, hca]

/-- Witness for C13, amended: programmer 1 is connected and the step is a disconnect
datagram naming it. -/
theorem connection_lost_iff_witness :
    Reachable twoProgrammers ∧
    twoProgrammers.programmers.find 1 = some (ProgrammerInfo.new sampleClock 1 (lit "A")) ∧
    (ProgrammerInfo.new sampleClock 1 (lit "A")).is_connected = true ∧
    ∃ s1 outs after,
      step twoProgrammers (sampleDisconnect 1 9001) = some (s1, outs) ∧
      s1.programmers.find 1 = some after ∧
      (after.is_connected = false ↔
        Disconnects 1 (ProgrammerInfo.new sampleClock 1 (lit "A")).last_activity
          (sampleDisconnect 1 9001)) :=
  ⟨reachable_stateAfter _, by decide, rfl,
    connection_lost_iff twoProgrammers 1 (ProgrammerInfo.new sampleClock 1 (lit "A"))
      (sampleDisconnect 1 9001) (reachable_stateAfter _) (by decide) rfl⟩

/-- C14. Snapshot fragmentation round trip.  In every reachable state, at any time and for
every registered observer id `o` with address `addr`, `sendFullStatusToObserver` builds
the snapshot text, which has no NUL byte, and sends data parts followed by one final
datagram such that: all of them are STATUS_UPDATE datagrams tagged with `o` and sent to
`addr`; the data parts are numbered 1, 2, ..., n, each carries between 1 and 255 bytes,
and their texts put together in order are the snapshot text; the final datagram has part
number 0 and reads "END_OF_STATUS".  An observer client with id `o` that handles them in
order prints once, what it had accumulated followed by the snapshot text, and ends with an
empty accumulator; with an empty accumulator to start with, as after construction and
after every complete snapshot, it prints exactly the snapshot text. -/
theorem snapshot_round_trip (s : ServerState) (clk : Clock) (o : Int) (addr : Address)
    (obs : ObserverClient) (hs : Reachable s)
    (ha : s.observer_addresses.find o = some addr) (hid : obs.client_id = o) :
    ∃ text parts final,
      statusText s clk = some text ∧ 0 ∉ text ∧
      sendFullStatusToObserver s clk o = some (parts ++ [final]) ∧
      parts ≠ [] ∧
      (∀ x ∈ parts ++ [final], x.msg.type = STATUS_UPDATE ∧ x.msg.client_id = o ∧
        x.ip = addr.1 ∧ x.port = addr.2) ∧
      parts.map (fun x => x.msg.program_id) = idsFrom 1 parts.length ∧
      (∀ x ∈ parts, 1 ≤ (cstr x.msg.data).length ∧ (cstr x.msg.data).length ≤ 255) ∧
      parts.flatMap (fun x => cstr x.msg.data) = text ∧
      final.msg.program_id = 0 ∧ cstr final.msg.data = lit "END_OF_STATUS" ∧
      obs.processMessages ((parts ++ [final]).map (fun x => x.msg)) =
        ({ obs with accumulated_status := [] }, [obs.accumulated_status ++ text]) ∧
      (obs.accumulated_status = [] →
        obs.processMessages ((parts ++ [final]).map (fun x => x.msg)) =
          ({ obs with accumulated_status := [] }, [text])) := by
  have hinv := inv_of_reachable s hs
  have ht := tidy_of_reachable s hs
  obtain ⟨text, htext⟩ := statusText_isSome s clk hinv
  obtain ⟨hnul, hend⟩ := statusText_tidy s clk text htext ht.texts
  obtain ⟨parts, final, hsplit, hfields, hnum, hlen, hcat, hz, hfin, hmark⟩ :=
    sendStatus_split clk o addr text hnul
  have hne : parts ≠ [] := by
    intro hnil
    rw [hnil] at hcat
    exact (statusText_ok s clk text ht htext).2 hcat.symm
  have hparts : ∀ x ∈ parts.map (fun x => x.msg),
      x.type = STATUS_UPDATE ∧ x.client_id = obs.client_id ∧
        cstr x.data ≠ lit "END_OF_STATUS" := by
    intro x hx
    obtain ⟨y, hy, rfl⟩ := List.mem_map.mp hx
    obtain ⟨h1, h2, _, _⟩ := hfields y (List.mem_append_left _ hy)
    exact ⟨h1, by rw [h2, hid], hmark hend y hy⟩
  obtain ⟨hf1, hf2, _, _⟩ := hfields final (List.mem_append_right _ (List.mem_singleton_self _))
  have hrun : obs.processMessages ((parts ++ [final]).map (fun x => x.msg)) =
      ({ obs with accumulated_status := [] }, [obs.accumulated_status ++ text]) := by
    rw [List.map_append, ObserverClient.processMessages_append,
      ObserverClient.processMessages_parts obs _ hparts]
    simp only [List.map_cons, List.map_nil, ObserverClient.processMessages,
      ObserverClient.processMessage, ObserverClient.handleStatusUpdate, hfin, hid, hf1, hf2,
      List.flatMap_map, hcat]
    simp
  refine ⟨text, parts, final, htext, hnul, ?_, hne, hfields, hnum, hlen, hcat, hz, hfin,
    hrun, ?_⟩
  · rw [← hsplit]
    exact sendFull_eq s clk o addr text ha htext
  · intro hacc
    rw [hrun, hacc]
    simp

/-- Witness for C14: the snapshot of two registered programmers sent to observer 1000,
which handles it with an empty accumulator. -/
theorem snapshot_round_trip_witness :
    Reachable withObserver ∧
    withObserver.observer_addresses.find 1000 = some ("127.0.0.1", 9100) ∧
    sampleObserver.client_id = 1000 ∧
    ∃ text parts final,
      statusText withObserver sampleClock = some text ∧ 0 ∉ text ∧
      sendFullStatusToObserver withObserver sampleClock 1000 = some (parts ++ [final]) ∧
      parts ≠ [] ∧
      (∀ x ∈ parts ++ [final], x.msg.type = STATUS_UPDATE ∧ x.msg.client_id = 1000 ∧
        x.ip = "127.0.0.1" ∧ x.port = 9100) ∧
      parts.map (fun x => x.msg.program_id) = idsFrom 1 parts.length ∧
      (∀ x ∈ parts, 1 ≤ (cstr x.msg.data).length ∧ (cstr x.msg.data).length ≤ 255) ∧
      parts.flatMap (fun x => cstr x.msg.data) = text ∧
      final.msg.program_id = 0 ∧ cstr final.msg.data = lit "END_OF_STATUS" ∧
      sampleObserver.processMessages ((parts ++ [final]).map (fun x => x.msg)) =
        ({ sampleObserver with accumulated_status := [] },
          [sampleObserver.accumulated_status ++ text]) ∧
      (sampleObserver.accumulated_status = [] →
        sampleObserver.processMessages ((parts ++ [final]).map (fun x => x.msg)) =
          ({ sampleObserver with accumulated_status := [] }, [text])) :=
  ⟨reachable_stateAfter _, by decide, rfl,
    snapshot_round_trip withObserver sampleClock 1000 ("127.0.0.1", 9100) sampleObserver
      (reachable_stateAfter _) (by decide) rfl⟩

set_option maxRecDepth 100000 in
/-- C15, as stated, fails: observer 1000 is registered and a second observer registers;
after the step observer 1000 is still registered at its address, but no datagram of the
step is tagged with 1000 or sent to its port: only the new observer gets the snapshot. -/
theorem second_observer_only :
    Reachable withObserver ∧
    withObserver.observer_addresses.find 1000 = some ("127.0.0.1", 9100) ∧
    isRegisterObserver (sampleRegisterObserver 9101) = true ∧
    (step withObserver (sampleRegisterObserver 9101)).map
      (fun r => (r.1.observer_addresses.find 1000,
        r.2.filter (fun x => x.msg.client_id == 1000 || x.port == 9100),
        (r.2.filter (fun x => x.msg.client_id == 1001 && x.port == 9101)).length)) =
      some (some ("127.0.0.1", 9100), [], 5) := by
  refine ⟨reachable_stateAfter _, ?_, ?_, ?_⟩ <;> decide

/-- C15, amended.  In every reachable state every step goes through.  After a programmer
registration, an accepted submission, a review request that hands out an item, an
accepted review result, a disconnect datagram, or a liveness check that disconnects a
programmer, the datagrams sent hold, for every observer registered after the step, a
complete snapshot of the state the step leaves, sent to the address of that observer: at
least one data part, numbered from 1, whose texts put together are the snapshot text of
that state, and then the end marker.  After an observer registration they hold such a
snapshot for the new observer, and no snapshot part for any other observer. -/
theorem snapshot_after_step (s : ServerState) (e : Step) (hs : Reachable s) :
    ∃ s1 outs, step s e = some (s1, outs) ∧
      (Broadcasting s e → ∀ o addr, s1.observer_addresses.find o = some addr →
        ∃ text, statusText s1 (stepClock e) = some text ∧
          CompleteSnapshot o addr text outs) ∧
      (isRegisterObserver e = true →
        (∃ addr text, s1.observer_addresses.find s.next_observer_id = some addr ∧
          statusText s1 (stepClock e) = some text ∧
          CompleteSnapshot s.next_observer_id addr text outs) ∧
        (∀ x ∈ outs, x.msg.type = STATUS_UPDATE → x.msg.client_id = s.next_observer_id)) := by
  have hinv := inv_of_reachable s hs
  obtain ⟨s1, outs, hstep, _⟩ := step_facts s e hinv
  have ht1 : Tidy s1 := (step_tidy s e hinv (tidy_of_reachable s hs) s1 outs hstep).1
  refine ⟨s1, outs, hstep, ?_, ?_⟩
  · intro hb o addr ha
    have hend : ∃ sent bouts, outs = sent ++ bouts ∧
        broadcastStatusUpdate s1 (stepClock e) = some bouts := by
      cases e with
      | sweep clk =>
          obtain ⟨a, v, hv, hc, hl⟩ := hb
          exact checkHeartbeatsLoop_final clk _ s s1 outs hstep
            ⟨a, (Map.contains_iff_mem_keys _ _).mp (by simp [Map.contains, hv]), v, hv, hc, hl⟩
      | recv clk msg ip port => exact recv_broadcast s clk msg ip port s1 outs hb hstep
    obtain ⟨sent, bouts, ho, hbc⟩ := hend
    obtain ⟨text, htext, hsn⟩ := broadcast_snapshots s1 (stepClock e) bouts hbc o addr ha
    obtain ⟨hnul, hne⟩ := statusText_ok s1 (stepClock e) text ht1 htext
    rw [ho]
    exact ⟨text, htext, SnapshotIn.complete (hsn.append_left sent) hnul hne⟩
  · intro hreg
    cases e with
    | sweep clk => simp [isRegisterObserver] at hreg
    | recv clk msg ip port =>
        have hty : msg.type = REGISTER_OBSERVER := by
          simpa [isRegisterObserver] using hreg
        have hstep1 : handleRegisterObserver s clk msg ip port = some (s1, outs) := by
          rw [← processMessage_registerObserver s clk msg ip port hty]
          exact hstep
        obtain ⟨s2, ack, bouts2, heq, _, _, _, _, _, _, _, hobs, _⟩ :=
          handleRegisterObserver_ok s clk msg ip port hinv
        rw [hstep1] at heq
        simp only [Option.some.injEq, Prod.mk.injEq] at heq
        obtain ⟨hs2, _⟩ := heq
        subst hs2
        have hfind : s1.observer_addresses.find s.next_observer_id = some (ip, port) := by
          rw [hobs]
          exact Map.find_insert_self _ _ _
        obtain ⟨sent, bouts, ho, hsend, hsent⟩ :=
          handleRegisterObserver_sent s clk msg ip port s1 outs hstep1
        obtain ⟨text, htext, hb2⟩ := sendFull_snapshot s1 clk _ _ bouts hfind hsend
        obtain ⟨hnul, hne⟩ := statusText_ok s1 clk text ht1 htext
        have hsn : SnapshotIn clk s.next_observer_id (ip, port) text outs :=
          ⟨sent, [], by rw [ho, hb2]; simp⟩
        refine ⟨⟨(ip, port), text, hfind, htext, SnapshotIn.complete hsn hnul hne⟩, ?_⟩
        intro x hx hxt
        rw [ho] at hx
        rcases List.mem_append.mp hx with h1 | h1
        · have := hsent x h1
          rw [this] at hxt
          exact absurd hxt (by decide)
        · rw [hb2] at h1
          exact (sendStatus_fields clk _ _ text x h1).2.1

/-- Witness for C15, amended: with observer 1000 registered, programmer 1 submits `X` to
programmer 2. -/
theorem snapshot_after_step_witness :
    Reachable withObserver ∧
    ∃ s1 outs, step withObserver (sampleSubmit 1 2 "X") = some (s1, outs) ∧
      (Broadcasting withObserver (sampleSubmit 1 2 "X") →
        ∀ o addr, s1.observer_addresses.find o = some addr →
          ∃ text, statusText s1 (stepClock (sampleSubmit 1 2 "X")) = some text ∧
            CompleteSnapshot o addr text outs) ∧
      (isRegisterObserver (sampleSubmit 1 2 "X") = true →
        (∃ addr text, s1.observer_addresses.find withObserver.next_observer_id = some addr ∧
          statusText s1 (stepClock (sampleSubmit 1 2 "X")) = some text ∧
          CompleteSnapshot withObserver.next_observer_id addr text outs) ∧
        (∀ x ∈ outs, x.msg.type = STATUS_UPDATE →
          x.msg.client_id = withObserver.next_observer_id)) :=
  ⟨reachable_stateAfter _,
    snapshot_after_step withObserver (sampleSubmit 1 2 "X") (reachable_stateAfter _)⟩

/-- C21. An item is in at most one queue at a time.  Every run from the initial state
goes through, and in the state it ends in: the ids of all pending items, over all queues
of the table, are pairwise distinct, so no id occurs twice in the queue of one reviewer
and none occurs in the queues of two reviewers; every entry of the table is the queue of
its key; every pending id is at least 1 and below the item counter; the item counter is
one more than the number of submissions accepted so far; and a submission accepted next
is announced to the reviewer, and appended to the reviewer's queue, under that number, so
the k-th accepted submission gets item id k. -/
theorem item_ids_distinct (steps : List Step) :
    ∃ s outs, run initial steps = some (s, outs) ∧
      (pendingIds s).Nodup ∧
      (∀ k q, s.review_queues.find k = some q → (q.map (fun it => it.program_id)).Nodup) ∧
      (∀ k1 k2 q1 q2, k1 ≠ k2 → s.review_queues.find k1 = some q1 →
        s.review_queues.find k2 = some q2 →
        ∀ it1 ∈ q1, ∀ it2 ∈ q2, it1.program_id ≠ it2.program_id) ∧
      (∀ e ∈ s.review_queues, s.review_queues.find e.1 = some e.2) ∧
      (∀ i ∈ pendingIds s, 1 ≤ i ∧ i < s.next_program_id) ∧
      s.next_program_id = (accepted initial steps : Int) + 1 ∧
      ∀ clk msg ip port, isAccepted s (Step.recv clk msg ip port) = true →
        ∃ s1 note bouts q item,
          step s (Step.recv clk msg ip port) = some (s1, note :: bouts) ∧
          note.msg.type = ASSIGNMENT_NOTIFICATION ∧
          note.msg.program_id = (accepted initial steps : Int) + 1 ∧
          s.review_queues.find msg.target_id = some q ∧
          s1.review_queues.find msg.target_id = some (q ++ [item]) ∧
          item.program_id = (accepted initial steps : Int) + 1 := by
  obtain ⟨s, outs, hrun, hinv, ht, hn⟩ := run_tidy initial steps inv_initial tidy_initial
  have hcount : s.next_program_id = (accepted initial steps : Int) + 1 := by
    rw [hn]
    simp only [initial]
    omega
  refine ⟨s, outs, hrun, ht.queues.pending, ht.queues.nodup, ht.queues.apart,
    find_of_mem_sorted _ ht.queues.sorted, ?_, hcount, ?_⟩
  · intro i hi
    simp only [pendingIds, List.mem_flatMap, List.mem_map] at hi
    obtain ⟨e, he, it, hit, rfl⟩ := hi
    have hok := hinv.items e.1 e.2 (find_of_mem_sorted _ ht.queues.sorted e he) it hit
    exact ⟨hok.2.1, hok.2.2.1⟩
  · intro clk msg ip port hacc
    simp only [isAccepted, Bool.and_eq_true, beq_iff_eq] at hacc
    obtain ⟨⟨hty, ha⟩, htg⟩ := hacc
    obtain ⟨s1, note, addr, bouts, heq, _, _, _, hnote, hs1⟩ :=
      handleSubmitProgram_ok s clk msg ip port hinv ha htg
    obtain ⟨q, hq⟩ := Map.find_isSome_of_contains _ _ ((hinv.queues _).mp htg)
    refine ⟨s1, ⟨note, addr.1, addr.2⟩, bouts, q,
      ProgramReview.new clk s.next_program_id msg.client_id msg.target_id
        (if cstr msg.data = [] then lit "Программа" ++ to_string s.next_program_id
         else cstr msg.data), ?_, ?_, ?_, hq, ?_, ?_⟩
    · rw [← heq]
      exact processMessage_submit s clk msg ip port hty
    · rw [hnote]
    · rw [hnote, ← hcount]
    · rw [hs1]
      dsimp only
      rw [Map.find_modify_self, Map.get_of_find _ _ _ _ hq]
    · exact hcount

/-- C22. Registry well-formedness.  In every reachable state: the registry of
programmers, the table of their addresses and the table of queues have the same ids; every
record of the registry is stored under its own id; every item of every queue of the table
is addressed to the reviewer whose queue it is in and names a registered author; for any
clock the snapshot text is built, so `review_queues.at` does not throw, and
`sendFullStatusToObserver` returns; every step goes through, and the only id it can add to
the registry is the one a programmer registration hands out, whose record is the one
built by `ProgrammerInfo(id, name)`: no default-constructed record is inserted. -/
theorem registry_well_formed (s : ServerState) (hs : Reachable s) :
    (∀ k, s.programmers.contains k = true ↔ s.programmer_addresses.contains k = true) ∧
    (∀ k, s.programmers.contains k = true ↔ s.review_queues.contains k = true) ∧
    (∀ e ∈ s.programmers, e.2.id = e.1) ∧
    (∀ e ∈ s.review_queues, ∀ it ∈ e.2,
      it.reviewer_id = e.1 ∧ s.programmers.contains it.author_id = true) ∧
    (∀ clk, ∃ text, statusText s clk = some text) ∧
    (∀ clk o, ∃ outs, sendFullStatusToObserver s clk o = some outs) ∧
    (∀ e, ∃ s1 outs, step s e = some (s1, outs) ∧
      ∀ k, s1.programmers.contains k = true →
        s.programmers.contains k = true ∨
        (isRegisterProgrammer e = true ∧ k = s.next_programmer_id ∧
          ∃ name, s1.programmers.find k =
            some (ProgrammerInfo.new (stepClock e) k name))) := by
  have hinv := inv_of_reachable s hs
  have ht := tidy_of_reachable s hs
  refine ⟨hinv.addrs, hinv.queues, hinv.ids, ?_, fun clk => statusText_isSome s clk hinv,
    fun clk o => sendFull_isSome s clk o hinv, ?_⟩
  · intro e he it hit
    have hok := hinv.items e.1 e.2 (find_of_mem_sorted _ ht.queues.sorted e he) it hit
    exact ⟨hok.2.2.2.2, hok.1⟩
  · intro e
    obtain ⟨s1, outs, hstep, hf⟩ := step_facts s e hinv
    refine ⟨s1, outs, hstep, ?_⟩
    intro k hk
    rcases (hf.progKeys k).mp hk with h1 | ⟨h1, h2⟩
    · exact Or.inl h1
    · refine Or.inr ⟨h1, h2, ?_⟩
      cases e with
      | sweep clk => simp [isRegisterProgrammer] at h1
      | recv clk msg ip port =>
          have hty : msg.type = REGISTER_PROGRAMMER := by
            simpa [isRegisterProgrammer] using h1
          obtain ⟨s2, ack, bouts, heq, _, _, _, _, _, _, _, _, hprog, _⟩ :=
            handleRegisterProgrammer_ok s clk msg ip port hinv
          have hstep1 : handleRegisterProgrammer s clk msg ip port = some (s1, outs) := by
            rw [← processMessage_registerProgrammer s clk msg ip port hty]
            exact hstep
          rw [hstep1] at heq
          simp only [Option.some.injEq, Prod.mk.injEq] at heq
          obtain ⟨hs2, _⟩ := heq
          subst hs2
          rw [hprog, h2]
          exact ⟨_, Map.find_insert_self _ _ _⟩

/-- Witness for C22: the state in which programmers `A` and `B` are registered and two
items of `A` wait in the queue of `B`. -/
theorem registry_well_formed_witness :
    Reachable twoPending ∧
    (∀ k, twoPending.programmers.contains k = true ↔
      twoPending.programmer_addresses.contains k = true) ∧
    (∀ k, twoPending.programmers.contains k = true ↔
      twoPending.review_queues.contains k = true) ∧
    (∀ e ∈ twoPending.programmers, e.2.id = e.1) ∧
    (∀ e ∈ twoPending.review_queues, ∀ it ∈ e.2,
      it.reviewer_id = e.1 ∧ twoPending.programmers.contains it.author_id = true) ∧
    (∀ clk, ∃ text, statusText twoPending clk = some text) ∧
    (∀ clk o, ∃ outs, sendFullStatusToObserver twoPending clk o = some outs) ∧
    (∀ e, ∃ s1 outs, step twoPending e = some (s1, outs) ∧
      ∀ k, s1.programmers.contains k = true →
        twoPending.programmers.contains k = true ∨
        (isRegisterProgrammer e = true ∧ k = twoPending.next_programmer_id ∧
          ∃ name, s1.programmers.find k =
            some (ProgrammerInfo.new (stepClock e) k name))) :=
  ⟨reachable_stateAfter _, registry_well_formed twoPending (reachable_stateAfter _)⟩

/-- C23. No data part can be mistaken for the end marker.  In every reachable state, at
any time, `sendFullStatusToObserver` builds the snapshot text and returns, and no datagram
it sends with a part number of 1 or more reads "END_OF_STATUS".  For a registered observer the datagrams are the data parts, each
numbered 1 or more and none reading "END_OF_STATUS", followed by one final datagram with
part number 0 that reads "END_OF_STATUS"; an observer client with that id and an empty
accumulator prints nothing while it handles the data parts, has the whole text
accumulated after them, and prints exactly the text when it handles the final one. -/
theorem no_part_reads_as_marker (s : ServerState) (clk : Clock) (o : Int)
    (hs : Reachable s) :
    ∃ text outs, statusText s clk = some text ∧
      sendFullStatusToObserver s clk o = some outs ∧
      (∀ x ∈ outs, 1 ≤ x.msg.program_id → cstr x.msg.data ≠ lit "END_OF_STATUS") ∧
      (∀ addr, s.observer_addresses.find o = some addr →
        ∃ parts final, outs = parts ++ [final] ∧
          (∀ x ∈ parts, 1 ≤ x.msg.program_id ∧ cstr x.msg.data ≠ lit "END_OF_STATUS") ∧
          final.msg.program_id = 0 ∧ cstr final.msg.data = lit "END_OF_STATUS" ∧
          ∀ obs : ObserverClient, obs.client_id = o → obs.accumulated_status = [] →
            obs.processMessages (parts.map (fun x => x.msg)) =
              ({ obs with accumulated_status := text }, []) ∧
            obs.processMessages ((parts ++ [final]).map (fun x => x.msg)) =
              ({ obs with accumulated_status := [] }, [text])) := by
  have hinv := inv_of_reachable s hs
  have ht := tidy_of_reachable s hs
  obtain ⟨text, htext⟩ := statusText_isSome s clk hinv
  obtain ⟨hnul, hend⟩ := statusText_tidy s clk text htext ht.texts
  cases hfind : s.observer_addresses.find o with
  | none =>
      refine ⟨text, [], htext, sendFull_unregistered s clk o hfind, by simp, ?_⟩
      intro addr ha
      simp at ha
  | some addr =>
      obtain ⟨parts, hp⟩ : ∃ parts, parts = sendParts
          { Message.new clk with type := STATUS_UPDATE, client_id := o } addr text.length
          text 1 := ⟨_, rfl⟩
      obtain ⟨hnum, _, hcat⟩ := sendParts_spec
        { Message.new clk with type := STATUS_UPDATE, client_id := o } addr text.length text 1
        hnul (Nat.le_refl _)
      have hmark := sendParts_no_marker
        { Message.new clk with type := STATUS_UPDATE, client_id := o } addr text.length text 1
        hnul (Or.inr hend)
      rw [← hp] at hnum hcat hmark
      have hfields := sendStatus_fields clk o addr text
      have hfinal : cstr (strcpy zeroData (lit "END_OF_STATUS")) = lit "END_OF_STATUS" :=
        cstr_strcpy _ _ (by decide)
      have hsplit : sendStatus clk o addr text = parts ++
          [⟨{ Message.new clk with
              type := STATUS_UPDATE, client_id := o,
              data := strcpy zeroData (lit "END_OF_STATUS"), program_id := 0 },
            addr.1, addr.2⟩] := by
        rw [hp]
        rfl
      rw [hsplit] at hfields
      have hpos : ∀ x ∈ parts, 1 ≤ x.msg.program_id := by
        intro x hx
        have h3 : x.msg.program_id ∈ idsFrom 1 parts.length := by
          rw [← hnum]
          exact List.mem_map.mpr ⟨x, hx, rfl⟩
        rw [mem_idsFrom] at h3
        exact h3.1
      refine ⟨text, sendStatus clk o addr text, htext,
        sendFull_eq s clk o addr text hfind htext, ?_, ?_⟩
      · intro x hx hx1
        rw [hsplit] at hx
        rcases List.mem_append.mp hx with h1 | h1
        · exact hmark x h1
        · simp only [List.mem_singleton] at h1
          rw [h1] at hx1
          simp at hx1
      · intro addr1 ha1
        refine ⟨parts, _, hsplit, fun x hx => ⟨hpos x hx, hmark x hx⟩, rfl, hfinal, ?_⟩
        intro obs hid hacc
        have hparts : ∀ x ∈ parts.map (fun x => x.msg),
            x.type = STATUS_UPDATE ∧ x.client_id = obs.client_id ∧
              cstr x.data ≠ lit "END_OF_STATUS" := by
          intro x hx
          obtain ⟨y, hy, rfl⟩ := List.mem_map.mp hx
          obtain ⟨h1, h2, _, _⟩ := hfields y (List.mem_append_left _ hy)
          exact ⟨h1, by rw [h2, hid], hmark y hy⟩
        have hfirst : obs.processMessages (parts.map (fun x => x.msg)) =
            ({ obs with accumulated_status := text }, []) := by
          rw [ObserverClient.processMessages_parts obs _ hparts, hacc, List.flatMap_map, hcat]
          simp
        refine ⟨hfirst, ?_⟩
        rw [List.map_append, ObserverClient.processMessages_append, hfirst]
        simp only [List.map_cons, List.map_nil, ObserverClient.processMessages,
          ObserverClient.processMessage, ObserverClient.handleStatusUpdate, hfinal, hid]
        simp

/-- Witness for C23: the snapshot sent to observer 1000 in the state where programmers
`A` and `B` and that observer are registered. -/
theorem no_part_reads_as_marker_witness :
    Reachable withObserver ∧
    ∃ text outs, statusText withObserver sampleClock = some text ∧
      sendFullStatusToObserver withObserver sampleClock 1000 = some outs ∧
      (∀ x ∈ outs, 1 ≤ x.msg.program_id → cstr x.msg.data ≠ lit "END_OF_STATUS") ∧
      (∀ addr, withObserver.observer_addresses.find 1000 = some addr →
        ∃ parts final, outs = parts ++ [final] ∧
          (∀ x ∈ parts, 1 ≤ x.msg.program_id ∧ cstr x.msg.data ≠ lit "END_OF_STATUS") ∧
          final.msg.program_id = 0 ∧ cstr final.msg.data = lit "END_OF_STATUS" ∧
          ∀ obs : ObserverClient, obs.client_id = 1000 → obs.accumulated_status = [] →
            obs.processMessages (parts.map (fun x => x.msg)) =
              ({ obs with accumulated_status := text }, []) ∧
            obs.processMessages ((parts ++ [final]).map (fun x => x.msg)) =
              ({ obs with accumulated_status := [] }, [text])) :=
  ⟨reachable_stateAfter _,
    no_part_reads_as_marker withObserver sampleClock 1000 (reachable_stateAfter _)⟩

end ProgrammersServer
